import Mathlib

/-!
# epl::vector (src/Vector.h): a double-ended growable sequence with checked iterators

Shallow embedding of the class template `epl::vector<T>` and of its nested
`iterator`, followed by the properties proved about them.

Conventions of the embedding.

* A `T*` is a 64-bit byte address, a natural number below `2 ^ 64`; `nullptr`
  is `0`.  Pointer arithmetic is address arithmetic modulo `2 ^ 64` in steps of
  `sizeof(T)`, which is what the 64-bit targets of the `uint64_t` fields do.
* Every `uint64_t` field is a natural number below `2 ^ 64` and every update
  of one is written with an explicit `% 2 ^ 64`.
* The block a vector owns (the memory obtained from `operator new`) is the
  field `heap`: slot `i` of it is the object at address `sbegin + i * sizeof(T)`,
  `some x` when an element `x` has been constructed there and `none` when the
  slot is raw memory.
* `operator new` gets the address the allocator offers as an explicit argument
  `a` of the operations that may allocate.
* A reference `T&` is the address of the object it designates; `fetch` reads
  the object behind it.  The parameter `const T& that` of `push_back` is a
  `Ref`: an object outside the vector, given by its value, or the address of
  an element of the vector itself, which is read when the code reads `that`.
* A member function that mutates the object returns an `Outcome`: it returned
  normally and left the object in a state, it threw and left the object in a
  state, or it ran into undefined behaviour (an access to an object that does
  not exist).
-/

set_option linter.unusedSectionVars false

namespace epl

/-- The element type: its size in bytes, `sizeof(T)`, which is positive, and
what its move constructor leaves behind.  `T(std::move(obj))` on an object that
holds `x` constructs an element that holds `x` and leaves `obj` holding
`moved x` (for `int`, `x` itself; for a `std::string`, the empty string). -/
class Sized (T : Type) where
  sizeof : Nat
  sizeof_pos : 0 < sizeof
  moved : T → T

/-- The largest object size, `PTRDIFF_MAX` bytes. -/
def PTRDIFF_MAX : Nat := 2 ^ 63 - 1

/-- The enum `invalid_iterator::SeverityLevel` (Vector.h line 20). -/
inductive SeverityLevel where
  | SEVERE
  | MODERATE
  | MILD
  | WARNING
  deriving DecidableEq, Repr

/-- What is thrown: `std::out_of_range` with its message, `epl::invalid_iterator`
with its level, and the `std::bad_alloc` of `operator new`. -/
inductive Exception where
  | out_of_range (what : String)
  | invalid_iterator (level : SeverityLevel)
  | bad_alloc
  deriving DecidableEq, Repr

/-- The spec's `IndexOutOfRange`: what `operator[]` throws (lines 178, 183). -/
def IndexOutOfRange : Exception := Exception.out_of_range "subscript out of range"

/-- The spec's `EmptyContainer`: what `pop_back` and `pop_front` throw (lines 317, 325). -/
def EmptyContainer : Exception := Exception.out_of_range "no data to be poped"

/-- The spec's `InvalidCursor` with a severity: what `check_exception` throws. -/
def InvalidCursor (level : SeverityLevel) : Exception := Exception.invalid_iterator level

/-- How a call of a mutating member function ends. -/
inductive Outcome (σ : Type) where
  | done (s : σ)
  | raised (e : Exception) (s : σ)
  | undefined
  deriving DecidableEq, Repr

/-- Conversion of a signed value to `uint64_t`. -/
def to_u64 (i : Int) : Nat := (i % 2 ^ 64).toNat

/-- Reading a 64-bit pattern as the signed `int64_t`/`ptrdiff_t`. -/
def to_i64 (n : Nat) : Int :=
  if n % 2 ^ 64 < 2 ^ 63 then ((n % 2 ^ 64 : Nat) : Int) else ((n % 2 ^ 64 : Nat) : Int) - 2 ^ 64

/-- The pointer `p + k` for a `T* p` and an unsigned `k`. -/
def ptr_add (T : Type) [Sized T] (p k : Nat) : Nat := (p + k * Sized.sizeof T) % 2 ^ 64

/-- The pointer `p - k` for a `T* p` and an unsigned `k`. -/
def ptr_sub (T : Type) [Sized T] (p k : Nat) : Nat :=
  (p + (2 ^ 64 - k * Sized.sizeof T % 2 ^ 64)) % 2 ^ 64

/-- The pointer `p + k` for a `T* p` and a signed `int64_t k`. -/
def ptr_add_int (T : Type) [Sized T] (p : Nat) (k : Int) : Nat :=
  to_u64 ((p : Int) + k * (Sized.sizeof T : Int))

/-- The difference `p - q` of two `T*`, a `ptrdiff_t` counted in elements. -/
def ptr_diff (T : Type) [Sized T] (p q : Nat) : Int :=
  Int.tdiv (to_i64 (p + (2 ^ 64 - q % 2 ^ 64))) (Sized.sizeof T : Int)

/-- The slot of the block at `base` that the address `p` designates, if any. -/
def slot (T : Type) [Sized T] (base : Nat) (heap : List (Option T)) (p : Nat) : Option Nat :=
  if base ≤ p ∧ (p - base) % Sized.sizeof T = 0 ∧ (p - base) / Sized.sizeof T < heap.length
  then some ((p - base) / Sized.sizeof T) else none

/-- Reading the element behind `p`, an address into the block at `base`:
defined only when an element has been constructed there. -/
def fetch (T : Type) [Sized T] (base : Nat) (heap : List (Option T)) (p : Nat) : Option T :=
  match slot T base heap p with
  | none => none
  | some i => (heap.getD i none)

/-- Placement construction `new (p) T(x)` in the block at `base`: defined only
when `p` designates a slot of the block. -/
def construct (T : Type) [Sized T] (base : Nat) (heap : List (Option T)) (p : Nat) (x : T) :
    Option (List (Option T)) :=
  match slot T base heap p with
  | none => none
  | some i => some (heap.set i (some x))

/-- The destructor call `p -> ~T()` in the block at `base`: defined only when an
element has been constructed at `p`. -/
def destruct (T : Type) [Sized T] (base : Nat) (heap : List (Option T)) (p : Nat) :
    Option (List (Option T)) :=
  match fetch T base heap p with
  | none => none
  | some _ => (slot T base heap p).map (fun i => heap.set i none)

/-- The allocation `operator new(bytes)` when the allocator offers the region at
address `a`: the region is handed out when it can be an object (not null, at
most `PTRDIFF_MAX` bytes, ending below the top of the address space);
otherwise `std::bad_alloc` is thrown, which is `none`. -/
def operator_new (a bytes : Nat) : Option Nat :=
  if 0 < a ∧ bytes ≤ PTRDIFF_MAX ∧ a + bytes < 2 ^ 64 then some a else none

/-- The raw memory of a fresh block of `bytes` bytes: as many unconstructed
slots as whole elements fit. -/
def raw_block (T : Type) [Sized T] (bytes : Nat) : List (Option T) :=
  List.replicate (bytes / Sized.sizeof T) none

/-- The global `static int min_capacity = 8` (line 35). -/
def min_capacity : Nat := 8

/-- The data members of `epl::vector<T>` (lines 39-47), and the block it owns. -/
structure vector (T : Type) where
  dbegin : Nat
  dend : Nat
  sbegin : Nat
  send : Nat
  length : Nat
  storage : Nat
  front_storage : Nat
  reallocate_times : Nat
  vector_version : Nat
  heap : List (Option T)
  deriving DecidableEq, Repr

/-- The loop `for (k = 0; k < length; k++) new (dst + k) T(std::move(src[k]))`
of the growth paths of `push_back(T&&)` and `push_front` (lines 229-232,
261-264, 294-297) and the copying loop of `copy` (lines 708-711), entered at
`k` with `n` iterations to go.  `src` points into the block `sheap` at `sbase`,
`dst` into the block at `dbase`, whose contents are threaded.  These callers
read nothing from the old block after the loop (the growth paths destruct it
and release it), so what the moves leave in it is not tracked here;
`relocate_move` is the loop with that tracked. -/
def relocate (T : Type) [Sized T] (sbase : Nat) (sheap : List (Option T)) (src : Nat)
    (dbase : Nat) (dst : Nat) : Nat → Nat → List (Option T) → Option (List (Option T))
  | 0, _, h => some h
  | n + 1, k, h =>
    match fetch T sbase sheap (ptr_add T src k) with
    | none => none
    | some x =>
      match construct T dbase h (ptr_add T dst k) x with
      | none => none
      | some h1 => relocate T sbase sheap src dbase dst n (k + 1) h1

/-- What the parameter `const T& that` of `push_back` is bound to: an object
that is not an element of the vector, with the value it holds, or the element
of the vector at the address `p` (as in `v.push_back(v[0])`). -/
inductive Ref (T : Type) where
  | object (x : T)
  | element (p : Nat)

/-- A value passed as the argument is an object that is not an element of the
vector. -/
instance Ref.ofValue (T : Type) : Coe T (Ref T) := ⟨Ref.object⟩

/-- Reading `that` when the block at `base` has the contents `heap`: defined
for an element of the vector only when an element is constructed there. -/
def Ref.read (T : Type) [Sized T] (base : Nat) (heap : List (Option T)) : Ref T → Option T
  | Ref.object x => some x
  | Ref.element p => fetch T base heap p

/-- The source side of `T(std::move(*p))` for `p` in the block at `base`:
defined only when an element has been constructed at `p`; it yields the value
the new element gets and leaves the object at `p` moved-from. -/
def move_from (T : Type) [Sized T] (base : Nat) (heap : List (Option T)) (p : Nat) :
    Option (T × List (Option T)) :=
  match slot T base heap p with
  | none => none
  | some i =>
    match heap.getD i none with
    | none => none
    | some x => some (x, heap.set i (some (Sized.moved x)))

/-- The loop `for (k = 0; k < length; k++) new (dst + k) T(std::move(src[k]))`
of `push_back(const T&)` (lines 199-202), entered at `k` with `n` iterations to
go, with the contents of both blocks threaded: the old block at `sbase`, whose
elements are left moved-from one after the other, and the new block at
`dbase`.  The result is the pair of the old and the new block. -/
def relocate_move (T : Type) [Sized T] (sbase : Nat) (src : Nat) (dbase : Nat) (dst : Nat) :
    Nat → Nat → List (Option T) → List (Option T) →
      Option (List (Option T) × List (Option T))
  | 0, _, sh, h => some (sh, h)
  | n + 1, k, sh, h =>
    match move_from T sbase sh (ptr_add T src k) with
    | none => none
    | some (x, sh1) =>
      match construct T dbase h (ptr_add T dst k) x with
      | none => none
      | some h1 => relocate_move T sbase src dbase dst n (k + 1) sh1 h1

/-- The loop `while (tmp != dend) { tmp -> ~T(); tmp++; }` of `destroy`
(lines 692-695).  Every iteration destructs one more constructed element of the
block, so it is given as many rounds as the block has slots; running on after
that means destructing something that is not an element. -/
def destroy_loop (T : Type) [Sized T] (base : Nat) (dend : Nat) :
    Nat → Nat → List (Option T) → Option (List (Option T))
  | 0, tmp, h => if tmp = dend then some h else none
  | n + 1, tmp, h =>
    if tmp = dend then some h
    else
      match destruct T base h tmp with
      | none => none
      | some h1 => destroy_loop T base dend n (ptr_add T tmp 1) h1

namespace vector

variable {T : Type} [Sized T]

/-- The member `destroy()` (lines 690-697): destruct the live elements, then
`operator delete(sbegin)`.  The object keeps its (now dangling) pointers and
owns no block any more. -/
def destroy (v : vector T) : Option (vector T) :=
  match destroy_loop T v.sbegin v.dend v.heap.length v.dbegin v.heap with
  | none => none
  | some _ => some { v with heap := [] }

/-- The default constructor `vector(void)` (lines 50-59). -/
def vector_void (T : Type) [Sized T] (a : Nat) : Option (vector T) :=
  match operator_new a (Sized.sizeof T * min_capacity % 2 ^ 64) with
  | none => none
  | some sbegin =>
    some
      { sbegin := sbegin
        send := ptr_add T sbegin min_capacity
        dbegin := sbegin
        dend := sbegin
        storage := min_capacity
        length := 0
        front_storage := 0
        reallocate_times := 0
        vector_version := 0
        heap := raw_block T (Sized.sizeof T * min_capacity % 2 ^ 64) }

/-- The member `size()` (lines 173-175): `dend - dbegin` as a `uint64_t`. -/
def size (v : vector T) : Nat := to_u64 (ptr_diff T v.dend v.dbegin)

/-- The member `operator[](uint64_t k)` (lines 177-185): the reference
`dbegin[k]`, or `std::out_of_range`. -/
def operator_index (v : vector T) (k : Nat) : Except Exception Nat :=
  if ptr_add T v.dbegin k ≥ v.dend then Except.error (Exception.out_of_range "subscript out of range")
  else Except.ok (ptr_add T v.dbegin k)

/-- The element that `operator[](k)` refers to: the call, then a read through
the reference it returned. -/
def at_index (v : vector T) (k : Nat) : Option T :=
  match operator_index v k with
  | Except.error _ => none
  | Except.ok p => fetch T v.sbegin v.heap p

/-- The member `push_back(const T& that)` (lines 187-215).  On growth the old
elements are moved to the new block first and `that` is read afterwards
(line 203; the earlier copy at line 197 is commented out). -/
def push_back (a : Nat) (that : Ref T) (v : vector T) : Outcome (vector T) :=
  if v.send = v.dend then
    let storage := v.storage * 2 % 2 ^ 64
    let v1 := { v with storage := storage, reallocate_times := (v.reallocate_times + 1) % 2 ^ 64 }
    match operator_new a (Sized.sizeof T * storage % 2 ^ 64) with
    | none => Outcome.raised Exception.bad_alloc v1
    | some sbegin1 =>
      let send1 := ptr_add T sbegin1 storage
      let dbegin1 := ptr_add T sbegin1 v.front_storage
      let dend1 := ptr_add T dbegin1 v.length
      match relocate_move T v.sbegin v.dbegin sbegin1 dbegin1 v.length 0 v.heap
          (raw_block T (Sized.sizeof T * storage % 2 ^ 64)) with
      | none => Outcome.undefined
      | some (heap1, heap2) =>
        match that.read T v.sbegin heap1 with
        | none => Outcome.undefined
        | some x =>
          match construct T sbegin1 heap2 dend1 x with
          | none => Outcome.undefined
          | some heap3 =>
            match destroy { v1 with heap := heap1 } with
            | none => Outcome.undefined
            | some _ =>
              Outcome.done
                { v1 with
                  sbegin := sbegin1
                  dbegin := dbegin1
                  dend := ptr_add T dend1 1
                  send := send1
                  length := (v.length + 1) % 2 ^ 64
                  vector_version := (v.vector_version + 1) % 2 ^ 64
                  heap := heap3 }
  else
    match that.read T v.sbegin v.heap with
    | none => Outcome.undefined
    | some x =>
      match construct T v.sbegin v.heap v.dend x with
      | none => Outcome.undefined
      | some heap1 =>
        Outcome.done
          { v with
            heap := heap1
            dend := ptr_add T v.dend 1
            length := (v.length + 1) % 2 ^ 64
            vector_version := (v.vector_version + 1) % 2 ^ 64 }

/-- The member `push_back(T&&)` (lines 217-246): as `push_back(const T&)`, but
on growth the new element is constructed before the old ones are moved over. -/
def push_back_rv (a : Nat) (that : T) (v : vector T) : Outcome (vector T) :=
  if v.send = v.dend then
    let storage := v.storage * 2 % 2 ^ 64
    let v1 := { v with storage := storage, reallocate_times := (v.reallocate_times + 1) % 2 ^ 64 }
    match operator_new a (Sized.sizeof T * storage % 2 ^ 64) with
    | none => Outcome.raised Exception.bad_alloc v1
    | some sbegin1 =>
      let send1 := ptr_add T sbegin1 storage
      let dbegin1 := ptr_add T sbegin1 v.front_storage
      let dend1 := ptr_add T dbegin1 v.length
      match construct T sbegin1 (raw_block T (Sized.sizeof T * storage % 2 ^ 64)) dend1 that with
      | none => Outcome.undefined
      | some heap2 =>
        match relocate T v.sbegin v.heap v.dbegin sbegin1 dbegin1 v.length 0 heap2 with
        | none => Outcome.undefined
        | some heap3 =>
          match destroy v1 with
          | none => Outcome.undefined
          | some _ =>
            Outcome.done
              { v1 with
                sbegin := sbegin1
                dbegin := dbegin1
                dend := ptr_add T dend1 1
                send := send1
                length := (v.length + 1) % 2 ^ 64
                vector_version := (v.vector_version + 1) % 2 ^ 64
                heap := heap3 }
  else
    match construct T v.sbegin v.heap v.dend that with
    | none => Outcome.undefined
    | some heap1 =>
      Outcome.done
        { v with
          heap := heap1
          dend := ptr_add T v.dend 1
          length := (v.length + 1) % 2 ^ 64
          vector_version := (v.vector_version + 1) % 2 ^ 64 }

/-- The member `push_front(const T&)` (lines 248-279). -/
def push_front (a : Nat) (that : T) (v : vector T) : Outcome (vector T) :=
  if v.sbegin = v.dbegin then
    let old_storage := v.storage
    let storage := v.storage * 2 % 2 ^ 64
    let v1 := { v with storage := storage, reallocate_times := (v.reallocate_times + 1) % 2 ^ 64 }
    match operator_new a (Sized.sizeof T * storage % 2 ^ 64) with
    | none => Outcome.raised Exception.bad_alloc v1
    | some sbegin1 =>
      let send1 := ptr_add T sbegin1 storage
      let dbegin1 := ptr_add T (ptr_add T sbegin1 v.front_storage) old_storage
      let dend1 := ptr_add T dbegin1 v.length
      match construct T sbegin1 (raw_block T (Sized.sizeof T * storage % 2 ^ 64))
          (ptr_sub T dbegin1 1) that with
      | none => Outcome.undefined
      | some heap2 =>
        match relocate T v.sbegin v.heap v.dbegin sbegin1 dbegin1 v.length 0 heap2 with
        | none => Outcome.undefined
        | some heap3 =>
          match destroy v1 with
          | none => Outcome.undefined
          | some _ =>
            Outcome.done
              { v1 with
                sbegin := sbegin1
                send := send1
                dbegin := ptr_sub T dbegin1 1
                dend := dend1
                front_storage := (v.front_storage + old_storage + (2 ^ 64 - 1)) % 2 ^ 64
                length := (v.length + 1) % 2 ^ 64
                vector_version := (v.vector_version + 1) % 2 ^ 64
                heap := heap3 }
  else
    let dbegin := ptr_sub T v.dbegin 1
    match construct T v.sbegin v.heap dbegin that with
    | none => Outcome.undefined
    | some heap1 =>
      Outcome.done
        { v with
          dbegin := dbegin
          heap := heap1
          length := (v.length + 1) % 2 ^ 64
          front_storage := (v.front_storage + (2 ^ 64 - 1)) % 2 ^ 64
          vector_version := (v.vector_version + 1) % 2 ^ 64 }

/-- The member `push_front(T&&)` (lines 281-314): the same statements as
`push_front(const T&)`, with the argument moved instead of copied. -/
def push_front_rv (a : Nat) (that : T) (v : vector T) : Outcome (vector T) :=
  push_front a that v

/-- The member `pop_back()` (lines 316-322). -/
def pop_back (v : vector T) : Outcome (vector T) :=
  if v.dbegin = v.dend then Outcome.raised (Exception.out_of_range "no data to be poped") v
  else
    let dend := ptr_sub T v.dend 1
    match destruct T v.sbegin v.heap dend with
    | none => Outcome.undefined
    | some heap1 =>
      Outcome.done
        { v with
          dend := dend
          heap := heap1
          length := (v.length + (2 ^ 64 - 1)) % 2 ^ 64
          vector_version := (v.vector_version + 1) % 2 ^ 64 }

/-- The member `pop_front()` (lines 324-331). -/
def pop_front (v : vector T) : Outcome (vector T) :=
  if v.dbegin = v.dend then Outcome.raised (Exception.out_of_range "no data to be poped") v
  else
    match destruct T v.sbegin v.heap v.dbegin with
    | none => Outcome.undefined
    | some heap1 =>
      Outcome.done
        { v with
          heap := heap1
          dbegin := ptr_add T v.dbegin 1
          front_storage := (v.front_storage + 1) % 2 ^ 64
          length := (v.length + (2 ^ 64 - 1)) % 2 ^ 64
          vector_version := (v.vector_version + 1) % 2 ^ 64 }

/-- The member `copy(const vector&)` (lines 699-712), run on the object `self`. -/
def copy (a : Nat) (self that : vector T) : Outcome (vector T) :=
  let v1 :=
    { self with length := that.length, storage := that.storage, front_storage := that.front_storage }
  match operator_new a (Sized.sizeof T * that.storage % 2 ^ 64) with
  | none => Outcome.raised Exception.bad_alloc v1
  | some sbegin =>
    let send := ptr_add T sbegin that.storage
    let dbegin := ptr_add T sbegin that.front_storage
    let dend := ptr_add T dbegin that.length
    match relocate T that.sbegin that.heap that.dbegin sbegin dbegin that.length 0
        (raw_block T (Sized.sizeof T * that.storage % 2 ^ 64)) with
    | none => Outcome.undefined
    | some heap1 =>
      Outcome.done { v1 with sbegin := sbegin, send := send, dbegin := dbegin, dend := dend, heap := heap1 }

/-- The member `move(vector&&)` (lines 715-731), run on the object `self`: the
pair of `self` and of the argument `that` after the call. -/
def move (self that : vector T) : vector T × vector T :=
  ({ self with
      length := that.length
      front_storage := that.front_storage
      storage := that.storage
      sbegin := that.sbegin
      send := that.send
      dbegin := that.dbegin
      dend := that.dend
      heap := that.heap
      vector_version := (self.vector_version + 1) % 2 ^ 64 },
   { that with sbegin := 0, send := 0, dbegin := 0, dend := 0, heap := [] })

/-- The copy constructor `vector(const vector&)` (lines 138-142); `raw` is the
indeterminate content of the object under construction. -/
def copy_constructor (a : Nat) (raw that : vector T) : Outcome (vector T) :=
  match copy a raw that with
  | Outcome.done s => Outcome.done { s with reallocate_times := 0, vector_version := 0 }
  | Outcome.raised e s => Outcome.raised e s
  | Outcome.undefined => Outcome.undefined

/-- The copy assignment `operator=(const vector&)` (lines 144-152) on the object
`self`; the argument is `none` when it is `self` itself (`this == &that`). -/
def operator_assign (a : Nat) (self : vector T) (that : Option (vector T)) : Outcome (vector T) :=
  let bump := fun (s : vector T) =>
    { s with
      reallocate_times := (s.reallocate_times + 1) % 2 ^ 64
      vector_version := (s.vector_version + 1) % 2 ^ 64 }
  match that with
  | none => Outcome.done (bump self)
  | some t =>
    match destroy self with
    | none => Outcome.undefined
    | some s1 =>
      match copy a s1 t with
      | Outcome.done s2 => Outcome.done (bump s2)
      | Outcome.raised e s2 => Outcome.raised e s2
      | Outcome.undefined => Outcome.undefined

/-- The move constructor `vector(vector&&)` (lines 155-159): the new object and
the argument after the call; `raw` is the indeterminate content of the object
under construction. -/
def move_constructor (raw that : vector T) : vector T × vector T :=
  (({ (move raw that).1 with reallocate_times := 0, vector_version := 0 }), (move raw that).2)

/-- The move assignment `operator=(vector&&)` (lines 161-169) on the object
`self`: the pair of `self` and of the argument after the call.  The argument is
`none` when it is `self` itself, and then both components are that one object. -/
def operator_assign_rv (self : vector T) (that : Option (vector T)) :
    Outcome (vector T × vector T) :=
  let bump := fun (s : vector T) =>
    { s with
      reallocate_times := (s.reallocate_times + 1) % 2 ^ 64
      vector_version := (s.vector_version + 1) % 2 ^ 64 }
  match that with
  | none => Outcome.done (bump self, bump self)
  | some t =>
    match destroy self with
    | none => Outcome.undefined
    | some s1 => Outcome.done (bump (move s1 t).1, (move s1 t).2)

end vector

/-- The data members of `vector<T>::iterator` (lines 337-342).  The member
`parent` is a pointer to the vector; the functions below take the vector it
points to as their argument `parent`. -/
structure iterator (T : Type) where
  ptr : Nat
  index : Nat
  iterator_version : Nat
  record_reallocate_times : Nat
  inside : Nat
  deriving DecidableEq, Repr

namespace iterator

variable {T : Type} [Sized T]

/-- The constructor `iterator(vector<T>* parent, T* ptr)` (lines 360-369). -/
def at_ptr (parent : vector T) (ptr : Nat) : iterator T :=
  let index := to_u64 (ptr_diff T ptr parent.dbegin)
  { ptr := ptr
    index := index
    iterator_version := parent.vector_version
    record_reallocate_times := parent.reallocate_times
    inside := if 0 ≤ index ∧ index < parent.size then 1 else 0 }

/-- The member `check_exception()` (lines 480-489). -/
def check_exception (parent : vector T) (it : iterator T) : Except Exception Unit :=
  if it.iterator_version ≠ parent.vector_version then
    if it.record_reallocate_times ≠ parent.reallocate_times then
      Except.error (Exception.invalid_iterator SeverityLevel.MODERATE)
    else if (it.index < 0 ∨ it.index ≥ parent.size) ∧ it.inside ≠ 0 then
      Except.error (Exception.invalid_iterator SeverityLevel.SEVERE)
    else
      Except.error (Exception.invalid_iterator SeverityLevel.MILD)
  else Except.ok ()

/-- The member `update_inside()` (lines 491-496). -/
def update_inside (parent : vector T) (it : iterator T) : iterator T :=
  { it with inside := if 0 ≤ it.index ∧ it.index < parent.size then 1 else 0 }

/-- The dereference `operator*()` (line 380): the reference `*ptr`. -/
def operator_star (parent : vector T) (it : iterator T) : Except Exception Nat :=
  match check_exception parent it with
  | Except.error e => Except.error e
  | Except.ok _ => Except.ok it.ptr

/-- The member access `operator->()` (line 381). -/
def operator_arrow (parent : vector T) (it : iterator T) : Except Exception Nat :=
  match check_exception parent it with
  | Except.error e => Except.error e
  | Except.ok _ => Except.ok it.ptr

/-- The indexed offset `operator[](uint64_t k)` (lines 382-383): the reference `*(ptr + k)`. -/
def operator_index (parent : vector T) (it : iterator T) (k : Nat) : Except Exception Nat :=
  match check_exception parent it with
  | Except.error e => Except.error e
  | Except.ok _ => Except.ok (ptr_add T it.ptr k)

/-- The pre-increment `operator++()` (lines 385-391): the iterator after the call. -/
def operator_inc (parent : vector T) (it : iterator T) : Except Exception (iterator T) :=
  match check_exception parent it with
  | Except.error e => Except.error e
  | Except.ok _ =>
    Except.ok (update_inside parent { it with ptr := ptr_add T it.ptr 1, index := (it.index + 1) % 2 ^ 64 })

/-- The post-increment `operator++(int)` (lines 393-398): the returned copy and
the iterator after the call. -/
def operator_inc_post (parent : vector T) (it : iterator T) :
    Except Exception (iterator T × iterator T) :=
  match check_exception parent it with
  | Except.error e => Except.error e
  | Except.ok _ =>
    match operator_inc parent it with
    | Except.error e => Except.error e
    | Except.ok it1 => Except.ok (it, it1)

/-- The comparison `operator==` (lines 400-403). -/
def operator_eq (parent : vector T) (it rhs : iterator T) : Except Exception Bool :=
  match check_exception parent it with
  | Except.error e => Except.error e
  | Except.ok _ => Except.ok (decide (it.ptr = rhs.ptr))

/-- The comparison `operator!=` (lines 405-408). -/
def operator_ne (parent : vector T) (it rhs : iterator T) : Except Exception Bool :=
  match check_exception parent it with
  | Except.error e => Except.error e
  | Except.ok _ =>
    match operator_eq parent it rhs with
    | Except.error e => Except.error e
    | Except.ok b => Except.ok (!b)

/-- The pre-decrement `operator--()` (lines 410-416): the iterator after the call. -/
def operator_dec (parent : vector T) (it : iterator T) : Except Exception (iterator T) :=
  match check_exception parent it with
  | Except.error e => Except.error e
  | Except.ok _ =>
    Except.ok
      (update_inside parent
        { it with ptr := ptr_sub T it.ptr 1, index := (it.index + (2 ^ 64 - 1)) % 2 ^ 64 })

/-- The post-decrement `operator--(int)` (lines 418-423): the returned copy and
the iterator after the call. -/
def operator_dec_post (parent : vector T) (it : iterator T) :
    Except Exception (iterator T × iterator T) :=
  match check_exception parent it with
  | Except.error e => Except.error e
  | Except.ok _ =>
    match operator_dec parent it with
    | Except.error e => Except.error e
    | Except.ok it1 => Except.ok (it, it1)

/-- The sum `operator+(int64_t k)` (lines 425-432): the returned iterator `tmp`
and the iterator after the call; `update_inside()` runs on the iterator itself. -/
def operator_plus (parent : vector T) (it : iterator T) (k : Int) :
    Except Exception (iterator T × iterator T) :=
  match check_exception parent it with
  | Except.error e => Except.error e
  | Except.ok _ =>
    Except.ok
      ({ it with ptr := ptr_add_int T it.ptr k, index := to_u64 ((it.index : Int) + k) },
       update_inside parent it)

/-- The compound `operator+=(int64_t k)` (lines 434-440): the iterator after the call. -/
def operator_plus_assign (parent : vector T) (it : iterator T) (k : Int) :
    Except Exception (iterator T) :=
  match check_exception parent it with
  | Except.error e => Except.error e
  | Except.ok _ =>
    Except.ok
      (update_inside parent
        { it with ptr := ptr_add_int T it.ptr k, index := to_u64 ((it.index : Int) + k) })

/-- The difference `operator-(int64_t k)` (lines 442-449): the returned iterator
`tmp` and the iterator after the call. -/
def operator_minus (parent : vector T) (it : iterator T) (k : Int) :
    Except Exception (iterator T × iterator T) :=
  match check_exception parent it with
  | Except.error e => Except.error e
  | Except.ok _ =>
    Except.ok
      ({ it with ptr := ptr_add_int T it.ptr (-k), index := to_u64 ((it.index : Int) - k) },
       update_inside parent it)

/-- The compound `operator-=(int64_t k)` (lines 451-457): the iterator after the call. -/
def operator_minus_assign (parent : vector T) (it : iterator T) (k : Int) :
    Except Exception (iterator T) :=
  match check_exception parent it with
  | Except.error e => Except.error e
  | Except.ok _ =>
    Except.ok
      (update_inside parent
        { it with ptr := ptr_add_int T it.ptr (-k), index := to_u64 ((it.index : Int) - k) })

/-- The distance `operator-(iterator&)` (lines 459-461). -/
def operator_diff (it rhs : iterator T) : Int := ptr_diff T it.ptr rhs.ptr

/-- The ordering `operator<` (lines 463-465). -/
def operator_lt (it rhs : iterator T) : Bool := decide (it.index < rhs.index)

/-- The ordering `operator>=` (lines 467-469). -/
def operator_ge (it rhs : iterator T) : Bool := !decide (it.index < rhs.index)

/-- The ordering `operator>` (lines 471-473). -/
def operator_gt (it rhs : iterator T) : Bool := decide (it.index > rhs.index)

/-- The ordering `operator<=` (lines 475-477). -/
def operator_le (it rhs : iterator T) : Bool := !decide (it.index > rhs.index)

end iterator

namespace vector

variable {T : Type} [Sized T]

/-- The member `begin()` (lines 677-679). -/
def begin_ (v : vector T) : iterator T := iterator.at_ptr v v.dbegin

/-- The member `end()` (lines 681-683). -/
def end_ (v : vector T) : iterator T := iterator.at_ptr v v.dend

end vector

/-- One call of the push/pop interface of a vector; a push carries the address
the allocator offers, should the call have to grow the block, and the value of
its argument, an object that is not an element of the vector. -/
inductive Op (T : Type) where
  | push_back (a : Nat) (x : T)
  | push_back_rv (a : Nat) (x : T)
  | push_front (a : Nat) (x : T)
  | push_front_rv (a : Nat) (x : T)
  | pop_back
  | pop_front
  deriving DecidableEq, Repr

namespace Op

variable {T : Type} [Sized T]

/-- The member function an `Op` calls. -/
def apply : Op T → vector T → Outcome (vector T)
  | push_back a x, v => vector.push_back a x v
  | push_back_rv a x, v => vector.push_back_rv a x v
  | push_front a x, v => vector.push_front a x v
  | push_front_rv a x, v => vector.push_front_rv a x v
  | pop_back, v => vector.pop_back v
  | pop_front, v => vector.pop_front v

/-- Whether the call is a push. -/
def is_push : Op T → Bool
  | push_back _ _ => true
  | push_back_rv _ _ => true
  | push_front _ _ => true
  | push_front_rv _ _ => true
  | pop_back => false
  | pop_front => false

/-- Whether the call, made on `v`, takes the growth path of its push: the test
`send == dend` of `push_back` (lines 188, 218), `sbegin == dbegin` of
`push_front` (lines 249, 282). -/
def grows : Op T → vector T → Bool
  | push_back _ _, v => decide (v.send = v.dend)
  | push_back_rv _ _, v => decide (v.send = v.dend)
  | push_front _ _, v => decide (v.sbegin = v.dbegin)
  | push_front_rv _ _, v => decide (v.sbegin = v.dbegin)
  | pop_back, _ => false
  | pop_front, _ => false

end Op

variable {T : Type} [Sized T]

/-- A client making the calls `ops` in order on one vector: a `std::out_of_range`
(a pop on an empty vector) is caught and the client goes on with the next call;
`std::bad_alloc` and undefined behaviour end the run. -/
def run : List (Op T) → vector T → Outcome (vector T)
  | [], v => Outcome.done v
  | op :: ops, v =>
    match op.apply v with
    | Outcome.done v1 => run ops v1
    | Outcome.raised (Exception.out_of_range _) v1 => run ops v1
    | Outcome.raised e v1 => Outcome.raised e v1
    | Outcome.undefined => Outcome.undefined

/-- The calls `ops` made in order on one vector, when every one of them returns
normally (is successful): the vector after the last call. -/
def run_ok : List (Op T) → vector T → Option (vector T)
  | [], v => some v
  | op :: ops, v =>
    match op.apply v with
    | Outcome.done v1 => run_ok ops v1
    | _ => none

/-- The number of calls among `ops` that are pushes. -/
def pushes (ops : List (Op T)) : Nat := (ops.filter Op.is_push).length

/-- The number of pops that returned normally in the run of `ops` from `v`. -/
def successful_pops : List (Op T) → vector T → Nat
  | [], _ => 0
  | op :: ops, v =>
    match op.apply v with
    | Outcome.done v1 => (if op.is_push then 0 else 1) + successful_pops ops v1
    | Outcome.raised (Exception.out_of_range _) v1 => successful_pops ops v1
    | _ => 0

/-- The number of calls that took the growth path in the run of `ops` from `v`. -/
def growths : List (Op T) → vector T → Nat
  | [], _ => 0
  | op :: ops, v =>
    match op.apply v with
    | Outcome.done v1 => (if op.grows v then 1 else 0) + growths ops v1
    | Outcome.raised (Exception.out_of_range _) v1 => growths ops v1
    | _ => 0

namespace Model

/-- The plain list model of the claims, in their words: pushFront prepends,
pushBack appends, popFront drops the head, popBack drops the last, and a pop on
the empty list changes nothing. -/
def step : Op T → List T → List T
  | Op.push_back _ x, l => l ++ [x]
  | Op.push_back_rv _ x, l => l ++ [x]
  | Op.push_front _ x, l => x :: l
  | Op.push_front_rv _ x, l => x :: l
  | Op.pop_back, l => l.dropLast
  | Op.pop_front, l => l.tail

/-- The list model after the calls `ops`. -/
def run (ops : List (Op T)) (l : List T) : List T := ops.foldl (fun l op => step op l) l

end Model

namespace vector

/-- The slots of the block between `dbegin` and `dend`, front to back. -/
def live (v : vector T) : List (Option T) := (v.heap.drop v.front_storage).take v.length

/-- What a client reads through `operator[]` at the indices `0, ..., size() - 1`. -/
def elements (v : vector T) : List (Option T) := (List.range v.size).map (fun k => at_index v k)

/-- The data-model invariant of a vector: the four pointers delimit the block
and the live range inside it as the three counters say, the block lies in the
address space, it has at least one slot, there is an element in every slot of
the live range, and the counters are `uint64_t` values. -/
structure Inv (v : vector T) : Prop where
  h_send : v.send = v.sbegin + v.storage * Sized.sizeof T
  h_top : v.send < 2 ^ 64
  h_bytes : v.storage * Sized.sizeof T ≤ PTRDIFF_MAX
  h_dbegin : v.dbegin = v.sbegin + v.front_storage * Sized.sizeof T
  h_dend : v.dend = v.dbegin + v.length * Sized.sizeof T
  h_le : v.front_storage + v.length ≤ v.storage
  h_heap : v.heap.length = v.storage
  h_cap : 0 < v.storage
  h_live : ∀ i, i < v.length → (v.heap.getD (v.front_storage + i) none).isSome = true
  h_realloc : v.reallocate_times < 2 ^ 64
  h_version : v.vector_version < 2 ^ 64

/-- The invariant can be checked on a given vector. -/
instance Inv.decidable (v : vector T) : Decidable (Inv v) :=
  decidable_of_iff
    (v.send = v.sbegin + v.storage * Sized.sizeof T ∧
      v.send < 2 ^ 64 ∧
      v.storage * Sized.sizeof T ≤ PTRDIFF_MAX ∧
      v.dbegin = v.sbegin + v.front_storage * Sized.sizeof T ∧
      v.dend = v.dbegin + v.length * Sized.sizeof T ∧
      v.front_storage + v.length ≤ v.storage ∧
      v.heap.length = v.storage ∧
      0 < v.storage ∧
      (∀ i, i < v.length → (v.heap.getD (v.front_storage + i) none).isSome = true) ∧
      v.reallocate_times < 2 ^ 64 ∧
      v.vector_version < 2 ^ 64)
    ⟨fun ⟨h1, h2, h3, h4, h5, h6, h7, h8, h9, h10, h11⟩ =>
        ⟨h1, h2, h3, h4, h5, h6, h7, h8, h9, h10, h11⟩,
      fun h =>
        ⟨h.h_send, h.h_top, h.h_bytes, h.h_dbegin, h.h_dend, h.h_le, h.h_heap, h.h_cap,
          h.h_live, h.h_realloc, h.h_version⟩⟩

/-- The vector `v` holds exactly the elements `xs`, front to back. -/
def Holds (v : vector T) (xs : List T) : Prop := Inv v ∧ v.live = xs.map some

end vector

/-- An `int` element: four bytes; moving from an `int` leaves its value. -/
instance instSizedInt : Sized Int := ⟨4, by decide, fun x => x⟩

/-- The exception a call threw, if it threw. -/
def Outcome.thrown {σ : Type} : Outcome σ → Option Exception
  | Outcome.raised e _ => some e
  | _ => none

/-- The exception a call that returns a value threw, if it threw. -/
def thrown_by {α : Type} : Except Exception α → Option Exception
  | Except.error e => some e
  | Except.ok _ => none

namespace iterator

/-- The pre-increment `operator++()` applied `n` times in a row. -/
def advance (parent : vector T) : Nat → iterator T → Except Exception (iterator T)
  | 0, it => Except.ok it
  | n + 1, it =>
    match operator_inc parent it with
    | Except.error e => Except.error e
    | Except.ok it1 => advance parent n it1

end iterator

/-- The checked accesses of an iterator, the member functions that begin with a
call of `check_exception()`: `*it`, `it->`, `it[k]`, `++it`, `it++`, `it == rhs`,
`it != rhs`, `--it`, `it--`, `it + k`, `it += k`, `it - k`, `it -= k`. -/
inductive Access (T : Type) where
  | star
  | arrow
  | index (k : Nat)
  | inc
  | inc_post
  | eq (rhs : iterator T)
  | ne (rhs : iterator T)
  | dec
  | dec_post
  | plus (k : Int)
  | plus_assign (k : Int)
  | minus (k : Int)
  | minus_assign (k : Int)

/-- The exception a checked access throws on the iterator `it` of `parent`, if
it throws. -/
def Access.thrown (parent : vector T) (it : iterator T) : Access T → Option Exception
  | Access.star => thrown_by (iterator.operator_star parent it)
  | Access.arrow => thrown_by (iterator.operator_arrow parent it)
  | Access.index k => thrown_by (iterator.operator_index parent it k)
  | Access.inc => thrown_by (iterator.operator_inc parent it)
  | Access.inc_post => thrown_by (iterator.operator_inc_post parent it)
  | Access.eq rhs => thrown_by (iterator.operator_eq parent it rhs)
  | Access.ne rhs => thrown_by (iterator.operator_ne parent it rhs)
  | Access.dec => thrown_by (iterator.operator_dec parent it)
  | Access.dec_post => thrown_by (iterator.operator_dec_post parent it)
  | Access.plus k => thrown_by (iterator.operator_plus parent it k)
  | Access.plus_assign k => thrown_by (iterator.operator_plus_assign parent it k)
  | Access.minus k => thrown_by (iterator.operator_minus parent it k)
  | Access.minus_assign k => thrown_by (iterator.operator_minus_assign parent it k)

/-- A default-constructed `vector<int>` whose block the allocator placed at
address 4096. -/
def sample_empty : vector Int :=
  { dbegin := 4096, dend := 4096, sbegin := 4096, send := 4128, length := 0, storage := 8,
    front_storage := 0, reallocate_times := 0, vector_version := 0,
    heap := [none, none, none, none, none, none, none, none] }

/-- A `vector<int>` after `push_back` of 10, 20, 30, 40 on `sample_empty`. -/
def sample_four : vector Int :=
  { dbegin := 4096, dend := 4112, sbegin := 4096, send := 4128, length := 4, storage := 8,
    front_storage := 0, reallocate_times := 0, vector_version := 4,
    heap := [some 10, some 20, some 30, some 40, none, none, none, none] }

/-- The calls `pair`, made `k` times over. -/
def cycles (pair : List (Op T)) : Nat → List (Op T)
  | 0 => []
  | k + 1 => pair ++ cycles pair k

/-- A run of `2 ^ 64` calls on a `vector<int>`: a `push_front` (which grows a
default-constructed vector), a `pop_back`, and then `2 ^ 63 - 1` times a
`push_back` followed by a `pop_back`. -/
def wrap_with_growth : List (Op Int) :=
  Op.push_front 8192 7 :: Op.pop_back :: cycles [Op.push_back 0 7, Op.pop_back] (2 ^ 63 - 1)

/-- A run of `2 ^ 64` calls on a `vector<int>`: `2 ^ 63` times a `push_back`
followed by a `pop_back`. -/
def wrap_in_place : List (Op Int) := cycles [Op.push_back 0 50, Op.pop_back] (2 ^ 63)

/-- The vector `sample_four` after `push_back(50)` and `pop_front()`. -/
def sample_four_shifted : vector Int :=
  { dbegin := 4100, dend := 4116, sbegin := 4096, send := 4128, length := 4, storage := 8,
    front_storage := 1, reallocate_times := 0, vector_version := 6,
    heap := [none, some 20, some 30, some 40, some 50, none, none, none] }

/-- The cursor on the last element of `sample_four`: `begin()` advanced by 3. -/
def sample_four_last : iterator Int :=
  { ptr := 4108, index := 3, iterator_version := 4, record_reallocate_times := 0, inside := 1 }

/-- The vector `sample_four` after one `pop_back()`. -/
def sample_four_popped : vector Int :=
  { dbegin := 4096, dend := 4108, sbegin := 4096, send := 4128, length := 3, storage := 8,
    front_storage := 0, reallocate_times := 0, vector_version := 5,
    heap := [some 10, some 20, some 30, none, none, none, none, none] }

/-- The cursor at position 2 of `sample_four`: `begin() + 2`. -/
def sample_four_third : iterator Int :=
  { ptr := 4104, index := 2, iterator_version := 4, record_reallocate_times := 0, inside := 1 }

/-- The vector `sample_four` after `push_back` of 50, 60, 70, 80, 90; the last
one grew the block, and the allocator placed the new one at address 8192. -/
def sample_nine : vector Int :=
  { dbegin := 8192, dend := 8228, sbegin := 8192, send := 8256, length := 9, storage := 16,
    front_storage := 0, reallocate_times := 1, vector_version := 9,
    heap := [some 10, some 20, some 30, some 40, some 50, some 60, some 70, some 80, some 90,
      none, none, none, none, none, none, none] }

/-- The vector `sample_four` after `push_back(50)`. -/
def sample_five : vector Int :=
  { dbegin := 4096, dend := 4116, sbegin := 4096, send := 4128, length := 5, storage := 8,
    front_storage := 0, reallocate_times := 0, vector_version := 5,
    heap := [some 10, some 20, some 30, some 40, some 50, none, none, none] }

/-- The vector `sample_empty` after the first two calls of `wrap_with_growth`:
the growing `push_front(7)` into a block at address 8192, and `pop_back()`. -/
def wrap_with_growth_mid : vector Int :=
  { dbegin := 8220, dend := 8220, sbegin := 8192, send := 8256, length := 0, storage := 16,
    front_storage := 7, reallocate_times := 1, vector_version := 2,
    heap := [none, none, none, none, none, none, none, none, none, none, none, none, none,
      none, none, none] }

/-- The vector `sample_empty` after all the calls of `wrap_with_growth`. -/
def wrap_with_growth_end : vector Int :=
  { dbegin := 8220, dend := 8220, sbegin := 8192, send := 8256, length := 0, storage := 16,
    front_storage := 7, reallocate_times := 1, vector_version := 0,
    heap := [none, none, none, none, none, none, none, none, none, none, none, none, none,
      none, none, none] }

/-- The vector `sample_four` after it was moved from: what `move` leaves of its
argument. -/
def moved_from_four : vector Int :=
  { dbegin := 0, dend := 0, sbegin := 0, send := 0, length := 4, storage := 8,
    front_storage := 0, reallocate_times := 0, vector_version := 4, heap := [] }

/-- The vector `sample_empty` after `sample_four` was move-assigned to it. -/
def moved_into_empty : vector Int :=
  { dbegin := 4096, dend := 4112, sbegin := 4096, send := 4128, length := 4, storage := 8,
    front_storage := 0, reallocate_times := 1, vector_version := 2,
    heap := [some 10, some 20, some 30, some 40, none, none, none, none] }

/-- The self-assignment `v = v` (the copy assignment with `this == &that`),
made `k` times in a row. -/
def assign_self_times (a : Nat) : Nat → vector T → Outcome (vector T)
  | 0, v => Outcome.done v
  | k + 1, v =>
    match vector.operator_assign a v none with
    | Outcome.done v1 => assign_self_times a k v1
    | Outcome.raised e s => Outcome.raised e s
    | Outcome.undefined => Outcome.undefined

/-- The vector `sample_four` after `2 ^ 64 - 1` self-assignments. -/
def sample_four_max : vector Int :=
  { dbegin := 4096, dend := 4112, sbegin := 4096, send := 4128, length := 4, storage := 8,
    front_storage := 0, reallocate_times := 2 ^ 64 - 1, vector_version := 3,
    heap := [some 10, some 20, some 30, some 40, none, none, none, none] }

/-- The copy of `sample_four` that a copy assignment into `sample_empty` makes
in a block at address 8192. -/
def copied_into_empty : vector Int :=
  { dbegin := 8192, dend := 8208, sbegin := 8192, send := 8224, length := 4, storage := 8,
    front_storage := 0, reallocate_times := 1, vector_version := 1,
    heap := [some 10, some 20, some 30, some 40, none, none, none, none] }

/-- The class `vector<T>::const_iterator` (lines 503-663) has the data members
of `iterator` and repeats its member functions statement for statement, on a
`const` parent; the embedding of `iterator` stands for both. -/
abbrev const_iterator (T : Type) : Type := iterator T

/-- The spare slots behind the last element: `storage - front_storage - length`
(the spec's derived `backSpare`). -/
def vector.back_spare (v : vector T) : Nat := v.storage - v.front_storage - v.length

/-- Whether the call is a `push_back` (either overload). -/
def Op.is_push_back : Op T → Bool
  | Op.push_back _ _ => true
  | Op.push_back_rv _ _ => true
  | _ => false

/-- Whether the call is a `push_front` (either overload). -/
def Op.is_push_front : Op T → Bool
  | Op.push_front _ _ => true
  | Op.push_front_rv _ _ => true
  | _ => false

/-- A vector reachable from default construction by push/pop: the state after
a run of calls on a default-constructed vector that returned.  (The byte count
of the first block, `sizeof(T) * min_capacity`, does not wrap around.) -/
def Reachable (v : vector T) : Prop :=
  ∃ (a : Nat) (v0 : vector T) (ops : List (Op T)),
    Sized.sizeof T * min_capacity < 2 ^ 64 ∧ vector.vector_void T a = some v0 ∧
    run ops v0 = Outcome.done v

/-- The vector `sample_empty` after `push_back(7)`. -/
def sample_one : vector Int :=
  { dbegin := 4096, dend := 4100, sbegin := 4096, send := 4128, length := 1, storage := 8,
    front_storage := 0, reallocate_times := 0, vector_version := 1,
    heap := [some 7, none, none, none, none, none, none, none] }

/-- A run of `2 ^ 64 - 1` calls on a `vector<int>`: `2 ^ 63 - 1` times a
`push_back` followed by a `pop_back`, and then one more `push_back`. -/
def wrap_then_push : List (Op Int) :=
  cycles [Op.push_back 0 7, Op.pop_back] (2 ^ 63 - 1) ++ [Op.push_back 0 7]

/-- The vector `sample_empty` after the calls of `wrap_then_push`: it holds the
element 7 and its `vector_version` is the largest `uint64_t`. -/
def sample_one_max : vector Int :=
  { dbegin := 4096, dend := 4100, sbegin := 4096, send := 4128, length := 1, storage := 8,
    front_storage := 0, reallocate_times := 0, vector_version := 2 ^ 64 - 1,
    heap := [some 7, none, none, none, none, none, none, none] }

/-- The vector `sample_one_max` after `push_back(8)`. -/
def sample_two_wrapped : vector Int :=
  { dbegin := 4096, dend := 4104, sbegin := 4096, send := 4128, length := 2, storage := 8,
    front_storage := 0, reallocate_times := 0, vector_version := 0,
    heap := [some 7, some 8, none, none, none, none, none, none] }

/-- The vector `sample_one_max` after `pop_back()`. -/
def sample_none_wrapped : vector Int :=
  { dbegin := 4096, dend := 4096, sbegin := 4096, send := 4128, length := 0, storage := 8,
    front_storage := 0, reallocate_times := 0, vector_version := 0,
    heap := [none, none, none, none, none, none, none, none] }

/-- The copy of `sample_four` that the copy constructor makes in a block at
address 8192. -/
def sample_four_copy : vector Int :=
  { dbegin := 8192, dend := 8208, sbegin := 8192, send := 8224, length := 4, storage := 8,
    front_storage := 0, reallocate_times := 0, vector_version := 0,
    heap := [some 10, some 20, some 30, some 40, none, none, none, none] }

/-- The cursor that `sample_four.end() - 1` returns: it is on the last element,
position 3, and carries the flag of `end()`. -/
def sample_four_end_minus_one : iterator Int :=
  { ptr := 4108, index := 3, iterator_version := 4, record_reallocate_times := 0, inside := 0 }

/-- A `vector<int>` whose block of capacity 8 is full: `sample_four` after
`push_back` of 50, 60, 70, 80. -/
def sample_full : vector Int :=
  { dbegin := 4096, dend := 4128, sbegin := 4096, send := 4128, length := 8, storage := 8,
    front_storage := 0, reallocate_times := 0, vector_version := 8,
    heap := [some 10, some 20, some 30, some 40, some 50, some 60, some 70, some 80] }

/-- The loop `while (b != e) { new (dbegin + k) T(*b); b++; k++; }` of the
random-access `build_vector` (lines 114-116), entered at `k`; `xs` are the
elements of the range that are still to come. -/
def construct_each (T : Type) [Sized T] (base : Nat) (dbegin : Nat) :
    List T → Nat → List (Option T) → Option (List (Option T))
  | [], _, h => some h
  | x :: xs, k, h =>
    match construct T base h (ptr_add T dbegin k) x with
    | none => none
    | some h1 => construct_each T base dbegin xs (k + 1) h1

/-- The member `build_vector(IT& b, IT& e, std::random_access_iterator_tag)`
(lines 105-119), which the constructor `vector(IT b, IT e)` calls for a
random-access range; `xs` are the elements of the range `[b, e)` and `raw` is
the indeterminate content of the object under construction. -/
def vector.build_vector_random_access (a : Nat) (raw : vector T) (xs : List T) :
    Outcome (vector T) :=
  let storage := xs.length % 2 ^ 64
  let length := xs.length % 2 ^ 64
  match operator_new a (Sized.sizeof T * storage % 2 ^ 64) with
  | none => Outcome.raised Exception.bad_alloc { raw with storage := storage, length := length }
  | some sbegin =>
    match construct_each T sbegin sbegin xs 0
        (raw_block T (Sized.sizeof T * storage % 2 ^ 64)) with
    | none => Outcome.undefined
    | some heap =>
      Outcome.done
        { dbegin := sbegin
          dend := ptr_add T sbegin length
          sbegin := sbegin
          send := ptr_add T sbegin storage
          length := length
          storage := storage
          front_storage := 0
          reallocate_times := 0
          vector_version := 0
          heap := heap }

/-- The loop `while (b != e) { push_back(*b); b++; length++; }` of the generic
`build_vector` (lines 127-129).  Every element of the range comes with the
address the allocator offers, should its `push_back` have to grow the block. -/
def push_each : List (Nat × T) → vector T → Outcome (vector T)
  | [], v => Outcome.done v
  | (a, x) :: rest, v =>
    match vector.push_back a x v with
    | Outcome.done v1 => push_each rest { v1 with length := (v1.length + 1) % 2 ^ 64 }
    | Outcome.raised e s => Outcome.raised e s
    | Outcome.undefined => Outcome.undefined

/-- The member `build_vector(IT& b, IT& e, TAG)` (lines 121-133), which the
constructor `vector(IT b, IT e)` calls for a range that is not random-access
(a single-pass input range); `raw` is the indeterminate content of the object
under construction. -/
def vector.build_vector_generic (a : Nat) (raw : vector T) (input : List (Nat × T)) :
    Outcome (vector T) :=
  let storage := min_capacity
  match operator_new a (Sized.sizeof T * storage % 2 ^ 64) with
  | none => Outcome.raised Exception.bad_alloc { raw with storage := storage }
  | some sbegin =>
    match push_each input
        { raw with
          storage := storage
          sbegin := sbegin
          send := ptr_add T sbegin storage
          dbegin := sbegin
          dend := sbegin
          front_storage := 0
          length := 0
          heap := raw_block T (Sized.sizeof T * storage % 2 ^ 64) } with
    | Outcome.done v => Outcome.done { v with reallocate_times := 0, vector_version := 0 }
    | Outcome.raised e s => Outcome.raised e s
    | Outcome.undefined => Outcome.undefined

/-- The `vector<int>` that `vector(IT b, IT e)` builds from an empty
random-access range when the allocator places the zero-byte block at address
4096: capacity 0. -/
def sample_empty_range : vector Int :=
  { dbegin := 4096, dend := 4096, sbegin := 4096, send := 4096, length := 0, storage := 0,
    front_storage := 0, reallocate_times := 0, vector_version := 0, heap := [] }

/-- The `vector<int>` that `vector(IT b, IT e)` builds from the single-pass
input range 10, 20, 30 in a block at address 4096. -/
def sample_built_three : vector Int :=
  { dbegin := 4096, dend := 4108, sbegin := 4096, send := 4128, length := 6, storage := 8,
    front_storage := 0, reallocate_times := 0, vector_version := 0,
    heap := [some 10, some 20, some 30, none, none, none, none, none] }

/-- An element type with a destructive move, after `std::string`: the character
codes of the string.  The move constructor leaves its source empty. -/
structure Text where
  chars : List Nat
  deriving DecidableEq, Repr

/-- A `std::string` element: 32 bytes; a moved-from string is empty. -/
instance instSizedText : Sized Text := ⟨32, by decide, fun _ => ⟨[]⟩⟩

/-- A default-constructed `vector<std::string>` whose block is at address 4096. -/
def sample_texts_empty : vector Text :=
  { dbegin := 4096, dend := 4096, sbegin := 4096, send := 4352, length := 0, storage := 8,
    front_storage := 0, reallocate_times := 0, vector_version := 0,
    heap := [none, none, none, none, none, none, none, none] }

/-- The calls `push_back("a")`, ..., `push_back("h")`, the arguments being
string objects that are not elements of the vector. -/
def texts_eight : List (Op Text) :=
  [Op.push_back 0 ⟨[97]⟩, Op.push_back 0 ⟨[98]⟩, Op.push_back 0 ⟨[99]⟩, Op.push_back 0 ⟨[100]⟩,
    Op.push_back 0 ⟨[101]⟩, Op.push_back 0 ⟨[102]⟩, Op.push_back 0 ⟨[103]⟩,
    Op.push_back 0 ⟨[104]⟩]

/-- The `vector<std::string>` `sample_texts_empty` after the calls
`texts_eight`: it holds "a", ..., "h" and its block of capacity 8 is full. -/
def sample_texts_full : vector Text :=
  { dbegin := 4096, dend := 4352, sbegin := 4096, send := 4352, length := 8, storage := 8,
    front_storage := 0, reallocate_times := 0, vector_version := 8,
    heap := [some ⟨[97]⟩, some ⟨[98]⟩, some ⟨[99]⟩, some ⟨[100]⟩, some ⟨[101]⟩, some ⟨[102]⟩,
      some ⟨[103]⟩, some ⟨[104]⟩] }

/-- The `vector<std::string>` `sample_texts_full` after `v.push_back(v[0])`
into a new block at address 8192: the ninth element is the empty string. -/
def sample_texts_nine : vector Text :=
  { dbegin := 8192, dend := 8480, sbegin := 8192, send := 8704, length := 9, storage := 16,
    front_storage := 0, reallocate_times := 1, vector_version := 9,
    heap := [some ⟨[97]⟩, some ⟨[98]⟩, some ⟨[99]⟩, some ⟨[100]⟩, some ⟨[101]⟩, some ⟨[102]⟩,
      some ⟨[103]⟩, some ⟨[104]⟩, some ⟨[]⟩, none, none, none, none, none, none, none] }

theorem ptr_add_eq (p k : Nat) (h : p + k * Sized.sizeof T < 2 ^ 64) :
    ptr_add T p k = p + k * Sized.sizeof T := by
  unfold ptr_add
  exact Nat.mod_eq_of_lt h

theorem ptr_sub_eq (p k : Nat) (hp : p < 2 ^ 64) (hk : k * Sized.sizeof T ≤ p) :
    ptr_sub T p k = p - k * Sized.sizeof T := by
  unfold ptr_sub
  generalize k * Sized.sizeof T = b at *
  omega

theorem slot_eq (base : Nat) (heap : List (Option T)) (i : Nat) (hi : i < heap.length) :
    slot T base heap (base + i * Sized.sizeof T) = some i := by
  unfold slot
  have hs := Sized.sizeof_pos (T := T)
  have h1 : base + i * Sized.sizeof T - base = i * Sized.sizeof T := by omega
  rw [h1, Nat.mul_mod_left, Nat.mul_div_cancel _ hs]
  simp [hi]

theorem slot_none (base : Nat) (heap : List (Option T)) (i : Nat) (hi : heap.length ≤ i) :
    slot T base heap (base + i * Sized.sizeof T) = none := by
  unfold slot
  have hs := Sized.sizeof_pos (T := T)
  have h1 : base + i * Sized.sizeof T - base = i * Sized.sizeof T := by omega
  rw [h1, Nat.mul_mod_left, Nat.mul_div_cancel _ hs]
  simp
  omega

theorem ptr_diff_eq (p q n : Nat) (hq : p = q + n * Sized.sizeof T)
    (hn : n * Sized.sizeof T < 2 ^ 63) : ptr_diff T p q = (n : Int) := by
  unfold ptr_diff to_i64
  have hs := Sized.sizeof_pos (T := T)
  have h1 : (p + (2 ^ 64 - q % 2 ^ 64)) % 2 ^ 64 = n * Sized.sizeof T := by
    generalize n * Sized.sizeof T = b at *
    omega
  rw [h1, if_pos hn]
  push_cast
  exact Int.mul_tdiv_cancel _ (by exact_mod_cast hs.ne')

theorem to_u64_natCast (n : Nat) (h : n < 2 ^ 64) : to_u64 (n : Int) = n := by
  unfold to_u64
  omega

/-! ## Memory accesses at a slot of the block -/

theorem fetch_at (base : Nat) (heap : List (Option T)) (i : Nat) (hi : i < heap.length) :
    fetch T base heap (base + i * Sized.sizeof T) = heap.getD i none := by
  unfold fetch
  rw [slot_eq base heap i hi]

theorem construct_at (base : Nat) (heap : List (Option T)) (i : Nat) (x : T)
    (hi : i < heap.length) :
    construct T base heap (base + i * Sized.sizeof T) x = some (heap.set i (some x)) := by
  unfold construct
  rw [slot_eq base heap i hi]

theorem destruct_at (base : Nat) (heap : List (Option T)) (i : Nat) (hi : i < heap.length)
    (hx : (heap.getD i none).isSome = true) :
    destruct T base heap (base + i * Sized.sizeof T) = some (heap.set i none) := by
  unfold destruct
  rw [fetch_at base heap i hi, slot_eq base heap i hi]
  cases hget : heap.getD i none with
  | none => rw [hget] at hx; simp at hx
  | some y => simp

namespace vector

variable {v : vector T}

theorem Inv.bytes (hv : Inv v) :
    v.front_storage * Sized.sizeof T + v.length * Sized.sizeof T ≤ v.storage * Sized.sizeof T := by
  have h := Nat.mul_le_mul_right (Sized.sizeof T) hv.h_le
  rw [Nat.add_mul] at h
  exact h

theorem Inv.length_lt (hv : Inv v) : v.length < 2 ^ 63 := by
  have hs := Sized.sizeof_pos (T := T)
  have h1 := hv.bytes
  have h2 := hv.h_bytes
  have h3 : v.length ≤ v.length * Sized.sizeof T := Nat.le_mul_of_pos_right _ hs
  unfold PTRDIFF_MAX at h2
  omega

theorem Inv.storage_lt (hv : Inv v) : v.storage < 2 ^ 63 := by
  have hs := Sized.sizeof_pos (T := T)
  have h2 := hv.h_bytes
  have h3 : v.storage ≤ v.storage * Sized.sizeof T := Nat.le_mul_of_pos_right _ hs
  unfold PTRDIFF_MAX at h2
  omega

theorem Inv.size_eq (hv : Inv v) : v.size = v.length := by
  unfold size
  have h1 := hv.bytes
  have h2 := hv.h_bytes
  have h3 := hv.h_top
  have h4 := hv.h_send
  have h5 := hv.h_dbegin
  have h6 := hv.h_dend
  unfold PTRDIFF_MAX at h2
  rw [ptr_diff_eq v.dend v.dbegin v.length h6 (by omega)]
  exact to_u64_natCast _ (by have := hv.length_lt; omega)

theorem Inv.operator_index_lt (hv : Inv v) (k : Nat) (hk : k < v.length) :
    operator_index v k = Except.ok (v.sbegin + (v.front_storage + k) * Sized.sizeof T) := by
  have hs := Sized.sizeof_pos (T := T)
  have h1 := hv.bytes
  have h3 := hv.h_top
  have h4 := hv.h_send
  have h5 := hv.h_dbegin
  have h6 := hv.h_dend
  have h7 : (k + 1) * Sized.sizeof T ≤ v.length * Sized.sizeof T :=
    Nat.mul_le_mul_right _ hk
  rw [Nat.add_mul, Nat.one_mul] at h7
  have h8 := Nat.add_mul v.front_storage k (Sized.sizeof T)
  unfold operator_index
  rw [ptr_add_eq v.dbegin k (by omega)]
  rw [if_neg (by omega)]
  congr 1
  omega

theorem Inv.at_index_lt (hv : Inv v) (k : Nat) (hk : k < v.length) :
    at_index v k = v.heap.getD (v.front_storage + k) none := by
  unfold at_index
  rw [hv.operator_index_lt k hk]
  exact fetch_at _ _ _ (by have := hv.h_le; have := hv.h_heap; omega)

theorem Inv.live_length (hv : Inv v) : v.live.length = v.length := by
  unfold live
  have := hv.h_le
  have := hv.h_heap
  simp
  omega

theorem Inv.live_getElem? (hv : Inv v) (k : Nat) (hk : k < v.length) :
    v.live[k]? = some (v.heap.getD (v.front_storage + k) none) := by
  unfold live
  have h1 := hv.h_le
  have h2 := hv.h_heap
  rw [List.getElem?_take_of_lt hk, List.getElem?_drop, List.getD_eq_getElem?_getD]
  rw [List.getElem?_eq_getElem (by omega)]
  simp

theorem Inv.elements_eq_live (hv : Inv v) : v.elements = v.live := by
  apply List.ext_getElem?
  intro k
  unfold elements
  rw [hv.size_eq]
  by_cases hk : k < v.length
  · rw [hv.live_getElem? k hk]
    simp [hk, hv.at_index_lt k hk]
  · rw [List.getElem?_eq_none (by simp; omega), List.getElem?_eq_none (by rw [hv.live_length]; omega)]

/-! ## The calls that do not grow the block -/

theorem live_at (v : vector T) (k : Nat) :
    v.live[k]? = if k < v.length then v.heap[v.front_storage + k]? else none := by
  unfold live
  rw [List.getElem?_take, List.getElem?_drop]

theorem Inv.send_eq_dend_iff (hv : Inv v) :
    v.send = v.dend ↔ v.front_storage + v.length = v.storage := by
  have hs := Sized.sizeof_pos (T := T)
  have h1 := hv.bytes
  rw [hv.h_send, hv.h_dend, hv.h_dbegin]
  constructor
  · intro h
    have h2 : v.storage * Sized.sizeof T = (v.front_storage + v.length) * Sized.sizeof T := by
      rw [Nat.add_mul]; omega
    exact (Nat.eq_of_mul_eq_mul_right hs h2).symm
  · intro h
    rw [← h, Nat.add_mul]; omega

theorem Inv.sbegin_eq_dbegin_iff (hv : Inv v) : v.sbegin = v.dbegin ↔ v.front_storage = 0 := by
  have hs := Sized.sizeof_pos (T := T)
  rw [hv.h_dbegin]
  constructor
  · intro h
    have h2 : v.front_storage * Sized.sizeof T = 0 := by omega
    rcases Nat.mul_eq_zero.mp h2 with h3 | h3
    · exact h3
    · omega
  · intro h
    rw [h]; simp

theorem Inv.dbegin_eq_dend_iff (hv : Inv v) : v.dbegin = v.dend ↔ v.length = 0 := by
  have hs := Sized.sizeof_pos (T := T)
  rw [hv.h_dend]
  constructor
  · intro h
    have h2 : v.length * Sized.sizeof T = 0 := by omega
    rcases Nat.mul_eq_zero.mp h2 with h3 | h3
    · exact h3
    · omega
  · intro h
    rw [h]; simp

theorem Inv.push_back_spare (hv : Inv v) (h : v.send ≠ v.dend) (a : Nat) (x : T) :
    push_back a x v = Outcome.done
      { v with
        heap := v.heap.set (v.front_storage + v.length) (some x)
        dend := v.dend + Sized.sizeof T
        length := v.length + 1
        vector_version := (v.vector_version + 1) % 2 ^ 64 } := by
  have hs := Sized.sizeof_pos (T := T)
  have h1 := hv.bytes
  have h3 := hv.h_top
  have h4 := hv.h_send
  have h5 := hv.h_dbegin
  have h6 := hv.h_dend
  have h7 := hv.h_le
  have h8 := hv.h_heap
  have h9 := hv.length_lt
  have hlt : v.front_storage + v.length < v.storage := by
    rcases Nat.lt_or_ge (v.front_storage + v.length) v.storage with h' | h'
    · exact h'
    · exact absurd (hv.send_eq_dend_iff.mpr (by omega)) h
  have h10 : (v.front_storage + v.length + 1) * Sized.sizeof T ≤ v.storage * Sized.sizeof T :=
    Nat.mul_le_mul_right _ hlt
  have h11 := Nat.add_mul (v.front_storage + v.length) 1 (Sized.sizeof T)
  have h12 := Nat.add_mul v.front_storage v.length (Sized.sizeof T)
  have hd : v.dend = v.sbegin + (v.front_storage + v.length) * Sized.sizeof T := by omega
  unfold push_back
  rw [if_neg h]
  have hc : construct T v.sbegin v.heap v.dend x
      = some (v.heap.set (v.front_storage + v.length) (some x)) := by
    rw [hd]; exact construct_at _ _ _ _ (by omega)
  simp only [Ref.read]
  rw [hc]
  have hp : ptr_add T v.dend 1 = v.dend + Sized.sizeof T := by
    rw [ptr_add_eq _ _ (by omega)]; omega
  have hl : (v.length + 1) % 2 ^ 64 = v.length + 1 := Nat.mod_eq_of_lt (by omega)
  simp only [hp, hl]

theorem Inv.push_front_spare (hv : Inv v) (h : v.sbegin ≠ v.dbegin) (a : Nat) (x : T) :
    push_front a x v = Outcome.done
      { v with
        dbegin := v.dbegin - Sized.sizeof T
        heap := v.heap.set (v.front_storage - 1) (some x)
        length := v.length + 1
        front_storage := v.front_storage - 1
        vector_version := (v.vector_version + 1) % 2 ^ 64 } := by
  have hs := Sized.sizeof_pos (T := T)
  have h1 := hv.bytes
  have h3 := hv.h_top
  have h4 := hv.h_send
  have h5 := hv.h_dbegin
  have h6 := hv.h_dend
  have h7 := hv.h_le
  have h8 := hv.h_heap
  have h9 := hv.length_lt
  have h13 := hv.storage_lt
  have hpos : 0 < v.front_storage := by
    rcases Nat.eq_zero_or_pos v.front_storage with h' | h'
    · exact absurd (hv.sbegin_eq_dbegin_iff.mpr h') h
    · exact h'
  have h11 : (v.front_storage - 1 + 1) * Sized.sizeof T
      = (v.front_storage - 1) * Sized.sizeof T + 1 * Sized.sizeof T := Nat.add_mul _ _ _
  have h12 : v.front_storage - 1 + 1 = v.front_storage := by omega
  rw [h12, Nat.one_mul] at h11
  have hp : ptr_sub T v.dbegin 1 = v.dbegin - Sized.sizeof T := by
    rw [ptr_sub_eq _ _ (by omega) (by omega)]; omega
  have hd : v.dbegin - Sized.sizeof T = v.sbegin + (v.front_storage - 1) * Sized.sizeof T := by
    omega
  unfold push_front
  rw [if_neg h]
  have hc : construct T v.sbegin v.heap (ptr_sub T v.dbegin 1) x
      = some (v.heap.set (v.front_storage - 1) (some x)) := by
    rw [hp, hd]; exact construct_at _ _ _ _ (by omega)
  simp only [hc]
  have hl : (v.length + 1) % 2 ^ 64 = v.length + 1 := Nat.mod_eq_of_lt (by omega)
  have hf : (v.front_storage + (2 ^ 64 - 1)) % 2 ^ 64 = v.front_storage - 1 := by omega
  simp only [hp, hl, hf]

theorem Inv.pop_back_some (hv : Inv v) (h : v.dbegin ≠ v.dend) :
    pop_back v = Outcome.done
      { v with
        dend := v.dend - Sized.sizeof T
        heap := v.heap.set (v.front_storage + v.length - 1) none
        length := v.length - 1
        vector_version := (v.vector_version + 1) % 2 ^ 64 } := by
  have hs := Sized.sizeof_pos (T := T)
  have h1 := hv.bytes
  have h3 := hv.h_top
  have h4 := hv.h_send
  have h5 := hv.h_dbegin
  have h6 := hv.h_dend
  have h7 := hv.h_le
  have h8 := hv.h_heap
  have h9 := hv.length_lt
  have hpos : 0 < v.length := by
    rcases Nat.eq_zero_or_pos v.length with h' | h'
    · exact absurd (hv.dbegin_eq_dend_iff.mpr h') h
    · exact h'
  have h11 : (v.front_storage + v.length - 1 + 1) * Sized.sizeof T
      = (v.front_storage + v.length - 1) * Sized.sizeof T + 1 * Sized.sizeof T := Nat.add_mul _ _ _
  have h12 : v.front_storage + v.length - 1 + 1 = v.front_storage + v.length := by omega
  rw [h12, Nat.one_mul, Nat.add_mul] at h11
  have hp : ptr_sub T v.dend 1 = v.dend - Sized.sizeof T := by
    rw [ptr_sub_eq _ _ (by omega) (by omega)]; omega
  have hd : v.dend - Sized.sizeof T
      = v.sbegin + (v.front_storage + v.length - 1) * Sized.sizeof T := by
    omega
  have hx := hv.h_live (v.length - 1) (by omega)
  have h14 : v.front_storage + (v.length - 1) = v.front_storage + v.length - 1 := by omega
  rw [h14] at hx
  unfold pop_back
  rw [if_neg h]
  have hc : destruct T v.sbegin v.heap (ptr_sub T v.dend 1)
      = some (v.heap.set (v.front_storage + v.length - 1) none) := by
    rw [hp, hd]; exact destruct_at _ _ _ (by omega) hx
  simp only [hc]
  have hl : (v.length + (2 ^ 64 - 1)) % 2 ^ 64 = v.length - 1 := by omega
  simp only [hp, hl]

theorem Inv.pop_front_some (hv : Inv v) (h : v.dbegin ≠ v.dend) :
    pop_front v = Outcome.done
      { v with
        heap := v.heap.set v.front_storage none
        dbegin := v.dbegin + Sized.sizeof T
        front_storage := v.front_storage + 1
        length := v.length - 1
        vector_version := (v.vector_version + 1) % 2 ^ 64 } := by
  have hs := Sized.sizeof_pos (T := T)
  have h1 := hv.bytes
  have h3 := hv.h_top
  have h4 := hv.h_send
  have h5 := hv.h_dbegin
  have h6 := hv.h_dend
  have h7 := hv.h_le
  have h8 := hv.h_heap
  have h9 := hv.length_lt
  have h13 := hv.storage_lt
  have hpos : 0 < v.length := by
    rcases Nat.eq_zero_or_pos v.length with h' | h'
    · exact absurd (hv.dbegin_eq_dend_iff.mpr h') h
    · exact h'
  have h10 : 1 * Sized.sizeof T ≤ v.length * Sized.sizeof T := Nat.mul_le_mul_right _ hpos
  rw [Nat.one_mul] at h10
  have hx := hv.h_live 0 hpos
  rw [Nat.add_zero] at hx
  unfold pop_front
  rw [if_neg h]
  have hc : destruct T v.sbegin v.heap v.dbegin = some (v.heap.set v.front_storage none) := by
    rw [h5]; exact destruct_at _ _ _ (by omega) hx
  simp only [hc]
  have hp : ptr_add T v.dbegin 1 = v.dbegin + Sized.sizeof T := by
    rw [ptr_add_eq _ _ (by omega)]; omega
  have hl : (v.length + (2 ^ 64 - 1)) % 2 ^ 64 = v.length - 1 := by omega
  have hf : (v.front_storage + 1) % 2 ^ 64 = v.front_storage + 1 := Nat.mod_eq_of_lt (by omega)
  simp only [hp, hl, hf]

theorem getD_set (l : List (Option T)) (i j : Nat) (a : Option T) :
    (l.set i a).getD j none = if i = j ∧ i < l.length then a else l.getD j none := by
  rw [List.getD_eq_getElem?_getD, List.getD_eq_getElem?_getD, List.getElem?_set]
  by_cases h : i = j
  · subst h
    by_cases h2 : i < l.length
    · simp [h2]
    · simp [h2, List.getElem?_eq_none (Nat.le_of_not_lt h2)]
  · simp [h]

/-- The state `push_back` leaves when there is spare room at the back. -/
theorem Inv.push_back_spare_inv (hv : Inv v) (h : v.send ≠ v.dend) (x : T) :
    Inv { v with
      heap := v.heap.set (v.front_storage + v.length) (some x)
      dend := v.dend + Sized.sizeof T
      length := v.length + 1
      vector_version := (v.vector_version + 1) % 2 ^ 64 } := by
  have hlt : v.front_storage + v.length < v.storage := by
    rcases Nat.lt_or_ge (v.front_storage + v.length) v.storage with h' | h'
    · exact h'
    · exact absurd (hv.send_eq_dend_iff.mpr (by have := hv.h_le; omega)) h
  have h8 := hv.h_heap
  exact
    { h_send := hv.h_send
      h_top := hv.h_top
      h_bytes := hv.h_bytes
      h_dbegin := hv.h_dbegin
      h_dend := by
        have := hv.h_dend
        simp only [Nat.add_mul, Nat.one_mul]
        omega
      h_le := by simp only; omega
      h_heap := by simp only [List.length_set]; exact hv.h_heap
      h_cap := hv.h_cap
      h_live := by
        intro i hi
        simp only at hi ⊢
        rw [getD_set]
        by_cases hil : i = v.length
        · rw [if_pos ⟨by omega, by omega⟩]
          rfl
        · rw [if_neg (by omega)]
          exact hv.h_live i (by omega)
      h_realloc := hv.h_realloc
      h_version := Nat.mod_lt _ (by norm_num) }

theorem Inv.push_back_spare_live (hv : Inv v) (h : v.send ≠ v.dend) (x : T) :
    live { v with
      heap := v.heap.set (v.front_storage + v.length) (some x)
      dend := v.dend + Sized.sizeof T
      length := v.length + 1
      vector_version := (v.vector_version + 1) % 2 ^ 64 } = v.live ++ [some x] := by
  have hlt : v.front_storage + v.length < v.storage := by
    rcases Nat.lt_or_ge (v.front_storage + v.length) v.storage with h' | h'
    · exact h'
    · exact absurd (hv.send_eq_dend_iff.mpr (by have := hv.h_le; omega)) h
  have h8 := hv.h_heap
  apply List.ext_getElem?
  intro k
  rw [live_at, List.getElem?_append, hv.live_length, live_at]
  simp only [List.getElem?_set]
  by_cases hk : k < v.length
  · have e1 : k < v.length + 1 := by omega
    have e2 : ¬ (v.front_storage + v.length = v.front_storage + k) := by omega
    simp only [hk, e1, e2, if_true, if_false]
  · by_cases hk2 : k = v.length
    · have e1 : k < v.length + 1 := by omega
      have e2 : v.front_storage + v.length = v.front_storage + k := by omega
      have e3 : v.front_storage + k < v.heap.length := by omega
      have e4 : k - v.length = 0 := by omega
      simp only [hk, e1, e2, e3, e4, if_true, if_false, List.getElem?_cons_zero]
    · have e1 : ¬ (k < v.length + 1) := by omega
      have e4 : [some x][k - v.length]? = none :=
        List.getElem?_eq_none (by simp only [List.length_singleton]; omega)
      simp only [hk, e1, e4, if_false]

/-- The state `push_front` leaves when there is spare room at the front. -/
theorem Inv.push_front_spare_inv (hv : Inv v) (h : v.sbegin ≠ v.dbegin) (x : T) :
    Inv { v with
      dbegin := v.dbegin - Sized.sizeof T
      heap := v.heap.set (v.front_storage - 1) (some x)
      length := v.length + 1
      front_storage := v.front_storage - 1
      vector_version := (v.vector_version + 1) % 2 ^ 64 } := by
  have hpos : 0 < v.front_storage := by
    rcases Nat.eq_zero_or_pos v.front_storage with h' | h'
    · exact absurd (hv.sbegin_eq_dbegin_iff.mpr h') h
    · exact h'
  have h8 := hv.h_heap
  have h7 := hv.h_le
  have h11 : (v.front_storage - 1 + 1) * Sized.sizeof T
      = (v.front_storage - 1) * Sized.sizeof T + 1 * Sized.sizeof T := Nat.add_mul _ _ _
  have h12 : v.front_storage - 1 + 1 = v.front_storage := by omega
  rw [h12, Nat.one_mul] at h11
  exact
    { h_send := hv.h_send
      h_top := hv.h_top
      h_bytes := hv.h_bytes
      h_dbegin := by
        have := hv.h_dbegin
        simp only
        omega
      h_dend := by
        have := hv.h_dend
        have := hv.h_dbegin
        simp only [Nat.add_mul, Nat.one_mul]
        omega
      h_le := by simp only; omega
      h_heap := by simp only [List.length_set]; exact hv.h_heap
      h_cap := hv.h_cap
      h_live := by
        intro i hi
        simp only at hi ⊢
        rw [getD_set]
        by_cases hil : i = 0
        · rw [if_pos ⟨by omega, by omega⟩]
          rfl
        · rw [if_neg (by omega)]
          have := hv.h_live (i - 1) (by omega)
          have h14 : v.front_storage + (i - 1) = v.front_storage - 1 + i := by omega
          rw [h14] at this
          exact this
      h_realloc := hv.h_realloc
      h_version := Nat.mod_lt _ (by norm_num) }

theorem Inv.push_front_spare_live (hv : Inv v) (h : v.sbegin ≠ v.dbegin) (x : T) :
    live { v with
      dbegin := v.dbegin - Sized.sizeof T
      heap := v.heap.set (v.front_storage - 1) (some x)
      length := v.length + 1
      front_storage := v.front_storage - 1
      vector_version := (v.vector_version + 1) % 2 ^ 64 } = some x :: v.live := by
  have hpos : 0 < v.front_storage := by
    rcases Nat.eq_zero_or_pos v.front_storage with h' | h'
    · exact absurd (hv.sbegin_eq_dbegin_iff.mpr h') h
    · exact h'
  have h8 := hv.h_heap
  have h7 := hv.h_le
  apply List.ext_getElem?
  intro k
  rw [live_at]
  simp only [List.getElem?_set]
  cases k with
  | zero =>
    have e1 : v.front_storage - 1 < v.heap.length := by omega
    simp only [Nat.zero_lt_succ, Nat.add_zero, e1, if_true, List.getElem?_cons_zero]
  | succ k =>
    rw [List.getElem?_cons_succ, live_at]
    have e0 : v.front_storage - 1 + (k + 1) = v.front_storage + k := by omega
    have e2 : ¬ (v.front_storage - 1 = v.front_storage + k) := by omega
    by_cases hk : k < v.length
    · have e1 : k + 1 < v.length + 1 := by omega
      simp only [hk, e0, e1, e2, if_true, if_false]
    · have e1 : ¬ (k + 1 < v.length + 1) := by omega
      simp only [hk, e1, if_false]

/-- The state `pop_back` leaves on a vector that is not empty. -/
theorem Inv.pop_back_inv (hv : Inv v) (h : v.dbegin ≠ v.dend) :
    Inv { v with
      dend := v.dend - Sized.sizeof T
      heap := v.heap.set (v.front_storage + v.length - 1) none
      length := v.length - 1
      vector_version := (v.vector_version + 1) % 2 ^ 64 } := by
  have hs := Sized.sizeof_pos (T := T)
  have hpos : 0 < v.length := by
    rcases Nat.eq_zero_or_pos v.length with h' | h'
    · exact absurd (hv.dbegin_eq_dend_iff.mpr h') h
    · exact h'
  have h8 := hv.h_heap
  have h7 := hv.h_le
  have h11 : (v.length - 1 + 1) * Sized.sizeof T
      = (v.length - 1) * Sized.sizeof T + 1 * Sized.sizeof T := Nat.add_mul _ _ _
  have h12 : v.length - 1 + 1 = v.length := by omega
  rw [h12, Nat.one_mul] at h11
  exact
    { h_send := hv.h_send
      h_top := hv.h_top
      h_bytes := hv.h_bytes
      h_dbegin := hv.h_dbegin
      h_dend := by
        have := hv.h_dend
        simp only
        omega
      h_le := by simp only; omega
      h_heap := by simp only [List.length_set]; exact hv.h_heap
      h_cap := hv.h_cap
      h_live := by
        intro i hi
        simp only at hi ⊢
        rw [getD_set, if_neg (by omega)]
        exact hv.h_live i (by omega)
      h_realloc := hv.h_realloc
      h_version := Nat.mod_lt _ (by norm_num) }

theorem Inv.pop_back_live (hv : Inv v) :
    live { v with
      dend := v.dend - Sized.sizeof T
      heap := v.heap.set (v.front_storage + v.length - 1) none
      length := v.length - 1
      vector_version := (v.vector_version + 1) % 2 ^ 64 } = v.live.dropLast := by
  apply List.ext_getElem?
  intro k
  rw [live_at, List.getElem?_dropLast, hv.live_length, live_at]
  simp only [List.getElem?_set]
  by_cases hk : k < v.length - 1
  · have e1 : k < v.length := by omega
    have e2 : ¬ (v.front_storage + v.length - 1 = v.front_storage + k) := by omega
    simp only [hk, e1, e2, if_true, if_false]
  · simp only [hk, if_false]

/-- The state `pop_front` leaves on a vector that is not empty. -/
theorem Inv.pop_front_inv (hv : Inv v) (h : v.dbegin ≠ v.dend) :
    Inv { v with
      heap := v.heap.set v.front_storage none
      dbegin := v.dbegin + Sized.sizeof T
      front_storage := v.front_storage + 1
      length := v.length - 1
      vector_version := (v.vector_version + 1) % 2 ^ 64 } := by
  have hs := Sized.sizeof_pos (T := T)
  have hpos : 0 < v.length := by
    rcases Nat.eq_zero_or_pos v.length with h' | h'
    · exact absurd (hv.dbegin_eq_dend_iff.mpr h') h
    · exact h'
  have h8 := hv.h_heap
  have h7 := hv.h_le
  have h11 : (v.length - 1 + 1) * Sized.sizeof T
      = (v.length - 1) * Sized.sizeof T + 1 * Sized.sizeof T := Nat.add_mul _ _ _
  have h12 : v.length - 1 + 1 = v.length := by omega
  rw [h12, Nat.one_mul] at h11
  exact
    { h_send := hv.h_send
      h_top := hv.h_top
      h_bytes := hv.h_bytes
      h_dbegin := by
        have := hv.h_dbegin
        simp only [Nat.add_mul, Nat.one_mul]
        omega
      h_dend := by
        have := hv.h_dend
        simp only
        omega
      h_le := by simp only; omega
      h_heap := by simp only [List.length_set]; exact hv.h_heap
      h_cap := hv.h_cap
      h_live := by
        intro i hi
        simp only at hi ⊢
        rw [getD_set, if_neg (by omega)]
        have := hv.h_live (i + 1) (by omega)
        have h14 : v.front_storage + (i + 1) = v.front_storage + 1 + i := by omega
        rw [h14] at this
        exact this
      h_realloc := hv.h_realloc
      h_version := Nat.mod_lt _ (by norm_num) }

theorem Inv.pop_front_live (hv : Inv v) (h : v.dbegin ≠ v.dend) :
    live { v with
      heap := v.heap.set v.front_storage none
      dbegin := v.dbegin + Sized.sizeof T
      front_storage := v.front_storage + 1
      length := v.length - 1
      vector_version := (v.vector_version + 1) % 2 ^ 64 } = v.live.tail := by
  have hpos : 0 < v.length := by
    rcases Nat.eq_zero_or_pos v.length with h' | h'
    · exact absurd (hv.dbegin_eq_dend_iff.mpr h') h
    · exact h'
  apply List.ext_getElem?
  intro k
  rw [live_at, List.getElem?_tail, live_at]
  simp only [List.getElem?_set]
  have e0 : v.front_storage + 1 + k = v.front_storage + (k + 1) := by omega
  have e2 : ¬ (v.front_storage = v.front_storage + (k + 1)) := by omega
  by_cases hk : k < v.length - 1
  · have e1 : k + 1 < v.length := by omega
    simp only [hk, e0, e1, e2, if_true, if_false]
  · have e1 : ¬ (k + 1 < v.length) := by omega
    simp only [hk, e1, if_false]

end vector

/-! ## The two loops -/

/-- The relocation loop, run on `n` live source slots from round `k` on, is
defined, keeps the size of the target block and fills exactly the target slots
`df + k, ..., df + k + n - 1` with the source elements. -/
theorem relocate_spec (sbase : Nat) (sheap : List (Option T)) (sf dbase df total : Nat)
    (hsrc : ∀ i, i < total → (sheap.getD (sf + i) none).isSome = true)
    (hsl : sf + total ≤ sheap.length)
    (hsw : sbase + (sf + total) * Sized.sizeof T < 2 ^ 64)
    (hdw : dbase + (df + total) * Sized.sizeof T < 2 ^ 64) :
    ∀ (n k : Nat) (h : List (Option T)), k + n ≤ total → df + total ≤ h.length →
      ∃ h1, relocate T sbase sheap (sbase + sf * Sized.sizeof T) dbase
            (dbase + df * Sized.sizeof T) n k h = some h1 ∧
        h1.length = h.length ∧
        ∀ j, h1[j]? = if df + k ≤ j ∧ j < df + k + n then sheap[sf + (j - df)]? else h[j]? := by
  have hs := Sized.sizeof_pos (T := T)
  intro n
  induction n with
  | zero =>
    intro k h _ _
    refine ⟨h, rfl, rfl, ?_⟩
    intro j
    rw [if_neg (by omega)]
  | succ n ih =>
    intro k h hk hdl
    have a1 : (sf + k + 1) * Sized.sizeof T ≤ (sf + total) * Sized.sizeof T :=
      Nat.mul_le_mul_right _ (by omega)
    have a2 : (df + k + 1) * Sized.sizeof T ≤ (df + total) * Sized.sizeof T :=
      Nat.mul_le_mul_right _ (by omega)
    have a3 := Nat.add_mul (sf + k) 1 (Sized.sizeof T)
    have a4 := Nat.add_mul (df + k) 1 (Sized.sizeof T)
    have a5 := Nat.add_mul sf k (Sized.sizeof T)
    have a6 := Nat.add_mul df k (Sized.sizeof T)
    have e1 : ptr_add T (sbase + sf * Sized.sizeof T) k = sbase + (sf + k) * Sized.sizeof T := by
      rw [ptr_add_eq _ _ (by omega)]; omega
    have e2 : ptr_add T (dbase + df * Sized.sizeof T) k = dbase + (df + k) * Sized.sizeof T := by
      rw [ptr_add_eq _ _ (by omega)]; omega
    have hx := hsrc k (by omega)
    obtain ⟨x, hx'⟩ := Option.isSome_iff_exists.mp hx
    have e3 : fetch T sbase sheap (sbase + (sf + k) * Sized.sizeof T) = some x := by
      rw [fetch_at _ _ _ (by omega)]; exact hx'
    have e4 : construct T dbase h (dbase + (df + k) * Sized.sizeof T) x
        = some (h.set (df + k) (some x)) := construct_at _ _ _ _ (by omega)
    obtain ⟨h1, r1, r2, r3⟩ := ih (k + 1) (h.set (df + k) (some x)) (by omega)
      (by rw [List.length_set]; exact hdl)
    refine ⟨h1, ?_, ?_, ?_⟩
    · rw [relocate, e1, e2, e3]
      dsimp only
      rw [e4]
      exact r1
    · rw [r2, List.length_set]
    · intro j
      rw [r3 j, List.getElem?_set]
      by_cases hj : df + k = j
      · have c1 : ¬ (df + (k + 1) ≤ j ∧ j < df + (k + 1) + n) := by omega
        have c2 : df + k ≤ j ∧ j < df + k + (n + 1) := by omega
        have c3 : df + k < h.length := by omega
        have c4 : sf + (j - df) = sf + k := by omega
        rw [if_neg c1, if_pos hj, if_pos c3, if_pos c2, c4]
        rw [List.getD_eq_getElem?_getD] at hx'
        rw [List.getElem?_eq_getElem (by omega)] at hx' ⊢
        simp only [Option.getD_some] at hx'
        rw [hx']
      · by_cases hj2 : df + (k + 1) ≤ j ∧ j < df + (k + 1) + n
        · have c2 : df + k ≤ j ∧ j < df + k + (n + 1) := by omega
          rw [if_pos hj2, if_pos c2]
        · have c2 : ¬ (df + k ≤ j ∧ j < df + k + (n + 1)) := by omega
          rw [if_neg hj2, if_neg c2, if_neg hj]

/-- The destruction loop is defined when it starts inside a range of
constructed elements that ends at `dend`, with a round for each of them. -/
theorem destroy_loop_spec (base f l : Nat)
    (hw : base + (f + l) * Sized.sizeof T < 2 ^ 64) :
    ∀ (fuel j : Nat) (h : List (Option T)), j ≤ l → l - j ≤ fuel → f + l ≤ h.length →
      (∀ i, j ≤ i → i < l → (h.getD (f + i) none).isSome = true) →
      ∃ h1, destroy_loop T base (base + (f + l) * Sized.sizeof T) fuel
        (base + (f + j) * Sized.sizeof T) h = some h1 := by
  have hs := Sized.sizeof_pos (T := T)
  intro fuel
  induction fuel with
  | zero =>
    intro j h hj hfuel _ _
    have : j = l := by omega
    subst this
    exact ⟨h, by rw [destroy_loop, if_pos rfl]⟩
  | succ fuel ih =>
    intro j h hj hfuel hlen hlive
    by_cases hjl : j = l
    · subst hjl
      exact ⟨h, by rw [destroy_loop, if_pos rfl]⟩
    · have a1 : (f + j + 1) * Sized.sizeof T ≤ (f + l) * Sized.sizeof T :=
        Nat.mul_le_mul_right _ (by omega)
      have a3 := Nat.add_mul (f + j) 1 (Sized.sizeof T)
      have hne : ¬ (base + (f + j) * Sized.sizeof T = base + (f + l) * Sized.sizeof T) := by
        omega
      have e1 : destruct T base h (base + (f + j) * Sized.sizeof T)
          = some (h.set (f + j) none) :=
        destruct_at _ _ _ (by omega) (hlive j (Nat.le_refl _) (by omega))
      have e2 : ptr_add T (base + (f + j) * Sized.sizeof T) 1
          = base + (f + (j + 1)) * Sized.sizeof T := by
        rw [ptr_add_eq _ _ (by omega)]
        have : f + (j + 1) = f + j + 1 := by omega
        rw [this]
        omega
      obtain ⟨h1, r1⟩ := ih (j + 1) (h.set (f + j) none) (by omega) (by omega)
        (by rw [List.length_set]; exact hlen)
        (by
          intro i hi1 hi2
          rw [vector.getD_set, if_neg (by omega)]
          exact hlive i (by omega) hi2)
      exact ⟨h1, by rw [destroy_loop, if_neg hne, e1]; dsimp only; rw [e2]; exact r1⟩

theorem move_from_at (base : Nat) (heap : List (Option T)) (i : Nat) (x : T)
    (hi : i < heap.length) (hx : heap.getD i none = some x) :
    move_from T base heap (base + i * Sized.sizeof T)
      = some (x, heap.set i (some (Sized.moved x))) := by
  unfold move_from
  rw [slot_eq base heap i hi]
  simp only [hx]

/-- The moving relocation loop, run on `n` live source slots from round `k`
on, is defined; it keeps the sizes of both blocks, fills exactly the target
slots `df + k, ..., df + k + n - 1` with the source elements, and leaves exactly
the source slots `sf + k, ..., sf + k + n - 1` moved-from. -/
theorem relocate_move_spec (sbase sf dbase df total : Nat)
    (hsw : sbase + (sf + total) * Sized.sizeof T < 2 ^ 64)
    (hdw : dbase + (df + total) * Sized.sizeof T < 2 ^ 64) :
    ∀ (n k : Nat) (sh h : List (Option T)), k + n ≤ total → sf + total ≤ sh.length →
      df + total ≤ h.length →
      (∀ i, k ≤ i → i < k + n → (sh.getD (sf + i) none).isSome = true) →
      ∃ sh1 h1, relocate_move T sbase (sbase + sf * Sized.sizeof T) dbase
            (dbase + df * Sized.sizeof T) n k sh h = some (sh1, h1) ∧
        h1.length = h.length ∧ sh1.length = sh.length ∧
        (∀ j, h1[j]? = if df + k ≤ j ∧ j < df + k + n then sh[sf + (j - df)]? else h[j]?) ∧
        (∀ j, sh1[j]? = if sf + k ≤ j ∧ j < sf + k + n
          then (sh[j]?).map (Option.map Sized.moved) else sh[j]?) := by
  have hs := Sized.sizeof_pos (T := T)
  intro n
  induction n with
  | zero =>
    intro k sh h _ _ _ _
    refine ⟨sh, h, rfl, rfl, rfl, ?_, ?_⟩
    · intro j
      rw [if_neg (by omega)]
    · intro j
      rw [if_neg (by omega)]
  | succ n ih =>
    intro k sh h hk hsl hdl hsrc
    have a1 : (sf + k + 1) * Sized.sizeof T ≤ (sf + total) * Sized.sizeof T :=
      Nat.mul_le_mul_right _ (by omega)
    have a2 : (df + k + 1) * Sized.sizeof T ≤ (df + total) * Sized.sizeof T :=
      Nat.mul_le_mul_right _ (by omega)
    have a3 := Nat.add_mul (sf + k) 1 (Sized.sizeof T)
    have a4 := Nat.add_mul (df + k) 1 (Sized.sizeof T)
    have a5 := Nat.add_mul sf k (Sized.sizeof T)
    have a6 := Nat.add_mul df k (Sized.sizeof T)
    have e1 : ptr_add T (sbase + sf * Sized.sizeof T) k = sbase + (sf + k) * Sized.sizeof T := by
      rw [ptr_add_eq _ _ (by omega)]; omega
    have e2 : ptr_add T (dbase + df * Sized.sizeof T) k = dbase + (df + k) * Sized.sizeof T := by
      rw [ptr_add_eq _ _ (by omega)]; omega
    have hx := hsrc k (Nat.le_refl _) (by omega)
    obtain ⟨x, hx'⟩ := Option.isSome_iff_exists.mp hx
    have e3 : move_from T sbase sh (sbase + (sf + k) * Sized.sizeof T)
        = some (x, sh.set (sf + k) (some (Sized.moved x))) :=
      move_from_at _ _ _ _ (by omega) hx'
    have e4 : construct T dbase h (dbase + (df + k) * Sized.sizeof T) x
        = some (h.set (df + k) (some x)) := construct_at _ _ _ _ (by omega)
    obtain ⟨sh1, h1, r1, r2, r2s, r3, r4⟩ := ih (k + 1)
      (sh.set (sf + k) (some (Sized.moved x))) (h.set (df + k) (some x)) (by omega)
      (by rw [List.length_set]; exact hsl) (by rw [List.length_set]; exact hdl)
      (by
        intro i hi1 hi2
        rw [vector.getD_set, if_neg (by omega)]
        exact hsrc i (by omega) (by omega))
    have hxs : sh[sf + k]? = some (some x) := by
      rw [List.getD_eq_getElem?_getD, List.getElem?_eq_getElem (by omega)] at hx'
      simp only [Option.getD_some] at hx'
      rw [List.getElem?_eq_getElem (by omega), hx']
    refine ⟨sh1, h1, ?_, ?_, ?_, ?_, ?_⟩
    · rw [relocate_move, e1, e2, e3]
      dsimp only
      rw [e4]
      exact r1
    · rw [r2, List.length_set]
    · rw [r2s, List.length_set]
    · intro j
      rw [r3 j]
      by_cases hj : df + (k + 1) ≤ j ∧ j < df + (k + 1) + n
      · have c2 : df + k ≤ j ∧ j < df + k + (n + 1) := by omega
        rw [if_pos hj, if_pos c2, List.getElem?_set, if_neg (by omega)]
      · rw [if_neg hj, List.getElem?_set]
        by_cases hj2 : df + k = j
        · have c2 : df + k ≤ j ∧ j < df + k + (n + 1) := by omega
          have c3 : sf + (j - df) = sf + k := by omega
          have c4 : df + k < h.length := by omega
          rw [if_pos hj2, if_pos c2, c3, hxs]
          simp only [c4, if_true]
        · have c2 : ¬ (df + k ≤ j ∧ j < df + k + (n + 1)) := by omega
          rw [if_neg hj2, if_neg c2]
    · intro j
      rw [r4 j]
      by_cases hj : sf + (k + 1) ≤ j ∧ j < sf + (k + 1) + n
      · have c2 : sf + k ≤ j ∧ j < sf + k + (n + 1) := by omega
        rw [if_pos hj, if_pos c2, List.getElem?_set, if_neg (by omega)]
      · rw [if_neg hj, List.getElem?_set]
        by_cases hj2 : sf + k = j
        · have c2 : sf + k ≤ j ∧ j < sf + k + (n + 1) := by omega
          have c4 : j < sh.length := by omega
          rw [if_pos hj2, if_pos c2, ← hj2, hxs]
          have c5 : sf + k < sh.length := by omega
          simp only [c5, if_true, Option.map_some']
        · have c2 : ¬ (sf + k ≤ j ∧ j < sf + k + (n + 1)) := by omega
          rw [if_neg hj2, if_neg c2]

/-- The member `destroy()` is defined on an object whose pointers delimit a
range of constructed elements of its block. -/
theorem destroy_of_layout (w : vector T) (f l : Nat)
    (hb : w.dbegin = w.sbegin + f * Sized.sizeof T)
    (hd : w.dend = w.sbegin + (f + l) * Sized.sizeof T)
    (hw : w.sbegin + (f + l) * Sized.sizeof T < 2 ^ 64)
    (hlen : f + l ≤ w.heap.length)
    (hlive : ∀ i, i < l → (w.heap.getD (f + i) none).isSome = true) :
    ∃ w1, vector.destroy w = some w1 := by
  obtain ⟨h1, r⟩ := destroy_loop_spec (T := T) w.sbegin f l hw
    w.heap.length 0 w.heap (Nat.zero_le _) (by omega) hlen (fun i _ hi => hlive i hi)
  unfold vector.destroy
  rw [hd, hb]
  rw [Nat.add_zero] at r
  rw [r]
  exact ⟨_, rfl⟩

namespace vector

variable {v : vector T}

theorem Inv.destroy_some (hv : Inv v) : destroy v = some { v with heap := [] } := by
  have h1 := hv.bytes
  have h3 := hv.h_top
  have h4 := hv.h_send
  have h5 := hv.h_dbegin
  have h6 := hv.h_dend
  have h7 := hv.h_le
  have h8 := hv.h_heap
  have a5 := Nat.add_mul v.front_storage v.length (Sized.sizeof T)
  have hd : v.dend = v.sbegin + (v.front_storage + v.length) * Sized.sizeof T := by omega
  have hb : v.dbegin = v.sbegin + (v.front_storage + 0) * Sized.sizeof T := by
    rw [Nat.add_zero]; exact h5
  obtain ⟨h', r⟩ := destroy_loop_spec (T := T) v.sbegin v.front_storage v.length (by omega)
    v.heap.length 0 v.heap (Nat.zero_le _) (by omega) (by omega)
    (fun i _ hi => hv.h_live i hi)
  unfold destroy
  rw [hd, hb, r]

theorem Inv.destroy_isSome (hv : Inv v) (w : vector T) (h1 : w.sbegin = v.sbegin)
    (h2 : w.dend = v.dend) (h3 : w.dbegin = v.dbegin) (h4 : w.heap = v.heap) :
    ∃ w1, destroy w = some w1 := by
  have h := hv.destroy_some
  unfold destroy at h ⊢
  rw [h1, h2, h3, h4]
  cases hd : destroy_loop T v.sbegin v.dend v.heap.length v.dbegin v.heap with
  | none => rw [hd] at h; simp at h
  | some _ => exact ⟨_, rfl⟩

/-! ## The calls that grow the block -/

/-- A block of `cap` slots at address `a` whose slots `f, ..., f + n - 1` hold
elements makes a vector that satisfies the invariant. -/
theorem Inv.of_block (a cap f n r ver : Nat) (heap : List (Option T))
    (hb : cap * Sized.sizeof T ≤ PTRDIFF_MAX) (ht : a + cap * Sized.sizeof T < 2 ^ 64)
    (hle : f + n ≤ cap) (hlen : heap.length = cap) (hcap : 0 < cap)
    (hlive : ∀ i, i < n → (heap.getD (f + i) none).isSome = true)
    (hr : r < 2 ^ 64) (hver : ver < 2 ^ 64) :
    Inv
      { dbegin := a + f * Sized.sizeof T
        dend := a + f * Sized.sizeof T + n * Sized.sizeof T
        sbegin := a
        send := a + cap * Sized.sizeof T
        length := n
        storage := cap
        front_storage := f
        reallocate_times := r
        vector_version := ver
        heap := heap } :=
  { h_send := rfl
    h_top := ht
    h_bytes := hb
    h_dbegin := rfl
    h_dend := rfl
    h_le := hle
    h_heap := hlen
    h_cap := hcap
    h_live := hlive
    h_realloc := hr
    h_version := hver }

/-- The growth path of `push_back(const T&)` with the allocation granted, for
an argument `that` which reads as `y` once the old elements have been moved
out: the result, with the contents of the new block. -/
theorem Inv.push_back_grow_ref (hv : Inv v) (h : v.send = v.dend) (a : Nat) (that : Ref T)
    (y : T) (ha : 0 < a) (hb : v.storage * 2 * Sized.sizeof T ≤ PTRDIFF_MAX)
    (ht : a + v.storage * 2 * Sized.sizeof T < 2 ^ 64)
    (hy : ∀ sh : List (Option T), sh.length = v.heap.length →
      (∀ j, sh[j]? = if v.front_storage ≤ j ∧ j < v.front_storage + v.length
        then (v.heap[j]?).map (Option.map Sized.moved) else v.heap[j]?) →
      that.read T v.sbegin sh = some y) :
    ∃ heap3 : List (Option T),
      push_back a that v = Outcome.done
        { dbegin := a + v.front_storage * Sized.sizeof T
          dend := a + v.front_storage * Sized.sizeof T + (v.length + 1) * Sized.sizeof T
          sbegin := a
          send := a + v.storage * 2 * Sized.sizeof T
          length := v.length + 1
          storage := v.storage * 2
          front_storage := v.front_storage
          reallocate_times := (v.reallocate_times + 1) % 2 ^ 64
          vector_version := (v.vector_version + 1) % 2 ^ 64
          heap := heap3 } ∧
      heap3.length = v.storage * 2 ∧
      ∀ j, heap3[j]? =
        if j = v.front_storage + v.length then some (some y)
        else if v.front_storage ≤ j ∧ j < v.front_storage + v.length then v.heap[j]?
        else if j < v.storage * 2 then some none else none := by
  have hs := Sized.sizeof_pos (T := T)
  have h1 := hv.bytes
  have h3 := hv.h_top
  have h4 := hv.h_send
  have h5 := hv.h_dbegin
  have h6 := hv.h_dend
  have h7 := hv.h_le
  have h8 := hv.h_heap
  have h9 := hv.length_lt
  have h10 := hv.storage_lt
  have hcap := hv.h_cap
  have hfull : v.front_storage + v.length = v.storage := hv.send_eq_dend_iff.mp h
  have a5 := Nat.add_mul v.front_storage v.length (Sized.sizeof T)
  have a6 := Nat.add_mul (v.front_storage + v.length) 1 (Sized.sizeof T)
  have a7 : (v.front_storage + v.length + 1) * Sized.sizeof T ≤ v.storage * 2 * Sized.sizeof T :=
    Nat.mul_le_mul_right _ (by omega)
  have a8 := Nat.add_mul v.length 1 (Sized.sizeof T)
  have es : v.storage * 2 % 2 ^ 64 = v.storage * 2 := Nat.mod_eq_of_lt (by omega)
  have hcomm : Sized.sizeof T * (v.storage * 2) = v.storage * 2 * Sized.sizeof T :=
    Nat.mul_comm _ _
  have eb : Sized.sizeof T * (v.storage * 2) % 2 ^ 64 = v.storage * 2 * Sized.sizeof T := by
    rw [hcomm]; exact Nat.mod_eq_of_lt (by omega)
  have en : operator_new a (v.storage * 2 * Sized.sizeof T) = some a := by
    unfold operator_new
    rw [if_pos ⟨ha, hb, ht⟩]
  have er : raw_block T (v.storage * 2 * Sized.sizeof T)
      = List.replicate (v.storage * 2) none := by
    unfold raw_block
    rw [Nat.mul_div_cancel _ hs]
  have e1 : ptr_add T a (v.storage * 2) = a + v.storage * 2 * Sized.sizeof T :=
    ptr_add_eq _ _ ht
  have e2 : ptr_add T a v.front_storage = a + v.front_storage * Sized.sizeof T :=
    ptr_add_eq _ _ (by omega)
  have e3 : ptr_add T (a + v.front_storage * Sized.sizeof T) v.length
      = a + (v.front_storage + v.length) * Sized.sizeof T := by
    rw [ptr_add_eq _ _ (by omega)]; omega
  have e4 : ptr_add T (a + (v.front_storage + v.length) * Sized.sizeof T) 1
      = a + v.front_storage * Sized.sizeof T + (v.length + 1) * Sized.sizeof T := by
    rw [ptr_add_eq _ _ (by omega)]; omega
  have el : (v.length + 1) % 2 ^ 64 = v.length + 1 := Nat.mod_eq_of_lt (by omega)
  obtain ⟨heap1, heap2, r1, r2, r2s, r3, r4⟩ := relocate_move_spec (T := T) v.sbegin
    v.front_storage a v.front_storage v.length (by omega) (by omega)
    v.length 0 v.heap (List.replicate (v.storage * 2) none) (by omega) (by omega)
    (by rw [List.length_replicate]; omega) (fun i _ hi => hv.h_live i (by omega))
  have r4' : ∀ j, heap1[j]? = if v.front_storage ≤ j ∧ j < v.front_storage + v.length
      then (v.heap[j]?).map (Option.map Sized.moved) else v.heap[j]? := by
    intro j
    rw [r4 j]
    simp only [Nat.add_zero]
  have e7 := hy heap1 r2s r4'
  have e5 : construct T a heap2 (a + (v.front_storage + v.length) * Sized.sizeof T) y
      = some (heap2.set (v.front_storage + v.length) (some y)) :=
    construct_at _ _ _ _ (by rw [r2, List.length_replicate]; omega)
  have hlive1 : ∀ i, i < v.length → (heap1.getD (v.front_storage + i) none).isSome = true := by
    intro i hi
    have hl := hv.h_live i hi
    rw [List.getD_eq_getElem?_getD] at hl ⊢
    rw [r4' (v.front_storage + i), if_pos ⟨by omega, by omega⟩]
    cases hg : v.heap[v.front_storage + i]? with
    | none =>
      rw [hg] at hl
      simp at hl
    | some o =>
      rw [hg] at hl
      cases o with
      | none => simp at hl
      | some z => rfl
  have a9 : (v.front_storage + v.length) * Sized.sizeof T = v.storage * Sized.sizeof T := by
    rw [hfull]
  obtain ⟨w1, e6⟩ := destroy_of_layout
    { v with
      storage := v.storage * 2
      reallocate_times := (v.reallocate_times + 1) % 2 ^ 64
      heap := heap1 }
    v.front_storage v.length h5
    (show v.dend = v.sbegin + (v.front_storage + v.length) * Sized.sizeof T by omega)
    (show v.sbegin + (v.front_storage + v.length) * Sized.sizeof T < 2 ^ 64 by omega)
    (show v.front_storage + v.length ≤ heap1.length by omega) hlive1
  rw [← h5] at r1
  refine ⟨heap2.set (v.front_storage + v.length) (some y), ?_, ?_, ?_⟩
  · unfold push_back
    rw [if_pos h]
    simp only [es, eb, en, er, e1, e2, e3, r1, e7, e5, e6, e4, el]
  · rw [List.length_set, r2, List.length_replicate]
  · intro j
    rw [List.getElem?_set, r3 j, r2, List.length_replicate, List.getElem?_replicate]
    by_cases hj : v.front_storage + v.length = j
    · have c1 : v.front_storage + v.length < v.storage * 2 := by omega
      rw [← hj]
      simp only [c1, if_true]
    · have c0 : ¬ (j = v.front_storage + v.length) := fun e => hj e.symm
      by_cases hj2 : v.front_storage ≤ j ∧ j < v.front_storage + v.length
      · have c : v.front_storage + 0 ≤ j ∧ j < v.front_storage + 0 + v.length := by omega
        have c2 : v.front_storage + (j - v.front_storage) = j := by omega
        simp only [hj, c0, hj2, c, c2, if_true, if_false, and_self]
      · have c : ¬ (v.front_storage + 0 ≤ j ∧ j < v.front_storage + 0 + v.length) := by omega
        simp only [hj, c0, hj2, c, if_false]

theorem Inv.push_back_grow (hv : Inv v) (h : v.send = v.dend) (a : Nat) (x : T)
    (ha : 0 < a) (hb : v.storage * 2 * Sized.sizeof T ≤ PTRDIFF_MAX)
    (ht : a + v.storage * 2 * Sized.sizeof T < 2 ^ 64) :
    ∃ heap3 : List (Option T),
      push_back a x v = Outcome.done
        { dbegin := a + v.front_storage * Sized.sizeof T
          dend := a + v.front_storage * Sized.sizeof T + (v.length + 1) * Sized.sizeof T
          sbegin := a
          send := a + v.storage * 2 * Sized.sizeof T
          length := v.length + 1
          storage := v.storage * 2
          front_storage := v.front_storage
          reallocate_times := (v.reallocate_times + 1) % 2 ^ 64
          vector_version := (v.vector_version + 1) % 2 ^ 64
          heap := heap3 } ∧
      heap3.length = v.storage * 2 ∧
      ∀ j, heap3[j]? =
        if j = v.front_storage + v.length then some (some x)
        else if v.front_storage ≤ j ∧ j < v.front_storage + v.length then v.heap[j]?
        else if j < v.storage * 2 then some none else none :=
  hv.push_back_grow_ref h a (Ref.object x) x ha hb ht (fun _ _ _ => rfl)

/-- The growth path of `push_back(const T&)` on `v.push_back(v[k])`, the
argument being the element of the vector at index `k` itself: the element that
is appended is what the move has left of it. -/
theorem Inv.push_back_grow_alias (hv : Inv v) (h : v.send = v.dend) (a : Nat) (k : Nat)
    (x : T) (hk : k < v.length) (hx : v.heap.getD (v.front_storage + k) none = some x)
    (ha : 0 < a) (hb : v.storage * 2 * Sized.sizeof T ≤ PTRDIFF_MAX)
    (ht : a + v.storage * 2 * Sized.sizeof T < 2 ^ 64) :
    ∃ heap3 : List (Option T),
      push_back a (Ref.element (v.dbegin + k * Sized.sizeof T)) v = Outcome.done
        { dbegin := a + v.front_storage * Sized.sizeof T
          dend := a + v.front_storage * Sized.sizeof T + (v.length + 1) * Sized.sizeof T
          sbegin := a
          send := a + v.storage * 2 * Sized.sizeof T
          length := v.length + 1
          storage := v.storage * 2
          front_storage := v.front_storage
          reallocate_times := (v.reallocate_times + 1) % 2 ^ 64
          vector_version := (v.vector_version + 1) % 2 ^ 64
          heap := heap3 } ∧
      heap3.length = v.storage * 2 ∧
      ∀ j, heap3[j]? =
        if j = v.front_storage + v.length then some (some (Sized.moved x))
        else if v.front_storage ≤ j ∧ j < v.front_storage + v.length then v.heap[j]?
        else if j < v.storage * 2 then some none else none := by
  apply hv.push_back_grow_ref h a _ (Sized.moved x) ha hb ht
  intro sh hlen hsh
  have h5 := hv.h_dbegin
  have h7 := hv.h_le
  have h8 := hv.h_heap
  have a5 := Nat.add_mul v.front_storage k (Sized.sizeof T)
  have ep : v.dbegin + k * Sized.sizeof T
      = v.sbegin + (v.front_storage + k) * Sized.sizeof T := by omega
  show fetch T v.sbegin sh (v.dbegin + k * Sized.sizeof T) = some (Sized.moved x)
  rw [ep, fetch_at _ _ _ (by omega), List.getD_eq_getElem?_getD,
    hsh (v.front_storage + k), if_pos ⟨by omega, by omega⟩]
  rw [List.getD_eq_getElem?_getD, List.getElem?_eq_getElem (by omega)] at hx
  simp only [Option.getD_some] at hx
  rw [List.getElem?_eq_getElem (by omega), hx]
  rfl

theorem Inv.push_back_bad_alloc (hv : Inv v) (h : v.send = v.dend) (a : Nat) (x : T)
    (hno : ¬ (0 < a ∧ v.storage * 2 * Sized.sizeof T ≤ PTRDIFF_MAX ∧
      a + v.storage * 2 * Sized.sizeof T < 2 ^ 64)) :
    push_back a x v = Outcome.raised Exception.bad_alloc
      { v with storage := v.storage * 2, reallocate_times := (v.reallocate_times + 1) % 2 ^ 64 } := by
  have h10 := hv.storage_lt
  have h2 := hv.h_bytes
  unfold PTRDIFF_MAX at h2
  have es : v.storage * 2 % 2 ^ 64 = v.storage * 2 := Nat.mod_eq_of_lt (by omega)
  have hcomm : Sized.sizeof T * (v.storage * 2) = v.storage * 2 * Sized.sizeof T :=
    Nat.mul_comm _ _
  have a1 : v.storage * 2 * Sized.sizeof T = 2 * (v.storage * Sized.sizeof T) := by
    rw [Nat.mul_comm v.storage 2, Nat.mul_assoc]
  have eb : Sized.sizeof T * (v.storage * 2) % 2 ^ 64 = v.storage * 2 * Sized.sizeof T := by
    rw [hcomm]; exact Nat.mod_eq_of_lt (by omega)
  have en : operator_new a (v.storage * 2 * Sized.sizeof T) = none := by
    unfold operator_new
    rw [if_neg hno]
  unfold push_back
  rw [if_pos h]
  simp only [es, eb, en]

theorem Inv.live_slot (hv : Inv v) (i : Nat) (hi : i < v.length) :
    ∃ y, v.heap[v.front_storage + i]? = some (some y) := by
  have h := hv.h_live i hi
  have h7 := hv.h_le
  have h8 := hv.h_heap
  rw [List.getD_eq_getElem?_getD, List.getElem?_eq_getElem (by omega)] at h
  simp only [Option.getD_some] at h
  obtain ⟨y, hy⟩ := Option.isSome_iff_exists.mp h
  exact ⟨y, by rw [List.getElem?_eq_getElem (by omega), hy]⟩

theorem isSome_of_getElem? (heap : List (Option T)) (j : Nat) (y : T)
    (h : heap[j]? = some (some y)) : (heap.getD j none).isSome = true := by
  rw [List.getD_eq_getElem?_getD, h]
  rfl

/-- What the state after a growing `push_back` is: the invariant holds and the
live range is the old one followed by the new element. -/
theorem Inv.push_back_grow_state (hv : Inv v) (h : v.send = v.dend) (a : Nat) (x : T)
    (hb : v.storage * 2 * Sized.sizeof T ≤ PTRDIFF_MAX)
    (ht : a + v.storage * 2 * Sized.sizeof T < 2 ^ 64)
    (heap3 : List (Option T)) (hlen : heap3.length = v.storage * 2)
    (hpt : ∀ j, heap3[j]? =
        if j = v.front_storage + v.length then some (some x)
        else if v.front_storage ≤ j ∧ j < v.front_storage + v.length then v.heap[j]?
        else if j < v.storage * 2 then some none else none) :
    Inv
      { dbegin := a + v.front_storage * Sized.sizeof T
        dend := a + v.front_storage * Sized.sizeof T + (v.length + 1) * Sized.sizeof T
        sbegin := a
        send := a + v.storage * 2 * Sized.sizeof T
        length := v.length + 1
        storage := v.storage * 2
        front_storage := v.front_storage
        reallocate_times := (v.reallocate_times + 1) % 2 ^ 64
        vector_version := (v.vector_version + 1) % 2 ^ 64
        heap := heap3 } ∧
    live
      { dbegin := a + v.front_storage * Sized.sizeof T
        dend := a + v.front_storage * Sized.sizeof T + (v.length + 1) * Sized.sizeof T
        sbegin := a
        send := a + v.storage * 2 * Sized.sizeof T
        length := v.length + 1
        storage := v.storage * 2
        front_storage := v.front_storage
        reallocate_times := (v.reallocate_times + 1) % 2 ^ 64
        vector_version := (v.vector_version + 1) % 2 ^ 64
        heap := heap3 } = v.live ++ [some x] := by
  have hfull : v.front_storage + v.length = v.storage := hv.send_eq_dend_iff.mp h
  have hcap := hv.h_cap
  constructor
  · apply Inv.of_block a (v.storage * 2) v.front_storage (v.length + 1) _ _ heap3 hb ht
      (by omega) hlen (by omega) _ (Nat.mod_lt _ (by norm_num)) (Nat.mod_lt _ (by norm_num))
    intro i hi
    by_cases hil : i = v.length
    · apply isSome_of_getElem? heap3 _ x
      rw [hpt, if_pos (by omega)]
    · obtain ⟨y, hy⟩ := hv.live_slot i (by omega)
      apply isSome_of_getElem? heap3 _ y
      rw [hpt, if_neg (by omega), if_pos (by omega), hy]
  · apply List.ext_getElem?
    intro k
    rw [live_at, List.getElem?_append, hv.live_length, live_at]
    simp only [hpt]
    by_cases hk : k < v.length
    · have e1 : k < v.length + 1 := by omega
      have e2 : ¬ (v.front_storage + k = v.front_storage + v.length) := by omega
      have e3 : v.front_storage ≤ v.front_storage + k ∧
          v.front_storage + k < v.front_storage + v.length := by omega
      simp only [hk, e1, e2, e3, if_true, if_false, and_self]
    · by_cases hk2 : k = v.length
      · have e1 : k < v.length + 1 := by omega
        have e2 : v.front_storage + k = v.front_storage + v.length := by omega
        have e4 : k - v.length = 0 := by omega
        simp only [hk, e1, e2, e4, if_true, if_false, List.getElem?_cons_zero]
      · have e1 : ¬ (k < v.length + 1) := by omega
        have e4 : [some x][k - v.length]? = none :=
          List.getElem?_eq_none (by simp only [List.length_singleton]; omega)
        simp only [hk, e1, e4, if_false]

theorem Inv.push_back_rv_spare (hv : Inv v) (h : v.send ≠ v.dend) (a : Nat) (x : T) :
    push_back_rv a x v = Outcome.done
      { v with
        heap := v.heap.set (v.front_storage + v.length) (some x)
        dend := v.dend + Sized.sizeof T
        length := v.length + 1
        vector_version := (v.vector_version + 1) % 2 ^ 64 } := by
  have e := hv.push_back_spare h a x
  unfold push_back at e
  unfold push_back_rv
  rw [if_neg h] at e ⊢
  exact e

theorem Inv.push_back_rv_bad_alloc (hv : Inv v) (h : v.send = v.dend) (a : Nat) (x : T)
    (hno : ¬ (0 < a ∧ v.storage * 2 * Sized.sizeof T ≤ PTRDIFF_MAX ∧
      a + v.storage * 2 * Sized.sizeof T < 2 ^ 64)) :
    push_back_rv a x v = Outcome.raised Exception.bad_alloc
      { v with storage := v.storage * 2, reallocate_times := (v.reallocate_times + 1) % 2 ^ 64 } := by
  have e := hv.push_back_bad_alloc h a x hno
  unfold push_back at e
  unfold push_back_rv
  rw [if_pos h] at e ⊢
  have h10 := hv.storage_lt
  have h2 := hv.h_bytes
  unfold PTRDIFF_MAX at h2
  have es : v.storage * 2 % 2 ^ 64 = v.storage * 2 := Nat.mod_eq_of_lt (by omega)
  have hcomm : Sized.sizeof T * (v.storage * 2) = v.storage * 2 * Sized.sizeof T :=
    Nat.mul_comm _ _
  have a1 : v.storage * 2 * Sized.sizeof T = 2 * (v.storage * Sized.sizeof T) := by
    rw [Nat.mul_comm v.storage 2, Nat.mul_assoc]
  have eb : Sized.sizeof T * (v.storage * 2) % 2 ^ 64 = v.storage * 2 * Sized.sizeof T := by
    rw [hcomm]; exact Nat.mod_eq_of_lt (by omega)
  have en : operator_new a (v.storage * 2 * Sized.sizeof T) = none := by
    unfold operator_new
    rw [if_neg hno]
  simp only [es, eb, en]

theorem Inv.push_back_rv_grow (hv : Inv v) (h : v.send = v.dend) (a : Nat) (x : T)
    (ha : 0 < a) (hb : v.storage * 2 * Sized.sizeof T ≤ PTRDIFF_MAX)
    (ht : a + v.storage * 2 * Sized.sizeof T < 2 ^ 64) :
    ∃ heap3 : List (Option T),
      push_back_rv a x v = Outcome.done
        { dbegin := a + v.front_storage * Sized.sizeof T
          dend := a + v.front_storage * Sized.sizeof T + (v.length + 1) * Sized.sizeof T
          sbegin := a
          send := a + v.storage * 2 * Sized.sizeof T
          length := v.length + 1
          storage := v.storage * 2
          front_storage := v.front_storage
          reallocate_times := (v.reallocate_times + 1) % 2 ^ 64
          vector_version := (v.vector_version + 1) % 2 ^ 64
          heap := heap3 } ∧
      heap3.length = v.storage * 2 ∧
      ∀ j, heap3[j]? =
        if j = v.front_storage + v.length then some (some x)
        else if v.front_storage ≤ j ∧ j < v.front_storage + v.length then v.heap[j]?
        else if j < v.storage * 2 then some none else none := by
  have hs := Sized.sizeof_pos (T := T)
  have h1 := hv.bytes
  have h3 := hv.h_top
  have h4 := hv.h_send
  have h5 := hv.h_dbegin
  have h6 := hv.h_dend
  have h7 := hv.h_le
  have h8 := hv.h_heap
  have h9 := hv.length_lt
  have h10 := hv.storage_lt
  have hcap := hv.h_cap
  have hfull : v.front_storage + v.length = v.storage := hv.send_eq_dend_iff.mp h
  have a5 := Nat.add_mul v.front_storage v.length (Sized.sizeof T)
  have a6 := Nat.add_mul (v.front_storage + v.length) 1 (Sized.sizeof T)
  have a7 : (v.front_storage + v.length + 1) * Sized.sizeof T ≤ v.storage * 2 * Sized.sizeof T :=
    Nat.mul_le_mul_right _ (by omega)
  have a8 := Nat.add_mul v.length 1 (Sized.sizeof T)
  have es : v.storage * 2 % 2 ^ 64 = v.storage * 2 := Nat.mod_eq_of_lt (by omega)
  have hcomm : Sized.sizeof T * (v.storage * 2) = v.storage * 2 * Sized.sizeof T :=
    Nat.mul_comm _ _
  have eb : Sized.sizeof T * (v.storage * 2) % 2 ^ 64 = v.storage * 2 * Sized.sizeof T := by
    rw [hcomm]; exact Nat.mod_eq_of_lt (by omega)
  have en : operator_new a (v.storage * 2 * Sized.sizeof T) = some a := by
    unfold operator_new
    rw [if_pos ⟨ha, hb, ht⟩]
  have er : raw_block T (v.storage * 2 * Sized.sizeof T)
      = List.replicate (v.storage * 2) none := by
    unfold raw_block
    rw [Nat.mul_div_cancel _ hs]
  have e1 : ptr_add T a (v.storage * 2) = a + v.storage * 2 * Sized.sizeof T :=
    ptr_add_eq _ _ ht
  have e2 : ptr_add T a v.front_storage = a + v.front_storage * Sized.sizeof T :=
    ptr_add_eq _ _ (by omega)
  have e3 : ptr_add T (a + v.front_storage * Sized.sizeof T) v.length
      = a + (v.front_storage + v.length) * Sized.sizeof T := by
    rw [ptr_add_eq _ _ (by omega)]; omega
  have e4 : ptr_add T (a + (v.front_storage + v.length) * Sized.sizeof T) 1
      = a + v.front_storage * Sized.sizeof T + (v.length + 1) * Sized.sizeof T := by
    rw [ptr_add_eq _ _ (by omega)]; omega
  have el : (v.length + 1) % 2 ^ 64 = v.length + 1 := Nat.mod_eq_of_lt (by omega)
  have e5 : construct T a (List.replicate (v.storage * 2) none)
      (a + (v.front_storage + v.length) * Sized.sizeof T) x
      = some ((List.replicate (v.storage * 2) none).set (v.front_storage + v.length) (some x)) :=
    construct_at _ _ _ _ (by rw [List.length_replicate]; omega)
  obtain ⟨heap3, r1, r2, r3⟩ := relocate_spec (T := T) v.sbegin v.heap v.front_storage a
    v.front_storage v.length (fun i hi => hv.h_live i hi) (by omega) (by omega) (by omega)
    v.length 0 ((List.replicate (v.storage * 2) none).set (v.front_storage + v.length) (some x))
    (by omega) (by rw [List.length_set, List.length_replicate]; omega)
  obtain ⟨w1, e6⟩ := hv.destroy_isSome
    { v with storage := v.storage * 2, reallocate_times := (v.reallocate_times + 1) % 2 ^ 64 }
    rfl rfl rfl rfl
  rw [← h5] at r1
  refine ⟨heap3, ?_, ?_, ?_⟩
  · unfold push_back_rv
    rw [if_pos h]
    simp only [es, eb, en, er, e1, e2, e3, r1, e5, e6, e4, el]
  · rw [r2, List.length_set, List.length_replicate]
  · intro j
    rw [r3 j, List.getElem?_set, List.length_replicate, List.getElem?_replicate]
    by_cases hj : v.front_storage + v.length = j
    · have c1 : v.front_storage + v.length < v.storage * 2 := by omega
      have c : ¬ (v.front_storage + 0 ≤ v.front_storage + v.length ∧
          v.front_storage + v.length < v.front_storage + 0 + v.length) := by omega
      rw [← hj]
      simp only [c, c1, if_true, if_false]
    · have c0 : ¬ (j = v.front_storage + v.length) := fun e => hj e.symm
      by_cases hj2 : v.front_storage ≤ j ∧ j < v.front_storage + v.length
      · have c : v.front_storage + 0 ≤ j ∧ j < v.front_storage + 0 + v.length := by omega
        have c2 : v.front_storage + (j - v.front_storage) = j := by omega
        simp only [c0, hj2, c, c2, if_true, if_false, and_self]
      · have c : ¬ (v.front_storage + 0 ≤ j ∧ j < v.front_storage + 0 + v.length) := by omega
        simp only [hj, c0, hj2, c, if_false]

theorem Inv.push_front_bad_alloc (hv : Inv v) (h : v.sbegin = v.dbegin) (a : Nat) (x : T)
    (hno : ¬ (0 < a ∧ v.storage * 2 * Sized.sizeof T ≤ PTRDIFF_MAX ∧
      a + v.storage * 2 * Sized.sizeof T < 2 ^ 64)) :
    push_front a x v = Outcome.raised Exception.bad_alloc
      { v with storage := v.storage * 2, reallocate_times := (v.reallocate_times + 1) % 2 ^ 64 } := by
  have h10 := hv.storage_lt
  have h2 := hv.h_bytes
  unfold PTRDIFF_MAX at h2
  have es : v.storage * 2 % 2 ^ 64 = v.storage * 2 := Nat.mod_eq_of_lt (by omega)
  have hcomm : Sized.sizeof T * (v.storage * 2) = v.storage * 2 * Sized.sizeof T :=
    Nat.mul_comm _ _
  have a1 : v.storage * 2 * Sized.sizeof T = 2 * (v.storage * Sized.sizeof T) := by
    rw [Nat.mul_comm v.storage 2, Nat.mul_assoc]
  have eb : Sized.sizeof T * (v.storage * 2) % 2 ^ 64 = v.storage * 2 * Sized.sizeof T := by
    rw [hcomm]; exact Nat.mod_eq_of_lt (by omega)
  have en : operator_new a (v.storage * 2 * Sized.sizeof T) = none := by
    unfold operator_new
    rw [if_neg hno]
  unfold push_front
  rw [if_pos h]
  simp only [es, eb, en]

theorem Inv.push_front_grow (hv : Inv v) (h : v.sbegin = v.dbegin) (a : Nat) (x : T)
    (ha : 0 < a) (hb : v.storage * 2 * Sized.sizeof T ≤ PTRDIFF_MAX)
    (ht : a + v.storage * 2 * Sized.sizeof T < 2 ^ 64) :
    ∃ heap3 : List (Option T),
      push_front a x v = Outcome.done
        { dbegin := a + (v.front_storage + v.storage - 1) * Sized.sizeof T
          dend := a + (v.front_storage + v.storage - 1) * Sized.sizeof T
            + (v.length + 1) * Sized.sizeof T
          sbegin := a
          send := a + v.storage * 2 * Sized.sizeof T
          length := v.length + 1
          storage := v.storage * 2
          front_storage := v.front_storage + v.storage - 1
          reallocate_times := (v.reallocate_times + 1) % 2 ^ 64
          vector_version := (v.vector_version + 1) % 2 ^ 64
          heap := heap3 } ∧
      heap3.length = v.storage * 2 ∧
      ∀ j, heap3[j]? =
        if j = v.front_storage + v.storage - 1 then some (some x)
        else if v.front_storage + v.storage ≤ j ∧ j < v.front_storage + v.storage + v.length
          then v.heap[v.front_storage + (j - (v.front_storage + v.storage))]?
        else if j < v.storage * 2 then some none else none := by
  have hs := Sized.sizeof_pos (T := T)
  have h1 := hv.bytes
  have h3 := hv.h_top
  have h4 := hv.h_send
  have h5 := hv.h_dbegin
  have h6 := hv.h_dend
  have h7 := hv.h_le
  have h8 := hv.h_heap
  have h9 := hv.length_lt
  have h10 := hv.storage_lt
  have hcap := hv.h_cap
  have a5 := Nat.add_mul v.front_storage v.storage (Sized.sizeof T)
  have a6 := Nat.add_mul (v.front_storage + v.storage) v.length (Sized.sizeof T)
  have a7 : (v.front_storage + v.storage + v.length) * Sized.sizeof T
      ≤ v.storage * 2 * Sized.sizeof T :=
    Nat.mul_le_mul_right _ (by omega)
  have a8 := Nat.add_mul v.length 1 (Sized.sizeof T)
  have a9 := Nat.add_mul (v.front_storage + v.storage - 1) 1 (Sized.sizeof T)
  have a12 := Nat.add_mul v.front_storage v.length (Sized.sizeof T)
  have a10 : v.front_storage + v.storage - 1 + 1 = v.front_storage + v.storage := by omega
  rw [a10, Nat.one_mul] at a9
  rw [Nat.one_mul] at a8
  have es : v.storage * 2 % 2 ^ 64 = v.storage * 2 := Nat.mod_eq_of_lt (by omega)
  have hcomm : Sized.sizeof T * (v.storage * 2) = v.storage * 2 * Sized.sizeof T :=
    Nat.mul_comm _ _
  have eb : Sized.sizeof T * (v.storage * 2) % 2 ^ 64 = v.storage * 2 * Sized.sizeof T := by
    rw [hcomm]; exact Nat.mod_eq_of_lt (by omega)
  have en : operator_new a (v.storage * 2 * Sized.sizeof T) = some a := by
    unfold operator_new
    rw [if_pos ⟨ha, hb, ht⟩]
  have er : raw_block T (v.storage * 2 * Sized.sizeof T)
      = List.replicate (v.storage * 2) none := by
    unfold raw_block
    rw [Nat.mul_div_cancel _ hs]
  have e1 : ptr_add T a (v.storage * 2) = a + v.storage * 2 * Sized.sizeof T :=
    ptr_add_eq _ _ ht
  have e2 : ptr_add T (ptr_add T a v.front_storage) v.storage
      = a + (v.front_storage + v.storage) * Sized.sizeof T := by
    rw [ptr_add_eq a v.front_storage (by omega),
      ptr_add_eq (a + v.front_storage * Sized.sizeof T) v.storage (by omega)]
    omega
  have e3 : ptr_add T (a + (v.front_storage + v.storage) * Sized.sizeof T) v.length
      = a + (v.front_storage + v.storage - 1) * Sized.sizeof T
        + (v.length + 1) * Sized.sizeof T := by
    rw [ptr_add_eq _ _ (by omega)]; omega
  have e4 : ptr_sub T (a + (v.front_storage + v.storage) * Sized.sizeof T) 1
      = a + (v.front_storage + v.storage - 1) * Sized.sizeof T := by
    rw [ptr_sub_eq _ _ (by omega) (by omega)]; omega
  have el : (v.length + 1) % 2 ^ 64 = v.length + 1 := Nat.mod_eq_of_lt (by omega)
  have ef : (v.front_storage + v.storage + (2 ^ 64 - 1)) % 2 ^ 64
      = v.front_storage + v.storage - 1 := by omega
  have e5 : construct T a (List.replicate (v.storage * 2) none)
      (a + (v.front_storage + v.storage - 1) * Sized.sizeof T) x
      = some ((List.replicate (v.storage * 2) none).set
          (v.front_storage + v.storage - 1) (some x)) :=
    construct_at _ _ _ _ (by rw [List.length_replicate]; omega)
  obtain ⟨heap3, r1, r2, r3⟩ := relocate_spec (T := T) v.sbegin v.heap v.front_storage a
    (v.front_storage + v.storage) v.length (fun i hi => hv.h_live i hi) (by omega) (by omega)
    (by omega) v.length 0
    ((List.replicate (v.storage * 2) none).set (v.front_storage + v.storage - 1) (some x))
    (by omega) (by rw [List.length_set, List.length_replicate]; omega)
  obtain ⟨w1, e6⟩ := hv.destroy_isSome
    { v with storage := v.storage * 2, reallocate_times := (v.reallocate_times + 1) % 2 ^ 64 }
    rfl rfl rfl rfl
  rw [← h5] at r1
  refine ⟨heap3, ?_, ?_, ?_⟩
  · unfold push_front
    rw [if_pos h]
    simp only [es, eb, en, er, e1, e2, e3, e4, r1, e5, e6, el, ef]
  · rw [r2, List.length_set, List.length_replicate]
  · intro j
    rw [r3 j, List.getElem?_set, List.length_replicate, List.getElem?_replicate]
    by_cases hj : v.front_storage + v.storage - 1 = j
    · have c1 : v.front_storage + v.storage - 1 < v.storage * 2 := by omega
      have c : ¬ (v.front_storage + v.storage + 0 ≤ v.front_storage + v.storage - 1 ∧
          v.front_storage + v.storage - 1 < v.front_storage + v.storage + 0 + v.length) := by
        omega
      rw [← hj]
      simp only [c, c1, if_true, if_false]
    · have c0 : ¬ (j = v.front_storage + v.storage - 1) := fun e => hj e.symm
      by_cases hj2 : v.front_storage + v.storage ≤ j ∧ j < v.front_storage + v.storage + v.length
      · have c : v.front_storage + v.storage + 0 ≤ j ∧
            j < v.front_storage + v.storage + 0 + v.length := by omega
        simp only [c0, hj2, c, if_true, if_false, and_self]
      · have c : ¬ (v.front_storage + v.storage + 0 ≤ j ∧
            j < v.front_storage + v.storage + 0 + v.length) := by omega
        simp only [hj, c0, hj2, c, if_false]

/-- What the state after a growing `push_front` is: the invariant holds and the
live range is the new element followed by the old range. -/
theorem Inv.push_front_grow_state (hv : Inv v) (a : Nat) (x : T)
    (hb : v.storage * 2 * Sized.sizeof T ≤ PTRDIFF_MAX)
    (ht : a + v.storage * 2 * Sized.sizeof T < 2 ^ 64)
    (heap3 : List (Option T)) (hlen : heap3.length = v.storage * 2)
    (hpt : ∀ j, heap3[j]? =
        if j = v.front_storage + v.storage - 1 then some (some x)
        else if v.front_storage + v.storage ≤ j ∧ j < v.front_storage + v.storage + v.length
          then v.heap[v.front_storage + (j - (v.front_storage + v.storage))]?
        else if j < v.storage * 2 then some none else none) :
    Inv
      { dbegin := a + (v.front_storage + v.storage - 1) * Sized.sizeof T
        dend := a + (v.front_storage + v.storage - 1) * Sized.sizeof T
          + (v.length + 1) * Sized.sizeof T
        sbegin := a
        send := a + v.storage * 2 * Sized.sizeof T
        length := v.length + 1
        storage := v.storage * 2
        front_storage := v.front_storage + v.storage - 1
        reallocate_times := (v.reallocate_times + 1) % 2 ^ 64
        vector_version := (v.vector_version + 1) % 2 ^ 64
        heap := heap3 } ∧
    live
      { dbegin := a + (v.front_storage + v.storage - 1) * Sized.sizeof T
        dend := a + (v.front_storage + v.storage - 1) * Sized.sizeof T
          + (v.length + 1) * Sized.sizeof T
        sbegin := a
        send := a + v.storage * 2 * Sized.sizeof T
        length := v.length + 1
        storage := v.storage * 2
        front_storage := v.front_storage + v.storage - 1
        reallocate_times := (v.reallocate_times + 1) % 2 ^ 64
        vector_version := (v.vector_version + 1) % 2 ^ 64
        heap := heap3 } = some x :: v.live := by
  have hcap := hv.h_cap
  have h7 := hv.h_le
  constructor
  · apply Inv.of_block a (v.storage * 2) (v.front_storage + v.storage - 1) (v.length + 1) _ _
      heap3 hb ht (by omega) hlen (by omega) _ (Nat.mod_lt _ (by norm_num))
      (Nat.mod_lt _ (by norm_num))
    intro i hi
    by_cases hil : i = 0
    · apply isSome_of_getElem? heap3 _ x
      rw [hpt, if_pos (by omega)]
    · obtain ⟨y, hy⟩ := hv.live_slot (i - 1) (by omega)
      apply isSome_of_getElem? heap3 _ y
      have c : v.front_storage + (v.front_storage + v.storage - 1 + i
          - (v.front_storage + v.storage)) = v.front_storage + (i - 1) := by omega
      rw [hpt, if_neg (by omega), if_pos (by omega), c, hy]
  · apply List.ext_getElem?
    intro k
    rw [live_at]
    simp only [hpt]
    cases k with
    | zero =>
      simp only [Nat.zero_lt_succ, Nat.add_zero, if_true, List.getElem?_cons_zero]
    | succ k =>
      rw [List.getElem?_cons_succ, live_at]
      have e2 : ¬ (v.front_storage + v.storage - 1 + (k + 1)
          = v.front_storage + v.storage - 1) := by omega
      by_cases hk : k < v.length
      · have e1 : k + 1 < v.length + 1 := by omega
        have e3 : v.front_storage + v.storage ≤ v.front_storage + v.storage - 1 + (k + 1) ∧
            v.front_storage + v.storage - 1 + (k + 1)
              < v.front_storage + v.storage + v.length := by omega
        have e4 : v.front_storage + (v.front_storage + v.storage - 1 + (k + 1)
            - (v.front_storage + v.storage)) = v.front_storage + k := by omega
        simp only [hk, e1, e2, e3, e4, if_true, if_false, and_self]
      · have e1 : ¬ (k + 1 < v.length + 1) := by omega
        simp only [hk, e1, if_false]

/-! ## One call on a vector that holds the elements `xs` -/

theorem Holds.length_eq {xs : List T} (hx : Holds v xs) : v.length = xs.length := by
  have h := hx.1.live_length
  rw [hx.2, List.length_map] at h
  exact h.symm

theorem Holds.push_back {xs : List T} (hx : Holds v xs) (a : Nat) (x : T) :
    (∃ s, push_back a x v = Outcome.raised Exception.bad_alloc s) ∨
    (∃ v1, push_back a x v = Outcome.done v1 ∧ Holds v1 (xs ++ [x])) := by
  obtain ⟨hv, hl⟩ := hx
  by_cases h : v.send = v.dend
  · by_cases hg : 0 < a ∧ v.storage * 2 * Sized.sizeof T ≤ PTRDIFF_MAX ∧
        a + v.storage * 2 * Sized.sizeof T < 2 ^ 64
    · obtain ⟨heap3, e, hlen, hpt⟩ := hv.push_back_grow h a x hg.1 hg.2.1 hg.2.2
      obtain ⟨i1, i2⟩ := hv.push_back_grow_state h a x hg.2.1 hg.2.2 heap3 hlen hpt
      exact Or.inr ⟨_, e, i1, by rw [i2, hl]; simp⟩
    · exact Or.inl ⟨_, hv.push_back_bad_alloc h a x hg⟩
  · exact Or.inr ⟨_, hv.push_back_spare h a x, hv.push_back_spare_inv h x,
      by rw [hv.push_back_spare_live h x, hl]; simp⟩

theorem Holds.push_back_rv {xs : List T} (hx : Holds v xs) (a : Nat) (x : T) :
    (∃ s, push_back_rv a x v = Outcome.raised Exception.bad_alloc s) ∨
    (∃ v1, push_back_rv a x v = Outcome.done v1 ∧ Holds v1 (xs ++ [x])) := by
  obtain ⟨hv, hl⟩ := hx
  by_cases h : v.send = v.dend
  · by_cases hg : 0 < a ∧ v.storage * 2 * Sized.sizeof T ≤ PTRDIFF_MAX ∧
        a + v.storage * 2 * Sized.sizeof T < 2 ^ 64
    · obtain ⟨heap3, e, hlen, hpt⟩ := hv.push_back_rv_grow h a x hg.1 hg.2.1 hg.2.2
      obtain ⟨i1, i2⟩ := hv.push_back_grow_state h a x hg.2.1 hg.2.2 heap3 hlen hpt
      exact Or.inr ⟨_, e, i1, by rw [i2, hl]; simp⟩
    · exact Or.inl ⟨_, hv.push_back_rv_bad_alloc h a x hg⟩
  · exact Or.inr ⟨_, hv.push_back_rv_spare h a x, hv.push_back_spare_inv h x,
      by rw [hv.push_back_spare_live h x, hl]; simp⟩

theorem Holds.push_front {xs : List T} (hx : Holds v xs) (a : Nat) (x : T) :
    (∃ s, push_front a x v = Outcome.raised Exception.bad_alloc s) ∨
    (∃ v1, push_front a x v = Outcome.done v1 ∧ Holds v1 (x :: xs)) := by
  obtain ⟨hv, hl⟩ := hx
  by_cases h : v.sbegin = v.dbegin
  · by_cases hg : 0 < a ∧ v.storage * 2 * Sized.sizeof T ≤ PTRDIFF_MAX ∧
        a + v.storage * 2 * Sized.sizeof T < 2 ^ 64
    · obtain ⟨heap3, e, hlen, hpt⟩ := hv.push_front_grow h a x hg.1 hg.2.1 hg.2.2
      obtain ⟨i1, i2⟩ := hv.push_front_grow_state a x hg.2.1 hg.2.2 heap3 hlen hpt
      exact Or.inr ⟨_, e, i1, by rw [i2, hl]; simp⟩
    · exact Or.inl ⟨_, hv.push_front_bad_alloc h a x hg⟩
  · exact Or.inr ⟨_, hv.push_front_spare h a x, hv.push_front_spare_inv h x,
      by rw [hv.push_front_spare_live h x, hl]; simp⟩

theorem Holds.pop_back {xs : List T} (hx : Holds v xs) :
    (xs = [] ∧ pop_back v = Outcome.raised (Exception.out_of_range "no data to be poped") v) ∨
    (xs ≠ [] ∧ ∃ v1, pop_back v = Outcome.done v1 ∧ Holds v1 xs.dropLast) := by
  have hlen := hx.length_eq
  obtain ⟨hv, hl⟩ := hx
  by_cases h : v.dbegin = v.dend
  · have h0 : v.length = 0 := hv.dbegin_eq_dend_iff.mp h
    refine Or.inl ⟨List.length_eq_zero.mp (by omega), ?_⟩
    unfold vector.pop_back
    rw [if_pos h]
  · have h0 : v.length ≠ 0 := fun e => h (hv.dbegin_eq_dend_iff.mpr e)
    refine Or.inr ⟨fun e => h0 (by rw [hlen, e]; rfl), _, hv.pop_back_some h, hv.pop_back_inv h, ?_⟩
    rw [hv.pop_back_live, hl]
    simp

theorem Holds.pop_front {xs : List T} (hx : Holds v xs) :
    (xs = [] ∧ pop_front v = Outcome.raised (Exception.out_of_range "no data to be poped") v) ∨
    (xs ≠ [] ∧ ∃ v1, pop_front v = Outcome.done v1 ∧ Holds v1 xs.tail) := by
  have hlen := hx.length_eq
  obtain ⟨hv, hl⟩ := hx
  by_cases h : v.dbegin = v.dend
  · have h0 : v.length = 0 := hv.dbegin_eq_dend_iff.mp h
    refine Or.inl ⟨List.length_eq_zero.mp (by omega), ?_⟩
    unfold vector.pop_front
    rw [if_pos h]
  · have h0 : v.length ≠ 0 := fun e => h (hv.dbegin_eq_dend_iff.mpr e)
    refine Or.inr ⟨fun e => h0 (by rw [hlen, e]; rfl), _, hv.pop_front_some h, hv.pop_front_inv h, ?_⟩
    rw [hv.pop_front_live h, hl]
    simp

/-- A default-constructed vector holds no element.  The size of the request,
`sizeof(T) * min_capacity`, is taken not to wrap around. -/
theorem vector_void_holds (a : Nat) (v0 : vector T)
    (hT : Sized.sizeof T * min_capacity < 2 ^ 64) (h0 : vector_void T a = some v0) :
    Holds v0 [] := by
  have hs := Sized.sizeof_pos (T := T)
  unfold vector_void at h0
  rw [Nat.mod_eq_of_lt hT] at h0
  unfold operator_new at h0
  by_cases hg : 0 < a ∧ Sized.sizeof T * min_capacity ≤ PTRDIFF_MAX ∧
      a + Sized.sizeof T * min_capacity < 2 ^ 64
  · rw [if_pos hg] at h0
    have hc : Sized.sizeof T * min_capacity = min_capacity * Sized.sizeof T := Nat.mul_comm _ _
    have e1 : ptr_add T a min_capacity = a + min_capacity * Sized.sizeof T :=
      ptr_add_eq _ _ (by omega)
    have e2 : raw_block T (Sized.sizeof T * min_capacity) = List.replicate min_capacity none := by
      unfold raw_block
      rw [hc, Nat.mul_div_cancel _ hs]
    simp only [Option.some.injEq] at h0
    rw [e1, e2] at h0
    subst h0
    constructor
    · exact
        { h_send := rfl
          h_top := by simp only; omega
          h_bytes := by simp only; omega
          h_dbegin := by simp
          h_dend := by simp
          h_le := by simp
          h_heap := by simp
          h_cap := by simp [min_capacity]
          h_live := by intro i hi; simp at hi
          h_realloc := by simp
          h_version := by simp }
    · simp [live]
  · rw [if_neg hg] at h0
    simp at h0

end vector

/-! ## Runs of calls -/

theorem pushes_cons (op : Op T) (ops : List (Op T)) :
    pushes (op :: ops) = (if op.is_push then 1 else 0) + pushes ops := by
  unfold pushes
  rw [List.filter_cons]
  by_cases h : op.is_push = true
  · simp [h]; omega
  · simp [h]

/-- A run from a vector that holds `xs` either ends in `std::bad_alloc` or
returns, and then the vector holds what the list model says, and the sizes
account for the pushes and the successful pops. -/
theorem run_refines (ops : List (Op T)) :
    ∀ (v : vector T) (xs : List T), vector.Holds v xs →
      (∃ s, run ops v = Outcome.raised Exception.bad_alloc s) ∨
      (∃ v1, run ops v = Outcome.done v1 ∧ vector.Holds v1 (Model.run ops xs) ∧
        v1.length + successful_pops ops v = xs.length + pushes ops) := by
  induction ops with
  | nil =>
    intro v xs hx
    exact Or.inr ⟨v, rfl, hx, by rw [hx.length_eq]; rfl⟩
  | cons op ops ih =>
    intro v xs hx
    have hpush : ∀ (x : T) (ys : List T),
        ((∃ s, op.apply v = Outcome.raised Exception.bad_alloc s) ∨
          (∃ v1, op.apply v = Outcome.done v1 ∧ vector.Holds v1 ys)) →
        Model.step op xs = ys → op.is_push = true → ys.length = xs.length + 1 →
        (∃ s, run (op :: ops) v = Outcome.raised Exception.bad_alloc s) ∨
        (∃ v1, run (op :: ops) v = Outcome.done v1 ∧
          vector.Holds v1 (Model.run (op :: ops) xs) ∧
          v1.length + successful_pops (op :: ops) v = xs.length + pushes (op :: ops)) := by
      intro _ ys hcase hstep hp hlen
      rcases hcase with ⟨s, e⟩ | ⟨v1, e, h1⟩
      · exact Or.inl ⟨s, by rw [run, e]⟩
      · rcases ih v1 ys h1 with ⟨s, e2⟩ | ⟨v2, e2, h2, h3⟩
        · exact Or.inl ⟨s, by rw [run, e]; exact e2⟩
        · refine Or.inr ⟨v2, by rw [run, e]; exact e2, ?_, ?_⟩
          · unfold Model.run
            rw [List.foldl_cons, hstep]
            exact h2
          · rw [successful_pops, e, pushes_cons, hp]
            simp only [if_true]
            omega
    have hpop : ∀ (ys : List T),
        ((xs = [] ∧ op.apply v = Outcome.raised (Exception.out_of_range "no data to be poped") v) ∨
          (xs ≠ [] ∧ ∃ v1, op.apply v = Outcome.done v1 ∧ vector.Holds v1 ys)) →
        Model.step op xs = ys → op.is_push = false → ys.length = xs.length - 1 →
        (∃ s, run (op :: ops) v = Outcome.raised Exception.bad_alloc s) ∨
        (∃ v1, run (op :: ops) v = Outcome.done v1 ∧
          vector.Holds v1 (Model.run (op :: ops) xs) ∧
          v1.length + successful_pops (op :: ops) v = xs.length + pushes (op :: ops)) := by
      intro ys hcase hstep hp hlen
      rcases hcase with ⟨hnil, e⟩ | ⟨hne, v1, e, h1⟩
      · have hys : ys = xs := by
          rw [hnil] at hlen ⊢
          exact List.eq_nil_of_length_eq_zero hlen
        rcases ih v xs hx with ⟨s, e2⟩ | ⟨v2, e2, h2, h3⟩
        · exact Or.inl ⟨s, by rw [run, e]; exact e2⟩
        · refine Or.inr ⟨v2, by rw [run, e]; exact e2, ?_, ?_⟩
          · unfold Model.run
            rw [List.foldl_cons, hstep, hys]
            exact h2
          · rw [successful_pops, e, pushes_cons, hp]
            simp only [Bool.false_eq_true, if_false]
            omega
      · have hpos : 0 < xs.length := List.length_pos.mpr hne
        rcases ih v1 ys h1 with ⟨s, e2⟩ | ⟨v2, e2, h2, h3⟩
        · exact Or.inl ⟨s, by rw [run, e]; exact e2⟩
        · refine Or.inr ⟨v2, by rw [run, e]; exact e2, ?_, ?_⟩
          · unfold Model.run
            rw [List.foldl_cons, hstep]
            exact h2
          · rw [successful_pops, e, pushes_cons, hp]
            simp only [Bool.false_eq_true, if_false]
            omega
    cases op with
    | push_back a x =>
      exact hpush x (xs ++ [x]) (hx.push_back a x) rfl rfl (by simp)
    | push_back_rv a x =>
      exact hpush x (xs ++ [x]) (hx.push_back_rv a x) rfl rfl (by simp)
    | push_front a x =>
      exact hpush x (x :: xs) (hx.push_front a x) rfl rfl (by simp)
    | push_front_rv a x =>
      exact hpush x (x :: xs) (hx.push_front a x) rfl rfl (by simp)
    | pop_back =>
      exact hpop xs.dropLast hx.pop_back rfl rfl (by simp)
    | pop_front =>
      exact hpop xs.tail hx.pop_front rfl rfl (by simp)

/-! ## The two counters along a run -/

theorem push_back_counters (a : Nat) (x : T) (v v1 : vector T)
    (h : vector.push_back a x v = Outcome.done v1) :
    v1.vector_version = (v.vector_version + 1) % 2 ^ 64 ∧
    v1.reallocate_times = if v.send = v.dend then (v.reallocate_times + 1) % 2 ^ 64
      else v.reallocate_times := by
  unfold vector.push_back at h
  split_ifs at h with hc
  · simp only at h
    repeat' split at h
    all_goals first | (cases h; simp only [hc, if_true, and_self]) | cases h
  · repeat' split at h
    all_goals first | (cases h; simp only [hc, if_false, and_self]) | cases h

theorem push_back_rv_counters (a : Nat) (x : T) (v v1 : vector T)
    (h : vector.push_back_rv a x v = Outcome.done v1) :
    v1.vector_version = (v.vector_version + 1) % 2 ^ 64 ∧
    v1.reallocate_times = if v.send = v.dend then (v.reallocate_times + 1) % 2 ^ 64
      else v.reallocate_times := by
  unfold vector.push_back_rv at h
  split_ifs at h with hc
  · simp only at h
    repeat' split at h
    all_goals first | (cases h; simp only [hc, if_true, and_self]) | cases h
  · repeat' split at h
    all_goals first | (cases h; simp only [hc, if_false, and_self]) | cases h

theorem push_front_counters (a : Nat) (x : T) (v v1 : vector T)
    (h : vector.push_front a x v = Outcome.done v1) :
    v1.vector_version = (v.vector_version + 1) % 2 ^ 64 ∧
    v1.reallocate_times = if v.sbegin = v.dbegin then (v.reallocate_times + 1) % 2 ^ 64
      else v.reallocate_times := by
  unfold vector.push_front at h
  split_ifs at h with hc
  · simp only at h
    repeat' split at h
    all_goals first | (cases h; simp only [hc, if_true, and_self]) | cases h
  · simp only at h
    repeat' split at h
    all_goals first | (cases h; simp only [hc, if_false, and_self]) | cases h

theorem pop_back_counters (v v1 : vector T) (h : vector.pop_back v = Outcome.done v1) :
    v1.vector_version = (v.vector_version + 1) % 2 ^ 64 ∧
    v1.reallocate_times = v.reallocate_times := by
  unfold vector.pop_back at h
  split_ifs at h with hc
  simp only at h
  repeat' split at h
  all_goals first | (cases h; simp only [and_self]) | cases h

theorem pop_front_counters (v v1 : vector T) (h : vector.pop_front v = Outcome.done v1) :
    v1.vector_version = (v.vector_version + 1) % 2 ^ 64 ∧
    v1.reallocate_times = v.reallocate_times := by
  unfold vector.pop_front at h
  split_ifs at h with hc
  repeat' split at h
  all_goals first | (cases h; simp only [and_self]) | cases h

/-- Every call that returns normally adds one to `vector_version`, and adds one
to `reallocate_times` exactly when it took the growth path. -/
theorem apply_counters (op : Op T) (v v1 : vector T) (h : op.apply v = Outcome.done v1) :
    v1.vector_version = (v.vector_version + 1) % 2 ^ 64 ∧
    v1.reallocate_times = if op.grows v = true then (v.reallocate_times + 1) % 2 ^ 64
      else v.reallocate_times := by
  cases op with
  | push_back a x => simpa [Op.grows] using push_back_counters a x v v1 h
  | push_back_rv a x => simpa [Op.grows] using push_back_rv_counters a x v v1 h
  | push_front a x => simpa [Op.grows] using push_front_counters a x v v1 h
  | push_front_rv a x => simpa [Op.grows] using push_front_counters a x v v1 h
  | pop_back => simpa [Op.grows] using pop_back_counters v v1 h
  | pop_front => simpa [Op.grows] using pop_front_counters v v1 h

theorem growths_le_of_run_ok (ops : List (Op T)) :
    ∀ (v v1 : vector T), run_ok ops v = some v1 → growths ops v ≤ ops.length := by
  induction ops with
  | nil => intro v v1 _; simp [growths]
  | cons op ops ih =>
    intro v v1 h
    rw [run_ok] at h
    cases e : op.apply v with
    | done v2 =>
      rw [e] at h
      simp only at h
      have := ih v2 v1 h
      rw [growths, e]
      simp only [List.length_cons]
      split_ifs <;> omega
    | raised ex s => rw [e] at h; simp at h
    | undefined => rw [e] at h; simp at h

/-- After calls that all return normally, `vector_version` has advanced by
their number and `reallocate_times` by the number of growths, modulo `2 ^ 64`. -/
theorem run_ok_counters (ops : List (Op T)) :
    ∀ (v v1 : vector T), run_ok ops v = some v1 →
      v1.vector_version % 2 ^ 64 = (v.vector_version + ops.length) % 2 ^ 64 ∧
      v1.reallocate_times % 2 ^ 64 = (v.reallocate_times + growths ops v) % 2 ^ 64 := by
  induction ops with
  | nil =>
    intro v v1 h
    rw [run_ok] at h
    cases h
    simp [growths]
  | cons op ops ih =>
    intro v v1 h
    rw [run_ok] at h
    cases e : op.apply v with
    | done v2 =>
      rw [e] at h
      simp only at h
      obtain ⟨i1, i2⟩ := ih v2 v1 h
      obtain ⟨c1, c2⟩ := apply_counters op v v2 e
      rw [growths, e]
      simp only [List.length_cons]
      rw [i1, i2, c1, c2]
      constructor
      · omega
      · split_ifs <;> omega
    | raised ex s => rw [e] at h; simp at h
    | undefined => rw [e] at h; simp at h

/-! ## C1: the vector against the list model -/

/-- The call `v.push_back(v[k])` on a vector with no spare slot at the back,
with the allocation granted: it returns with the capacity doubled and appends
what the move of element `k` to the new block has left of it. -/
theorem vector.Inv.push_back_alias_spec {v : vector T} (hv : vector.Inv v)
    (hfull : v.front_storage + v.length = v.storage) (a k p : Nat)
    (hnew : 0 < a ∧ v.storage * 2 * Sized.sizeof T ≤ PTRDIFF_MAX ∧
      a + v.storage * 2 * Sized.sizeof T < 2 ^ 64)
    (hk : k < v.size) (hp : vector.operator_index v k = Except.ok p) :
    ∃ v1 x, vector.push_back a (Ref.element p) v = Outcome.done v1 ∧
      v.at_index k = some x ∧
      v1.storage = 2 * v.storage ∧ v1.front_storage = v.front_storage ∧
      v1.length = v.length + 1 ∧ v1.size = v.size + 1 ∧
      v1.elements = v.elements ++ [some (Sized.moved x)] ∧
      v1.back_spare = v.storage - 1 := by
  have h : v.send = v.dend := hv.send_eq_dend_iff.mpr hfull
  have hcap := hv.h_cap
  rw [hv.size_eq] at hk
  rw [hv.operator_index_lt k hk] at hp
  have hp' := Except.ok.inj hp
  have h5 := hv.h_dbegin
  have a5 := Nat.add_mul v.front_storage k (Sized.sizeof T)
  have ep : p = v.dbegin + k * Sized.sizeof T := by omega
  have hl := hv.h_live k hk
  obtain ⟨x, hx⟩ := Option.isSome_iff_exists.mp hl
  obtain ⟨heap3, e, hlen, hpt⟩ := hv.push_back_grow_alias h a k x hk hx hnew.1 hnew.2.1
    hnew.2.2
  obtain ⟨i1, i2⟩ := hv.push_back_grow_state h a (Sized.moved x) hnew.2.1 hnew.2.2 heap3
    hlen hpt
  rw [ep]
  refine ⟨_, x, e, by rw [hv.at_index_lt k hk, hx], Nat.mul_comm _ _, rfl, rfl, ?_, ?_, ?_⟩
  · rw [i1.size_eq, hv.size_eq]
  · rw [i1.elements_eq_live, i2, hv.elements_eq_live]
  · simp only [vector.back_spare]
    omega

/-- C1, as the code has it.  Starting from a default-constructed vector, every
finite sequence of `push_back`/`push_front`/`pop_back`/`pop_front` calls (both
overloads of the pushes) whose arguments are objects that are not elements of
the vector, and in which no `operator new` throws `std::bad_alloc`, runs to its
end, and then the vector agrees with the plain list model: `size()` is the
number of pushes minus the number of successful pops, and `operator[]` at
`0, ..., size() - 1` reads exactly the model list, front to back.  But when the
block then has no spare slot at the back, a following `v.push_back(v[k])`,
whose argument is an element of the vector, returns a vector that reads the
model list followed by what the move constructor has left of element `k`, where
the list model appends element `k`: `push_back(const T&)` moves the old
elements to the new block before it copies its argument (line 203).  The byte
count `sizeof(T) * min_capacity` of the first block is taken not to wrap
around. -/
theorem C1_aliased_push_back_departs_from_list_model (a : Nat) (v0 : vector T)
    (ops : List (Op T))
    (hT : Sized.sizeof T * min_capacity < 2 ^ 64)
    (h0 : vector.vector_void T a = some v0)
    (hmem : (run ops v0).thrown ≠ some Exception.bad_alloc) :
    ∃ v, run ops v0 = Outcome.done v ∧
      successful_pops ops v0 ≤ pushes ops ∧
      v.size = pushes ops - successful_pops ops v0 ∧
      v.elements = (Model.run ops []).map some ∧
      ∀ (a1 k p : Nat), v.front_storage + v.length = v.storage →
        (0 < a1 ∧ v.storage * 2 * Sized.sizeof T ≤ PTRDIFF_MAX ∧
          a1 + v.storage * 2 * Sized.sizeof T < 2 ^ 64) →
        k < v.size → vector.operator_index v k = Except.ok p →
        ∃ v1 x, vector.push_back a1 (Ref.element p) v = Outcome.done v1 ∧
          (Model.run ops [])[k]? = some x ∧
          v1.elements = (Model.run ops [] ++ [Sized.moved x]).map some := by
  have hx := vector.vector_void_holds a v0 hT h0
  rcases run_refines ops v0 [] hx with ⟨s, e⟩ | ⟨v, e, h1, h2⟩
  · rw [e] at hmem
    exact absurd rfl hmem
  · have hel : v.elements = (Model.run ops []).map some := by
      rw [h1.1.elements_eq_live, h1.2]
    refine ⟨v, e, ?_, ?_, hel, ?_⟩
    · simp only [List.length_nil] at h2
      omega
    · rw [h1.1.size_eq]
      simp only [List.length_nil] at h2
      omega
    · intro a1 k p hfull hnew hk hp
      obtain ⟨v1, x, e1, hat, _, _, _, _, he, _⟩ :=
        h1.1.push_back_alias_spec hfull a1 k p hnew hk hp
      refine ⟨v1, x, e1, ?_, ?_⟩
      · have hk2 : k < (List.range v.size).length := by
          rw [List.length_range]; exact hk
        have h3 : v.elements[k]? = some (v.at_index k) := by
          unfold vector.elements
          rw [List.getElem?_map, List.getElem?_range hk]
          rfl
        rw [hel, hat, List.getElem?_map] at h3
        cases hm : (Model.run ops [])[k]? with
        | none => rw [hm] at h3; cases h3
        | some y =>
          rw [hm] at h3
          simp only [Option.map_some', Option.some.injEq] at h3
          rw [h3]
      · rw [he, hel, List.map_append]
        rfl

/-- C1 on a `vector<std::string>`: after `push_back` of "a", ..., "h" the
vector reads the model list; `v.push_back(v[0])` then grows the block (the new
one is at address 8192) and appends the empty string, where the list model
appends "a". -/
theorem C1_aliased_push_back_departs_from_list_model_witness :
    (Sized.sizeof Text * min_capacity < 2 ^ 64 ∧
      vector.vector_void Text 4096 = some sample_texts_empty ∧
      (run texts_eight sample_texts_empty).thrown ≠ some Exception.bad_alloc) ∧
    run texts_eight sample_texts_empty = Outcome.done sample_texts_full ∧
    sample_texts_full.elements = (Model.run texts_eight []).map some ∧
    vector.operator_index sample_texts_full 0 = Except.ok 4096 ∧
    (Model.run texts_eight [])[0]? = some (Text.mk [97]) ∧
    vector.push_back 8192 (Ref.element 4096) sample_texts_full
      = Outcome.done sample_texts_nine ∧
    sample_texts_nine.elements = (Model.run texts_eight [] ++ [Text.mk []]).map some ∧
    sample_texts_nine.elements ≠ (Model.run texts_eight [] ++ [Text.mk [97]]).map some := by
  obtain ⟨v, e, _, _, hel, h5⟩ :=
    C1_aliased_push_back_departs_from_list_model 4096 sample_texts_empty texts_eight
      (by decide) (by decide) (by decide)
  have d : run texts_eight sample_texts_empty = Outcome.done sample_texts_full := by decide
  rw [d] at e
  cases e
  obtain ⟨v1, x, e1, hx, he⟩ := h5 8192 0 4096 (by decide) (by decide) (by decide) rfl
  have d2 : vector.push_back 8192 (Ref.element 4096) sample_texts_full
      = Outcome.done sample_texts_nine := by decide
  have d3 : (Model.run texts_eight [])[0]? = some (Text.mk [97]) := by decide
  rw [d2] at e1
  cases e1
  rw [d3] at hx
  cases hx
  exact ⟨⟨by decide, by decide, by decide⟩, d, hel, rfl, d3, d2, he, by decide⟩

/-! ## Sample vectors -/

theorem sample_empty_inv : vector.Inv sample_empty := by
  decide

theorem sample_four_inv : vector.Inv sample_four := by
  decide

/-! ## C2: the bounds check of `operator[]` -/

/-- C2.  On a vector that satisfies the invariant and whose first element lies
at least one element above address 0 (every block of the allocator does),
`operator[](k)` returns the reference to slot `k` for `k < size()` and throws
`std::out_of_range` for every `k >= size()` whose address `dbegin + k` does not
wrap around; but for `k = 2 ^ 64 - 1`, the wrapped `-1`, the sum `k + dbegin`
wraps to the address one element below `dbegin`, the test `(k + dbegin) >= dend`
is false, nothing is thrown and a reference below the live range is returned. -/
theorem C2_index_minus_one_not_rejected (v : vector T) (hv : vector.Inv v)
    (hd : Sized.sizeof T ≤ v.dbegin) :
    (∀ k, k < v.size → vector.operator_index v k = Except.ok (v.dbegin + k * Sized.sizeof T) ∧
      some (vector.at_index v k) = v.live[k]?) ∧
    (∀ k, v.size ≤ k → v.dbegin + k * Sized.sizeof T < 2 ^ 64 →
      vector.operator_index v k = Except.error IndexOutOfRange) ∧
    (v.size ≤ 2 ^ 64 - 1 ∧
      vector.operator_index v (2 ^ 64 - 1) = Except.ok (v.dbegin - Sized.sizeof T)) := by
  have hs := Sized.sizeof_pos (T := T)
  have h1 := hv.bytes
  have h3 := hv.h_top
  have h4 := hv.h_send
  have h5 := hv.h_dbegin
  have h6 := hv.h_dend
  have h9 := hv.length_lt
  refine ⟨?_, ?_, ?_, ?_⟩
  · intro k hk
    rw [hv.size_eq] at hk
    constructor
    · rw [hv.operator_index_lt k hk, h5, Nat.add_mul]
      congr 1
      omega
    · rw [hv.at_index_lt k hk, hv.live_getElem? k hk]
  · intro k hk hw
    rw [hv.size_eq] at hk
    have h7 : v.length * Sized.sizeof T ≤ k * Sized.sizeof T := Nat.mul_le_mul_right _ hk
    unfold vector.operator_index IndexOutOfRange
    rw [ptr_add_eq _ _ hw, if_pos (by omega)]
  · rw [hv.size_eq]; omega
  · have e : ptr_add T v.dbegin (2 ^ 64 - 1) = v.dbegin - Sized.sizeof T := by
      unfold ptr_add
      have e1 : v.dbegin + (2 ^ 64 - 1) * Sized.sizeof T
          = (v.dbegin - Sized.sizeof T) + 2 ^ 64 * Sized.sizeof T := by
        rw [Nat.sub_mul, Nat.one_mul]
        have : Sized.sizeof T ≤ 2 ^ 64 * Sized.sizeof T := Nat.le_mul_of_pos_left _ (by norm_num)
        omega
      rw [e1, Nat.add_mul_mod_self_left]
      exact Nat.mod_eq_of_lt (by omega)
    unfold vector.operator_index
    rw [e, if_neg (by omega)]

/-- C2 at a `vector<int>` holding 10, 20, 30, 40 in the block at address 4096:
`operator[](0xFFFFFFFFFFFFFFFF)` returns the reference to address 4092. -/
theorem C2_index_minus_one_not_rejected_witness :
    (vector.Inv sample_four ∧ Sized.sizeof Int ≤ sample_four.dbegin) ∧
    sample_four.size ≤ 2 ^ 64 - 1 ∧
    vector.operator_index sample_four (2 ^ 64 - 1) = Except.ok (4096 - 4) :=
  ⟨⟨sample_four_inv, by decide⟩,
    (C2_index_minus_one_not_rejected sample_four sample_four_inv (by decide)).2.2⟩

/-! ## C3: a pop on an empty vector -/

/-- C3.  On a vector of length 0 (a state that satisfies the data-model
invariant with `length == 0`, or any state whose live range is empty,
`dbegin == dend`), `pop_back()` and `pop_front()` each throw `std::out_of_range`
(the spec's `EmptyContainer`) and leave every member as it was: length,
front_storage, storage, vector_version, reallocate_times, the pointers and the
block. -/
theorem C3_pop_on_empty_fails_unchanged (v : vector T)
    (h : (vector.Inv v ∧ v.length = 0) ∨ v.dbegin = v.dend) :
    vector.pop_back v = Outcome.raised EmptyContainer v ∧
    vector.pop_front v = Outcome.raised EmptyContainer v := by
  have h' : v.dbegin = v.dend := by
    rcases h with ⟨hv, h0⟩ | h
    · exact hv.dbegin_eq_dend_iff.mpr h0
    · exact h
  constructor
  · unfold vector.pop_back EmptyContainer
    rw [if_pos h']
  · unfold vector.pop_front EmptyContainer
    rw [if_pos h']

/-- C3 at a default-constructed `vector<int>`. -/
theorem C3_pop_on_empty_fails_unchanged_witness :
    (vector.Inv sample_empty ∧ sample_empty.length = 0) ∧
    vector.pop_back sample_empty = Outcome.raised EmptyContainer sample_empty ∧
    vector.pop_front sample_empty = Outcome.raised EmptyContainer sample_empty :=
  ⟨⟨sample_empty_inv, rfl⟩,
    C3_pop_on_empty_fails_unchanged sample_empty (Or.inl ⟨sample_empty_inv, rfl⟩)⟩

/-! ## Runs of calls that all return normally -/

theorem run_ok_cons_done (op : Op T) (ops : List (Op T)) (v v1 : vector T)
    (h : op.apply v = Outcome.done v1) : run_ok (op :: ops) v = run_ok ops v1 := by
  rw [run_ok, h]

theorem run_ok_cons_some (op : Op T) (ops : List (Op T)) (v v2 : vector T)
    (h : run_ok (op :: ops) v = some v2) :
    ∃ v1, op.apply v = Outcome.done v1 ∧ run_ok ops v1 = some v2 := by
  rw [run_ok] at h
  cases e : op.apply v with
  | done v1 => rw [e] at h; exact ⟨v1, rfl, h⟩
  | raised ex s => rw [e] at h; simp at h
  | undefined => rw [e] at h; simp at h

theorem run_ok_append (l1 l2 : List (Op T)) :
    ∀ (v v1 : vector T), run_ok l1 v = some v1 → run_ok (l1 ++ l2) v = run_ok l2 v1 := by
  induction l1 with
  | nil =>
    intro v v1 h
    rw [run_ok] at h
    cases h
    rfl
  | cons op l1 ih =>
    intro v v1 h
    obtain ⟨v2, e, h2⟩ := run_ok_cons_some op l1 v v1 h
    rw [List.cons_append, run_ok_cons_done op _ v v2 e]
    exact ih v2 v1 h2

theorem growths_cons_done (op : Op T) (ops : List (Op T)) (v v1 : vector T)
    (h : op.apply v = Outcome.done v1) :
    growths (op :: ops) v = (if op.grows v = true then 1 else 0) + growths ops v1 := by
  rw [growths, h]

theorem growths_append (l1 l2 : List (Op T)) :
    ∀ (v v1 : vector T), run_ok l1 v = some v1 →
      growths (l1 ++ l2) v = growths l1 v + growths l2 v1 := by
  induction l1 with
  | nil =>
    intro v v1 h
    rw [run_ok] at h
    cases h
    simp [growths]
  | cons op l1 ih =>
    intro v v1 h
    obtain ⟨v2, e, h2⟩ := run_ok_cons_some op l1 v v1 h
    rw [List.cons_append, growths_cons_done op _ v v2 e, growths_cons_done op _ v v2 e,
      ih v2 v1 h2]
    omega

/-- After calls that all return normally on a vector whose counters are
`uint64_t` values, `vector_version` is the old value plus the number of calls
and `reallocate_times` the old value plus the number of growths, modulo
`2 ^ 64`. -/
theorem run_ok_counters_typed (ops : List (Op T)) :
    ∀ (v v1 : vector T), v.vector_version < 2 ^ 64 → v.reallocate_times < 2 ^ 64 →
      run_ok ops v = some v1 →
      v1.vector_version = (v.vector_version + ops.length) % 2 ^ 64 ∧
      v1.reallocate_times = (v.reallocate_times + growths ops v) % 2 ^ 64 := by
  induction ops with
  | nil =>
    intro v v1 h1 h2 h
    rw [run_ok] at h
    cases h
    simp only [List.length_nil, growths, Nat.add_zero]
    exact ⟨(Nat.mod_eq_of_lt h1).symm, (Nat.mod_eq_of_lt h2).symm⟩
  | cons op ops ih =>
    intro v v1 h1 h2 h
    obtain ⟨v2, e, h3⟩ := run_ok_cons_some op ops v v1 h
    obtain ⟨c1, c2⟩ := apply_counters op v v2 e
    have t1 : v2.vector_version < 2 ^ 64 := by rw [c1]; exact Nat.mod_lt _ (by norm_num)
    have t2 : v2.reallocate_times < 2 ^ 64 := by
      rw [c2]
      split_ifs
      · exact Nat.mod_lt _ (by norm_num)
      · exact h2
    obtain ⟨i1, i2⟩ := ih v2 v1 t1 t2 h3
    rw [growths_cons_done op ops v v2 e]
    simp only [List.length_cons]
    rw [i1, i2, c1, c2]
    constructor
    · omega
    · split_ifs <;> omega

/-! ## The invariant along a run -/

theorem exists_map_some (l : List (Option T)) (h : ∀ o, o ∈ l → o.isSome = true) :
    ∃ xs : List T, l = xs.map some := by
  induction l with
  | nil => exact ⟨[], rfl⟩
  | cons o l ih =>
    obtain ⟨xs, hxs⟩ := ih (fun o' ho' => h o' (List.mem_cons_of_mem _ ho'))
    obtain ⟨x, hx⟩ := Option.isSome_iff_exists.mp (h o (List.mem_cons_self _ _))
    exact ⟨x :: xs, by rw [hx, hxs]; rfl⟩

theorem vector.Inv.exists_holds {v : vector T} (hv : vector.Inv v) :
    ∃ xs, vector.Holds v xs := by
  obtain ⟨xs, hxs⟩ := exists_map_some v.live (by
    intro o ho
    obtain ⟨k, hk, e⟩ := List.getElem_of_mem ho
    rw [hv.live_length] at hk
    have h2 := hv.live_getElem? k hk
    rw [List.getElem?_eq_getElem (by rw [hv.live_length]; exact hk), e] at h2
    rw [Option.some.injEq] at h2
    rw [h2]
    exact hv.h_live k hk)
  exact ⟨xs, hv, hxs⟩

/-- A call that returns normally on a vector that satisfies the invariant
leaves a vector that satisfies it, one element longer after a push and one
shorter after a pop. -/
theorem apply_inv (op : Op T) (v v1 : vector T) (hv : vector.Inv v)
    (h : op.apply v = Outcome.done v1) :
    vector.Inv v1 ∧
    (op.is_push = true → v1.length = v.length + 1) ∧
    (op.is_push = false → v1.length + 1 = v.length) := by
  obtain ⟨xs, hx⟩ := hv.exists_holds
  have hl := hx.length_eq
  cases op with
  | push_back a x =>
    rcases hx.push_back a x with ⟨s, e⟩ | ⟨v2, e, h2⟩
    · rw [Op.apply, e] at h; cases h
    · rw [Op.apply, e] at h
      cases h
      exact ⟨h2.1, fun _ => by rw [h2.length_eq, hl]; simp, fun e => by cases e⟩
  | push_back_rv a x =>
    rcases hx.push_back_rv a x with ⟨s, e⟩ | ⟨v2, e, h2⟩
    · rw [Op.apply, e] at h; cases h
    · rw [Op.apply, e] at h
      cases h
      exact ⟨h2.1, fun _ => by rw [h2.length_eq, hl]; simp, fun e => by cases e⟩
  | push_front a x =>
    rcases hx.push_front a x with ⟨s, e⟩ | ⟨v2, e, h2⟩
    · rw [Op.apply, e] at h; cases h
    · rw [Op.apply, e] at h
      cases h
      exact ⟨h2.1, fun _ => by rw [h2.length_eq, hl]; simp, fun e => by cases e⟩
  | push_front_rv a x =>
    rcases hx.push_front a x with ⟨s, e⟩ | ⟨v2, e, h2⟩
    · rw [Op.apply, vector.push_front_rv, e] at h; cases h
    · rw [Op.apply, vector.push_front_rv, e] at h
      cases h
      exact ⟨h2.1, fun _ => by rw [h2.length_eq, hl]; simp, fun e => by cases e⟩
  | pop_back =>
    rcases hx.pop_back with ⟨_, e⟩ | ⟨hne, v2, e, h2⟩
    · rw [Op.apply, e] at h; cases h
    · rw [Op.apply, e] at h
      cases h
      have hpos : 0 < xs.length := List.length_pos.mpr hne
      exact ⟨h2.1, fun e => (by cases e),
        fun _ => by rw [h2.length_eq, hl, List.length_dropLast]; omega⟩
  | pop_front =>
    rcases hx.pop_front with ⟨_, e⟩ | ⟨hne, v2, e, h2⟩
    · rw [Op.apply, e] at h; cases h
    · rw [Op.apply, e] at h
      cases h
      have hpos : 0 < xs.length := List.length_pos.mpr hne
      exact ⟨h2.1, fun e => (by cases e),
        fun _ => by rw [h2.length_eq, hl, List.length_tail]; omega⟩

theorem run_ok_inv (ops : List (Op T)) :
    ∀ (v v1 : vector T), vector.Inv v → run_ok ops v = some v1 → vector.Inv v1 := by
  induction ops with
  | nil =>
    intro v v1 hv h
    rw [run_ok] at h
    cases h
    exact hv
  | cons op ops ih =>
    intro v v1 hv h
    obtain ⟨v2, e, h2⟩ := run_ok_cons_some op ops v v1 h
    exact ih v2 v1 (apply_inv op v v2 hv e).1 h2

/-- A run of pops that all return normally: as many elements are gone as there
were calls, and no call grew the block. -/
theorem run_ok_pops (ops : List (Op T)) :
    ∀ (v v1 : vector T), vector.Inv v → (∀ op, op ∈ ops → op.is_push = false) →
      run_ok ops v = some v1 →
      v1.length + ops.length = v.length ∧ growths ops v = 0 := by
  induction ops with
  | nil =>
    intro v v1 _ _ h
    rw [run_ok] at h
    cases h
    simp [growths]
  | cons op ops ih =>
    intro v v1 hv hp h
    obtain ⟨v2, e, h2⟩ := run_ok_cons_some op ops v v1 h
    obtain ⟨i1, _, i3⟩ := apply_inv op v v2 hv e
    have hop := hp op (List.mem_cons_self _ _)
    obtain ⟨j1, j2⟩ := ih v2 v1 i1 (fun o ho => hp o (List.mem_cons_of_mem _ ho)) h2
    have hg : op.grows v = false := by
      cases op <;> first | rfl | (simp [Op.is_push] at hop)
    rw [growths_cons_done op ops v v2 e, hg, j2]
    simp only [List.length_cons]
    have := i3 hop
    constructor
    · omega
    · simp

/-! ## The staleness check of an iterator -/

/-- Every checked access throws exactly what `check_exception()` throws. -/
theorem Access.thrown_eq (parent : vector T) (it : iterator T) (acc : Access T) :
    acc.thrown parent it = thrown_by (iterator.check_exception parent it) := by
  cases h : iterator.check_exception parent it with
  | error e =>
    cases acc <;>
      simp [Access.thrown, thrown_by, iterator.operator_star, iterator.operator_arrow,
        iterator.operator_index, iterator.operator_inc, iterator.operator_inc_post,
        iterator.operator_eq, iterator.operator_ne, iterator.operator_dec,
        iterator.operator_dec_post, iterator.operator_plus, iterator.operator_plus_assign,
        iterator.operator_minus, iterator.operator_minus_assign, h]
  | ok u =>
    cases acc <;>
      simp [Access.thrown, thrown_by, iterator.operator_star, iterator.operator_arrow,
        iterator.operator_index, iterator.operator_inc, iterator.operator_inc_post,
        iterator.operator_eq, iterator.operator_ne, iterator.operator_dec,
        iterator.operator_dec_post, iterator.operator_plus, iterator.operator_plus_assign,
        iterator.operator_minus, iterator.operator_minus_assign, h]

theorem check_fresh (parent : vector T) (it : iterator T)
    (h : it.iterator_version = parent.vector_version) :
    iterator.check_exception parent it = Except.ok () := by
  unfold iterator.check_exception
  rw [if_neg (fun hne => hne h)]

theorem check_moderate (parent : vector T) (it : iterator T)
    (h1 : it.iterator_version ≠ parent.vector_version)
    (h2 : it.record_reallocate_times ≠ parent.reallocate_times) :
    iterator.check_exception parent it
      = Except.error (Exception.invalid_iterator SeverityLevel.MODERATE) := by
  unfold iterator.check_exception
  rw [if_pos h1, if_pos h2]

theorem check_severe (parent : vector T) (it : iterator T)
    (h1 : it.iterator_version ≠ parent.vector_version)
    (h2 : it.record_reallocate_times = parent.reallocate_times)
    (h3 : it.index ≥ parent.size) (h4 : it.inside ≠ 0) :
    iterator.check_exception parent it
      = Except.error (Exception.invalid_iterator SeverityLevel.SEVERE) := by
  unfold iterator.check_exception
  rw [if_pos h1, if_neg (fun hne => hne h2), if_pos ⟨Or.inr h3, h4⟩]

theorem check_mild (parent : vector T) (it : iterator T)
    (h1 : it.iterator_version ≠ parent.vector_version)
    (h2 : it.record_reallocate_times = parent.reallocate_times)
    (h3 : it.index < parent.size ∨ it.inside = 0) :
    iterator.check_exception parent it
      = Except.error (Exception.invalid_iterator SeverityLevel.MILD) := by
  unfold iterator.check_exception
  rw [if_pos h1, if_neg (fun hne => hne h2), if_neg]
  rintro ⟨h5 | h5, h6⟩
  · omega
  · rcases h3 with h3 | h3
    · omega
    · exact h6 h3

theorem run_ok_version (ops : List (Op T)) :
    ∀ (v v1 : vector T), v.vector_version < 2 ^ 64 → run_ok ops v = some v1 →
      v1.vector_version = (v.vector_version + ops.length) % 2 ^ 64 := by
  induction ops with
  | nil =>
    intro v v1 h1 h
    rw [run_ok] at h
    cases h
    exact (Nat.mod_eq_of_lt h1).symm
  | cons op ops ih =>
    intro v v1 h1 h
    obtain ⟨v2, e, h3⟩ := run_ok_cons_some op ops v v1 h
    obtain ⟨c1, _⟩ := apply_counters op v v2 e
    have t1 : v2.vector_version < 2 ^ 64 := by rw [c1]; exact Nat.mod_lt _ (by norm_num)
    rw [ih v2 v1 t1 h3, c1]
    simp only [List.length_cons]
    omega

/-! ## C4: an access raises exactly when the vector was mutated -/

/-- C4.  Take a vector (its `vector_version` a `uint64_t` value), a cursor
obtained from it by `begin()` or `end()`, and `m < 2 ^ 64` push/pop calls made
on the vector afterwards, all of them successful.  Then every checked access
on the cursor (dereference, `->`, indexed offset, increments, decrements,
`==`, `!=`, `+`, `+=`, `-`, `-=`) throws `invalid_iterator` if and only if
`m >= 1`; with `m = 0` the access throws nothing. -/
theorem C4_access_raises_iff_mutated (v v1 : vector T) (c : iterator T) (ops : List (Op T))
    (acc : Access T) (hver : v.vector_version < 2 ^ 64)
    (hc : c = v.begin_ ∨ c = v.end_)
    (hrun : run_ok ops v = some v1) (hm : ops.length < 2 ^ 64) :
    ((∃ level, acc.thrown v1 c = some (InvalidCursor level)) ↔ 1 ≤ ops.length) ∧
    (ops.length = 0 → acc.thrown v1 c = none) := by
  have hcv : c.iterator_version = v.vector_version := by
    rcases hc with hc | hc <;> rw [hc] <;> rfl
  have hv1 := run_ok_version ops v v1 hver hrun
  rw [Access.thrown_eq]
  by_cases h0 : ops.length = 0
  · have hf : c.iterator_version = v1.vector_version := by
      rw [hv1, h0, hcv]
      exact (Nat.mod_eq_of_lt hver).symm
    rw [check_fresh v1 c hf]
    constructor
    · constructor
      · rintro ⟨level, hl⟩
        simp [thrown_by] at hl
      · intro h
        omega
    · intro _
      rfl
  · have hne : c.iterator_version ≠ v1.vector_version := by
      rw [hv1, hcv]
      omega
    constructor
    · constructor
      · intro _
        omega
      · intro _
        unfold iterator.check_exception InvalidCursor
        rw [if_pos hne]
        split_ifs
        · exact ⟨_, rfl⟩
        · exact ⟨_, rfl⟩
        · exact ⟨_, rfl⟩
    · intro h
      exact absurd h h0

/-- C4 on a `vector<int>` holding four elements: after a `push_back` and a
`pop_front`, dereferencing the cursor taken by `begin()` before them throws. -/
theorem C4_access_raises_iff_mutated_witness :
    (sample_four.vector_version < 2 ^ 64 ∧
      (sample_four.begin_ = sample_four.begin_ ∨ sample_four.begin_ = sample_four.end_) ∧
      run_ok [Op.push_back 0 50, Op.pop_front] sample_four = some sample_four_shifted ∧
      [Op.push_back 0 (50 : Int), Op.pop_front].length < 2 ^ 64) ∧
    ((∃ level, (Access.star : Access Int).thrown sample_four_shifted sample_four.begin_
        = some (InvalidCursor level))
      ↔ 1 ≤ [Op.push_back 0 (50 : Int), Op.pop_front].length) ∧
    ([Op.push_back 0 (50 : Int), Op.pop_front].length = 0 →
      (Access.star : Access Int).thrown sample_four_shifted sample_four.begin_ = none) :=
  ⟨⟨by decide, Or.inl rfl, by decide, by decide⟩,
    C4_access_raises_iff_mutated sample_four sample_four_shifted sample_four.begin_
      [Op.push_back 0 50, Op.pop_front] Access.star (by decide) (Or.inl rfl) (by decide)
      (by decide)⟩

/-! ## Cursors placed by advancing `begin()` -/

theorem to_u64_zero_add (i : Nat) (hi : i < 2 ^ 64) : to_u64 (((0 : Nat) : Int) + (i : Int)) = i := by
  unfold to_u64
  omega

theorem begin_fields (v : vector T) (hv : vector.Inv v) (hn : 1 ≤ v.length) :
    v.begin_.index = 0 ∧ v.begin_.inside = 1 ∧
    v.begin_.iterator_version = v.vector_version ∧
    v.begin_.record_reallocate_times = v.reallocate_times := by
  have e : to_u64 (ptr_diff T v.dbegin v.dbegin) = 0 := by
    rw [ptr_diff_eq v.dbegin v.dbegin 0 (by simp) (by simp)]
    rfl
  unfold vector.begin_ iterator.at_ptr
  simp only [e, hv.size_eq]
  refine ⟨trivial, ?_, trivial, trivial⟩
  rw [if_pos ⟨Nat.le_refl _, hn⟩]

theorem advance_spec (v : vector T) :
    ∀ (k : Nat) (it : iterator T), it.iterator_version = v.vector_version →
      it.index + k < 2 ^ 64 →
      ∃ it1, iterator.advance v k it = Except.ok it1 ∧ it1.index = it.index + k ∧
        it1.iterator_version = it.iterator_version ∧
        it1.record_reallocate_times = it.record_reallocate_times ∧
        (1 ≤ k → it1.inside = if it1.index < v.size then 1 else 0) := by
  intro k
  induction k with
  | zero =>
    intro it _ _
    exact ⟨it, rfl, rfl, rfl, rfl, fun h => absurd h (by omega)⟩
  | succ k ih =>
    intro it hf hb
    have e : iterator.operator_inc v it = Except.ok
        (iterator.update_inside v
          { it with ptr := ptr_add T it.ptr 1, index := (it.index + 1) % 2 ^ 64 }) := by
      unfold iterator.operator_inc
      rw [check_fresh v it hf]
    have e2 : (it.index + 1) % 2 ^ 64 = it.index + 1 := Nat.mod_eq_of_lt (by omega)
    obtain ⟨it1, r1, r2, r3, r4, r5⟩ := ih
      (iterator.update_inside v
        { it with ptr := ptr_add T it.ptr 1, index := (it.index + 1) % 2 ^ 64 })
      hf (by simp only [iterator.update_inside, e2]; omega)
    refine ⟨it1, ?_, ?_, ?_, ?_, ?_⟩
    · rw [iterator.advance, e]
      exact r1
    · rw [r2]
      simp only [iterator.update_inside, e2]
      omega
    · rw [r3]; rfl
    · rw [r4]; rfl
    · intro _
      by_cases hk : 1 ≤ k
      · exact r5 hk
      · have hk0 : k = 0 := by omega
        subst hk0
        rw [iterator.advance] at r1
        cases r1
        simp only [iterator.update_inside, e2, Nat.zero_le, true_and]

/-- A cursor placed at the in-range position `i` by advancing `begin()` by `i`
(with `+`, with `+=` or with `i` increments) has index `i`, is flagged as
inside, and carries the two counters of the vector. -/
theorem placed_fields (v : vector T) (c : iterator T) (i : Nat) (hv : vector.Inv v)
    (hi : i < v.length)
    (hc : (∃ c1, iterator.operator_plus v v.begin_ (i : Int) = Except.ok (c, c1)) ∨
      iterator.operator_plus_assign v v.begin_ (i : Int) = Except.ok c ∨
      iterator.advance v i v.begin_ = Except.ok c) :
    c.index = i ∧ c.inside ≠ 0 ∧ c.iterator_version = v.vector_version ∧
    c.record_reallocate_times = v.reallocate_times := by
  have hl := hv.length_lt
  obtain ⟨b1, b2, b3, b4⟩ := begin_fields v hv (by omega)
  have hfresh := check_fresh v v.begin_ b3
  have eidx : to_u64 ((v.begin_.index : Int) + (i : Int)) = i := by
    rw [b1]; exact to_u64_zero_add i (by omega)
  rcases hc with ⟨c1, hc⟩ | hc | hc
  · unfold iterator.operator_plus at hc
    rw [hfresh] at hc
    simp only [Except.ok.injEq, Prod.mk.injEq] at hc
    obtain ⟨hc, _⟩ := hc
    subst hc
    simp only [eidx]
    exact ⟨trivial, by rw [b2]; decide, b3, b4⟩
  · unfold iterator.operator_plus_assign at hc
    rw [hfresh] at hc
    simp only [Except.ok.injEq] at hc
    subst hc
    simp only [iterator.update_inside, eidx, hv.size_eq]
    refine ⟨trivial, ?_, b3, b4⟩
    rw [if_pos ⟨Nat.zero_le _, hi⟩]
    decide
  · obtain ⟨it1, r1, r2, r3, r4, r5⟩ := advance_spec v i v.begin_ b3 (by rw [b1]; omega)
    rw [r1] at hc
    cases hc
    rw [b1, Nat.zero_add] at r2
    refine ⟨r2, ?_, by rw [r3, b3], by rw [r4, b4]⟩
    by_cases hi0 : 1 ≤ i
    · rw [r5 hi0, r2, hv.size_eq, if_pos hi]
      decide
    · have : i = 0 := by omega
      subst this
      rw [iterator.advance] at r1
      cases r1
      rw [b2]
      decide

/-! ## C6: pops classify a stale cursor as SEVERE or MILD -/

/-- C6.  On a vector of length `n >= 1`, place a cursor at the in-range position
`i < n` by advancing `begin()` by `i` (with `+`, with `+=` or with `i`
increments), then make `j >= 1` successful pops, any mix of `pop_back` and
`pop_front` and no push.  The next checked access on the cursor throws
`invalid_iterator`, with level SEVERE if `i >= n - j` and MILD otherwise. -/
theorem C6_pops_classify_stale_cursor (v v1 : vector T) (c : iterator T) (i : Nat)
    (ops : List (Op T)) (acc : Access T) (hv : vector.Inv v) (hi : i < v.length)
    (hc : (∃ c1, iterator.operator_plus v v.begin_ (i : Int) = Except.ok (c, c1)) ∨
      iterator.operator_plus_assign v v.begin_ (i : Int) = Except.ok c ∨
      iterator.advance v i v.begin_ = Except.ok c)
    (hpops : ∀ op, op ∈ ops → op = Op.pop_back ∨ op = Op.pop_front)
    (hj : 1 ≤ ops.length) (hrun : run_ok ops v = some v1) :
    acc.thrown v1 c = some (InvalidCursor
      (if v.length - ops.length ≤ i then SeverityLevel.SEVERE else SeverityLevel.MILD)) := by
  obtain ⟨f1, f2, f3, f4⟩ := placed_fields v c i hv hi hc
  have hl := hv.length_lt
  have hp : ∀ op, op ∈ ops → op.is_push = false := by
    intro op hop
    rcases hpops op hop with e | e <;> rw [e] <;> rfl
  obtain ⟨p1, p2⟩ := run_ok_pops ops v v1 hv hp hrun
  obtain ⟨q1, q2⟩ := run_ok_counters_typed ops v v1 hv.h_version hv.h_realloc hrun
  have hv1 := run_ok_inv ops v v1 hv hrun
  have hver := hv.h_version
  have hre := hv.h_realloc
  have hne : c.iterator_version ≠ v1.vector_version := by
    rw [q1, f3]
    omega
  have heq : c.record_reallocate_times = v1.reallocate_times := by
    rw [q2, p2, f4, Nat.add_zero]
    exact (Nat.mod_eq_of_lt hre).symm
  rw [Access.thrown_eq]
  unfold InvalidCursor
  by_cases hs : v.length - ops.length ≤ i
  · rw [if_pos hs, check_severe v1 c hne heq (by rw [hv1.size_eq, f1]; omega) f2]
    rfl
  · rw [if_neg hs, check_mild v1 c hne heq (Or.inl (by rw [hv1.size_eq, f1]; omega))]
    rfl

/-- C6 on a `vector<int>` holding four elements: the cursor on the last element
(position 3), then one `pop_back()`: the dereference throws SEVERE. -/
theorem C6_pops_classify_stale_cursor_witness :
    (vector.Inv sample_four ∧ 3 < sample_four.length ∧
      iterator.operator_plus_assign sample_four sample_four.begin_ ((3 : Nat) : Int)
        = Except.ok sample_four_last ∧
      (∀ op, op ∈ [(Op.pop_back : Op Int)] → op = Op.pop_back ∨ op = Op.pop_front) ∧
      1 ≤ [(Op.pop_back : Op Int)].length ∧
      run_ok [Op.pop_back] sample_four = some sample_four_popped) ∧
    (Access.star : Access Int).thrown sample_four_popped sample_four_last
      = some (InvalidCursor SeverityLevel.SEVERE) :=
  ⟨⟨sample_four_inv, by decide, rfl, by decide, by decide, by decide⟩,
    C6_pops_classify_stale_cursor sample_four sample_four_popped sample_four_last 3
      [Op.pop_back] Access.star sample_four_inv (by decide) (Or.inr (Or.inl rfl))
      (by decide) (by decide) (by decide)⟩

/-! ## A `push_back` undone by a `pop_back`, over and over -/

theorem vector.Inv.with_version {v : vector T} (hv : vector.Inv v) (n : Nat) (hn : n < 2 ^ 64) :
    vector.Inv { v with vector_version := n } :=
  { h_send := hv.h_send
    h_top := hv.h_top
    h_bytes := hv.h_bytes
    h_dbegin := hv.h_dbegin
    h_dend := hv.h_dend
    h_le := hv.h_le
    h_heap := hv.h_heap
    h_cap := hv.h_cap
    h_live := hv.h_live
    h_realloc := hv.h_realloc
    h_version := hn }

theorem set_set_none (heap : List (Option T)) (i : Nat) (x : T)
    (hn : heap.getD i none = none) : (heap.set i (some x)).set i none = heap := by
  apply List.ext_getElem?
  intro j
  rw [List.getElem?_set, List.length_set, List.getElem?_set]
  by_cases hij : i = j
  · subst hij
    by_cases hl : i < heap.length
    · rw [if_pos rfl, if_pos hl]
      rw [List.getD_eq_getElem?_getD, List.getElem?_eq_getElem hl] at hn
      simp only [Option.getD_some] at hn
      rw [List.getElem?_eq_getElem hl, hn]
    · rw [if_pos rfl, if_neg hl, List.getElem?_eq_none (by omega)]
  · rw [if_neg hij, if_neg hij]

/-- With spare room at the back and raw memory in the first spare slot, a
`push_back` followed by a `pop_back` changes nothing but `vector_version`,
which advances by two, and neither call grows the block. -/
theorem cycle_once (v : vector T) (hv : vector.Inv v) (hs : v.send ≠ v.dend)
    (hn : v.heap.getD (v.front_storage + v.length) none = none) (a : Nat) (x : T) :
    run_ok [Op.push_back a x, Op.pop_back] v
      = some { v with vector_version := (v.vector_version + 2) % 2 ^ 64 } ∧
    growths [Op.push_back a x, Op.pop_back] v = 0 := by
  have hs0 := Sized.sizeof_pos (T := T)
  have e1 := hv.push_back_spare hs a x
  have hv1 := hv.push_back_spare_inv hs x
  have hne : ¬ ((⟨v.dbegin, v.dend + Sized.sizeof T, v.sbegin, v.send, v.length + 1, v.storage,
      v.front_storage, v.reallocate_times, (v.vector_version + 1) % 2 ^ 64,
      v.heap.set (v.front_storage + v.length) (some x)⟩ : vector T).dbegin
      = (⟨v.dbegin, v.dend + Sized.sizeof T, v.sbegin, v.send, v.length + 1, v.storage,
      v.front_storage, v.reallocate_times, (v.vector_version + 1) % 2 ^ 64,
      v.heap.set (v.front_storage + v.length) (some x)⟩ : vector T).dend) := by
    intro h
    have := hv1.dbegin_eq_dend_iff.mp h
    simp at this
  have e2 := hv1.pop_back_some hne
  have e3 : v.front_storage + (v.length + 1) - 1 = v.front_storage + v.length := by omega
  have e4 : v.dend + Sized.sizeof T - Sized.sizeof T = v.dend := by omega
  have e5 : v.length + 1 - 1 = v.length := by omega
  have e6 : ((v.vector_version + 1) % 2 ^ 64 + 1) % 2 ^ 64 = (v.vector_version + 2) % 2 ^ 64 := by
    omega
  simp only [e3, e4, e5, e6, set_set_none v.heap _ x hn] at e2
  constructor
  · rw [run_ok_cons_done _ _ v _ (by rw [Op.apply]; exact e1),
      run_ok_cons_done _ _ _ _ (by rw [Op.apply]; exact e2)]
    rfl
  · rw [growths_cons_done _ _ v _ (by rw [Op.apply]; exact e1),
      growths_cons_done _ _ _ _ (by rw [Op.apply]; exact e2)]
    simp [Op.grows, growths, hs]

theorem cycles_length (pair : List (Op T)) (k : Nat) :
    (cycles pair k).length = k * pair.length := by
  induction k with
  | zero => simp [cycles]
  | succ k ih =>
    rw [cycles, List.length_append, ih, Nat.succ_mul]
    omega

/-- The same, `k` times over: `vector_version` advances by `2 * k` modulo
`2 ^ 64` and nothing else changes. -/
theorem cycle_many (a : Nat) (x : T) (k : Nat) :
    ∀ (v : vector T), vector.Inv v → v.send ≠ v.dend →
      v.heap.getD (v.front_storage + v.length) none = none →
      run_ok (cycles [Op.push_back a x, Op.pop_back] k) v
        = some { v with vector_version := (v.vector_version + 2 * k) % 2 ^ 64 } ∧
      growths (cycles [Op.push_back a x, Op.pop_back] k) v = 0 := by
  induction k with
  | zero =>
    intro v hv _ _
    have := hv.h_version
    constructor
    · rw [cycles, run_ok]
      simp only [Nat.mul_zero, Nat.add_zero, Nat.mod_eq_of_lt this]
    · rw [cycles, growths]
  | succ k ih =>
    intro v hv hs hn
    obtain ⟨c1, c2⟩ := cycle_once v hv hs hn a x
    obtain ⟨i1, i2⟩ := ih { v with vector_version := (v.vector_version + 2) % 2 ^ 64 }
      (hv.with_version _ (Nat.mod_lt _ (by norm_num))) hs hn
    have e : ((v.vector_version + 2) % 2 ^ 64 + 2 * k) % 2 ^ 64
        = (v.vector_version + 2 * (k + 1)) % 2 ^ 64 := by omega
    simp only [e] at i1
    constructor
    · rw [cycles, run_ok_append _ _ v _ c1]
      exact i1
    · rw [cycles, growths_append _ _ v _ c1, c2, i2]

/-! ## C5: a growth makes the cursor MODERATE -/

theorem wrap_with_growth_mid_inv : vector.Inv wrap_with_growth_mid := by
  decide

/-- C5 as stated fails: on a default-constructed `vector<int>`, take the cursor
`begin()`, then make the `2 ^ 64` successful calls of `wrap_with_growth`, the
first of which grows the block.  `vector_version` has wrapped around to the
value the cursor captured, so `check_exception()` takes the cursor for fresh
and the dereference throws nothing, although `reallocate_times` went from 0 to
1 and the block the cursor points into was released. -/
theorem C5_counterexample :
    vector.vector_void Int 4096 = some sample_empty ∧
    wrap_with_growth.length = 2 ^ 64 ∧
    run_ok wrap_with_growth sample_empty = some wrap_with_growth_end ∧
    1 ≤ growths wrap_with_growth sample_empty ∧
    wrap_with_growth_end.reallocate_times ≠ sample_empty.begin_.record_reallocate_times ∧
    iterator.check_exception wrap_with_growth_end sample_empty.begin_ = Except.ok () ∧
    (Access.star : Access Int).thrown wrap_with_growth_end sample_empty.begin_ = none := by
  have hsplit : wrap_with_growth
      = [Op.push_front 8192 7, Op.pop_back] ++ cycles [Op.push_back 0 7, Op.pop_back] (2 ^ 63 - 1) :=
    rfl
  have h2 : run_ok [Op.push_front 8192 7, Op.pop_back] sample_empty = some wrap_with_growth_mid := by
    decide
  have g2 : growths [Op.push_front 8192 7, Op.pop_back] sample_empty = 1 := by decide
  obtain ⟨c1, c2⟩ := cycle_many 0 (7 : Int) (2 ^ 63 - 1) wrap_with_growth_mid
    wrap_with_growth_mid_inv (by decide) (by decide)
  have e : ({ wrap_with_growth_mid with
      vector_version := (wrap_with_growth_mid.vector_version + 2 * (2 ^ 63 - 1)) % 2 ^ 64 }
      : vector Int) = wrap_with_growth_end := by decide
  rw [e] at c1
  refine ⟨by decide, ?_, ?_, ?_, by decide, rfl, rfl⟩
  · rw [hsplit, List.length_append, cycles_length]
    decide
  · rw [hsplit, run_ok_append _ _ _ _ h2]
    exact c1
  · rw [hsplit, growths_append _ _ _ _ h2, g2, c2]

/-- C5, amended.  Take a vector (its two counters `uint64_t` values) and a
cursor that carries the two counters of the vector, whatever its position and
its flag.  After fewer than `2 ^ 64` successful push/pop calls, at least one of
which grew the block, every checked access on the cursor throws
`invalid_iterator` with level MODERATE. -/
theorem C5_growth_gives_moderate (v v1 : vector T) (c : iterator T) (ops : List (Op T))
    (acc : Access T) (hver : v.vector_version < 2 ^ 64) (hre : v.reallocate_times < 2 ^ 64)
    (hc1 : c.iterator_version = v.vector_version)
    (hc2 : c.record_reallocate_times = v.reallocate_times)
    (hrun : run_ok ops v = some v1) (hg : 1 ≤ growths ops v) (hm : ops.length < 2 ^ 64) :
    acc.thrown v1 c = some (InvalidCursor SeverityLevel.MODERATE) := by
  obtain ⟨q1, q2⟩ := run_ok_counters_typed ops v v1 hver hre hrun
  have hgl := growths_le_of_run_ok ops v v1 hrun
  rw [Access.thrown_eq, check_moderate v1 c (by rw [q1, hc1]; omega) (by rw [q2, hc2]; omega)]
  rfl

/-- C5 at the scenario of the spec: a `vector<int>` of capacity 8 holding four
elements, the cursor at position 2, then five more `push_back` calls, the last
of which grows the block. -/
theorem C5_growth_gives_moderate_witness :
    (sample_four.vector_version < 2 ^ 64 ∧ sample_four.reallocate_times < 2 ^ 64 ∧
      iterator.operator_plus sample_four sample_four.begin_ 2
        = Except.ok (sample_four_third, sample_four.begin_) ∧
      sample_four_third.iterator_version = sample_four.vector_version ∧
      sample_four_third.record_reallocate_times = sample_four.reallocate_times ∧
      run_ok [Op.push_back 8192 50, Op.push_back 8192 60, Op.push_back 8192 70,
        Op.push_back 8192 80, Op.push_back 8192 90] sample_four = some sample_nine ∧
      1 ≤ growths [Op.push_back 8192 50, Op.push_back 8192 60, Op.push_back 8192 70,
        Op.push_back 8192 80, Op.push_back 8192 90] sample_four ∧
      [Op.push_back 8192 (50 : Int), Op.push_back 8192 60, Op.push_back 8192 70,
        Op.push_back 8192 80, Op.push_back 8192 90].length < 2 ^ 64) ∧
    (Access.star : Access Int).thrown sample_nine sample_four_third
      = some (InvalidCursor SeverityLevel.MODERATE) :=
  ⟨⟨by decide, by decide, rfl, by decide, by decide, by decide, by decide, by decide⟩,
    C5_growth_gives_moderate sample_four sample_nine sample_four_third
      [Op.push_back 8192 50, Op.push_back 8192 60, Op.push_back 8192 70,
        Op.push_back 8192 80, Op.push_back 8192 90] Access.star (by decide) (by decide)
      (by decide) (by decide) (by decide) (by decide) (by decide)⟩

/-! ## C7: without growth, an in-range cursor is MILD -/

/-- C7 as stated fails: on a `vector<int>` holding four elements, take the
cursor `begin()` at position 0, then make the `2 ^ 64` successful calls of
`wrap_in_place`, none of which grows the block, after which position 0 is still
below the length.  `vector_version` has wrapped around to the value the cursor
captured, so the dereference throws nothing at all instead of MILD. -/
theorem C7_counterexample :
    wrap_in_place.length = 2 ^ 64 ∧
    run_ok wrap_in_place sample_four = some sample_four ∧
    growths wrap_in_place sample_four = 0 ∧
    sample_four.begin_.index < sample_four.length ∧
    iterator.check_exception sample_four sample_four.begin_ = Except.ok () ∧
    (Access.star : Access Int).thrown sample_four sample_four.begin_ = none := by
  obtain ⟨c1, c2⟩ := cycle_many 0 (50 : Int) (2 ^ 63) sample_four sample_four_inv
    (by decide) (by decide)
  have e : ({ sample_four with
      vector_version := (sample_four.vector_version + 2 * 2 ^ 63) % 2 ^ 64 } : vector Int)
      = sample_four := by decide
  rw [e] at c1
  refine ⟨?_, c1, c2, by decide, rfl, rfl⟩
  unfold wrap_in_place
  rw [cycles_length]
  decide

/-- C7, amended.  Take a vector that satisfies the invariant and a cursor that
carries the two counters of the vector.  After at least one and fewer than
`2 ^ 64` successful push/pop calls, none of which grew the block, if the index
of the cursor is below the length of the vector then every checked access on
the cursor throws `invalid_iterator` with level MILD, whatever the slot holds
now. -/
theorem C7_no_growth_in_range_gives_mild (v v1 : vector T) (c : iterator T)
    (ops : List (Op T)) (acc : Access T) (hv : vector.Inv v)
    (hc1 : c.iterator_version = v.vector_version)
    (hc2 : c.record_reallocate_times = v.reallocate_times)
    (hrun : run_ok ops v = some v1) (hg : growths ops v = 0)
    (h1 : 1 ≤ ops.length) (hm : ops.length < 2 ^ 64) (hi : c.index < v1.length) :
    acc.thrown v1 c = some (InvalidCursor SeverityLevel.MILD) := by
  have hver := hv.h_version
  have hre := hv.h_realloc
  obtain ⟨q1, q2⟩ := run_ok_counters_typed ops v v1 hver hre hrun
  have hv1 := run_ok_inv ops v v1 hv hrun
  rw [Access.thrown_eq, check_mild v1 c (by rw [q1, hc1]; omega)
    (by rw [q2, hc2, hg]; omega) (Or.inl (by rw [hv1.size_eq]; exact hi))]
  rfl

/-- C7 at the two scenarios of the spec on a `vector<int>` holding four
elements, with the cursor `begin()` at position 0: here a `pop_front` followed
by a `push_back`, after which position 0 holds another element. -/
theorem C7_no_growth_in_range_gives_mild_witness :
    (vector.Inv sample_four ∧
      sample_four.begin_.iterator_version = sample_four.vector_version ∧
      sample_four.begin_.record_reallocate_times = sample_four.reallocate_times ∧
      run_ok [Op.pop_front, Op.push_back 0 50] sample_four = some sample_four_shifted ∧
      growths [Op.pop_front, Op.push_back 0 50] sample_four = 0 ∧
      1 ≤ [Op.pop_front, Op.push_back 0 (50 : Int)].length ∧
      [Op.pop_front, Op.push_back 0 (50 : Int)].length < 2 ^ 64 ∧
      sample_four.begin_.index < sample_four_shifted.length) ∧
    (Access.star : Access Int).thrown sample_four_shifted sample_four.begin_
      = some (InvalidCursor SeverityLevel.MILD) :=
  ⟨⟨sample_four_inv, by decide, by decide, by decide, by decide, by decide, by decide,
      by decide⟩,
    C7_no_growth_in_range_gives_mild sample_four sample_four_shifted sample_four.begin_
      [Op.pop_front, Op.push_back 0 50] Access.star sample_four_inv (by decide) (by decide)
      (by decide) (by decide) (by decide) (by decide) (by decide)⟩

/-! ## C8: the moved-from vector -/

theorem moved_from_size (raw A : vector T) : (vector.move raw A).2.size = 0 := by
  have hs := Sized.sizeof_pos (T := T)
  unfold vector.size vector.move ptr_diff to_i64 to_u64
  simp

theorem relocate_null (dbase dst n : Nat) (h : List (Option T)) :
    relocate T 0 [] 0 dbase dst (n + 1) 0 h = none := by
  have e : fetch T 0 ([] : List (Option T)) (ptr_add T 0 0) = none := by
    unfold fetch slot
    simp
  rw [relocate, e]

theorem relocate_move_null (dbase dst n : Nat) (h : List (Option T)) :
    relocate_move T 0 0 dbase dst (n + 1) 0 [] h = none := by
  have e : move_from T 0 ([] : List (Option T)) (ptr_add T 0 0) = none := by
    unfold move_from slot
    simp
  rw [relocate_move, e]

/-- C8.  After a vector `A` whose member `length` is at least 1 was moved from
(by the move constructor, whose result for `A` is also that of the move
assignment), `A.size()` is 0, but `move` has reset the four pointers only and
not `length`, `storage` and `front_storage`: a following `push_back(v)` (either
overload) takes the growth path and moves `length` elements out of the null
pointer `dbegin`, which is undefined behaviour; it returns in no case, the only
other outcome being `std::bad_alloc`. -/
theorem C8_push_back_after_move_reads_null (raw A : vector T) (a : Nat) (x : T)
    (hl : 1 ≤ A.length) :
    (vector.move_constructor raw A).2 = (vector.move raw A).2 ∧
    (vector.move_constructor raw A).2.size = 0 ∧
    (vector.push_back a x (vector.move_constructor raw A).2 = Outcome.undefined ∨
      ∃ s, vector.push_back a x (vector.move_constructor raw A).2
        = Outcome.raised Exception.bad_alloc s) ∧
    (vector.push_back_rv a x (vector.move_constructor raw A).2 = Outcome.undefined ∨
      ∃ s, vector.push_back_rv a x (vector.move_constructor raw A).2
        = Outcome.raised Exception.bad_alloc s) := by
  obtain ⟨n, hn⟩ : ∃ n, A.length = n + 1 := ⟨A.length - 1, by omega⟩
  refine ⟨rfl, moved_from_size raw A, ?_, ?_⟩
  · unfold vector.push_back vector.move_constructor vector.move
    simp only [if_true]
    cases operator_new a (Sized.sizeof T * (A.storage * 2 % 2 ^ 64) % 2 ^ 64) with
    | none => exact Or.inr ⟨_, rfl⟩
    | some b =>
      left
      simp only [hn, relocate_move_null]
  · unfold vector.push_back_rv vector.move_constructor vector.move
    simp only [if_true]
    cases operator_new a (Sized.sizeof T * (A.storage * 2 % 2 ^ 64) % 2 ^ 64) with
    | none => exact Or.inr ⟨_, rfl⟩
    | some b =>
      left
      simp only
      cases construct T b (raw_block T (Sized.sizeof T * (A.storage * 2 % 2 ^ 64) % 2 ^ 64))
          (ptr_add T (ptr_add T b A.front_storage) A.length) x with
      | none => rfl
      | some h2 => simp only [hn, relocate_null]

/-- C8 at the failing input: `sample_four` is moved into a new vector, then
`push_back(9)` is called on it. -/
theorem C8_push_back_after_move_reads_null_witness :
    1 ≤ sample_four.length ∧
    (vector.move_constructor sample_empty sample_four).2 = moved_from_four ∧
    moved_from_four.size = 0 ∧
    vector.push_back 8192 (9 : Int) moved_from_four = Outcome.undefined ∧
    vector.push_back_rv 8192 9 moved_from_four = Outcome.undefined :=
  ⟨by decide, by decide,
    (C8_push_back_after_move_reads_null sample_empty sample_four 8192 9 (by decide)).2.1,
    by decide, by decide⟩

/-! ## C9: a move does not touch the counters of its source -/

/-- C9.  When a vector `A` is moved from, by the move constructor or by a move
assignment into another vector `D` that completes, the `vector_version++` of
`move` counts on the target: `vector_version` and `reallocate_times` of `A` are
what they were, a cursor that carries the `vector_version` of `A` passes
`check_exception()`, and dereferencing it throws nothing and returns its
pointer into the block that `A` no longer owns. -/
theorem C9_move_keeps_source_version (raw D A D1 A1 : vector T) (c : iterator T)
    (hc : c.iterator_version = A.vector_version)
    (hassign : vector.operator_assign_rv D (some A) = Outcome.done (D1, A1)) :
    ((vector.move_constructor raw A).2.vector_version = A.vector_version ∧
      (vector.move_constructor raw A).2.reallocate_times = A.reallocate_times ∧
      iterator.check_exception (vector.move_constructor raw A).2 c = Except.ok () ∧
      iterator.operator_star (vector.move_constructor raw A).2 c = Except.ok c.ptr) ∧
    (A1.vector_version = A.vector_version ∧
      A1.reallocate_times = A.reallocate_times ∧
      iterator.check_exception A1 c = Except.ok () ∧
      iterator.operator_star A1 c = Except.ok c.ptr) := by
  have key : ∀ B : vector T, B.vector_version = A.vector_version →
      iterator.check_exception B c = Except.ok () ∧
      iterator.operator_star B c = Except.ok c.ptr := by
    intro B hB
    have hf := check_fresh B c (by rw [hc, hB])
    refine ⟨hf, ?_⟩
    unfold iterator.operator_star
    rw [hf]
  constructor
  · exact ⟨rfl, rfl, key _ rfl⟩
  · unfold vector.operator_assign_rv at hassign
    simp only at hassign
    cases hd : D.destroy with
    | none => rw [hd] at hassign; cases hassign
    | some s1 =>
      rw [hd] at hassign
      simp only [Outcome.done.injEq, Prod.mk.injEq] at hassign
      obtain ⟨_, h2⟩ := hassign
      subst h2
      exact ⟨rfl, rfl, key _ rfl⟩

/-- C9 at the failing input: `sample_four` is move-assigned to `sample_empty`;
the cursor `begin()` of `sample_four`, taken before, still dereferences. -/
theorem C9_move_keeps_source_version_witness :
    (sample_four.begin_.iterator_version = sample_four.vector_version ∧
      vector.operator_assign_rv sample_empty (some sample_four)
        = Outcome.done (moved_into_empty, moved_from_four)) ∧
    moved_from_four.vector_version = sample_four.vector_version ∧
    iterator.check_exception moved_from_four sample_four.begin_ = Except.ok () ∧
    iterator.operator_star moved_from_four sample_four.begin_ = Except.ok 4096 :=
  ⟨⟨by decide, by decide⟩,
    (C9_move_keeps_source_version sample_empty sample_empty sample_four moved_into_empty
      moved_from_four sample_four.begin_ (by decide) (by decide)).2.1,
    (C9_move_keeps_source_version sample_empty sample_empty sample_four moved_into_empty
      moved_from_four sample_four.begin_ (by decide) (by decide)).2.2.2⟩

/-! ## The copy of a vector -/

/-- The member `copy` of a source that satisfies the invariant, into a block
the allocator grants: the target gets the layout of the source and, in the
live range, its elements; its two counters are not touched. -/
theorem vector.Inv.copy_done {t : vector T} (ht : vector.Inv t) (s : vector T) (a : Nat)
    (ha : 0 < a) (hfit : a + t.storage * Sized.sizeof T < 2 ^ 64) :
    ∃ heap1 : List (Option T),
      vector.copy a s t = Outcome.done
        { dbegin := a + t.front_storage * Sized.sizeof T
          dend := a + t.front_storage * Sized.sizeof T + t.length * Sized.sizeof T
          sbegin := a
          send := a + t.storage * Sized.sizeof T
          length := t.length
          storage := t.storage
          front_storage := t.front_storage
          reallocate_times := s.reallocate_times
          vector_version := s.vector_version
          heap := heap1 } ∧
      heap1.length = t.storage ∧
      ∀ j, heap1[j]? =
        if t.front_storage ≤ j ∧ j < t.front_storage + t.length then t.heap[j]?
        else if j < t.storage then some none else none := by
  have hs := Sized.sizeof_pos (T := T)
  have h1 := ht.bytes
  have h2 := ht.h_bytes
  have h3 := ht.h_top
  have h4 := ht.h_send
  have h5 := ht.h_dbegin
  have h6 := ht.h_dend
  have h7 := ht.h_le
  have h8 := ht.h_heap
  have a5 := Nat.add_mul t.front_storage t.length (Sized.sizeof T)
  have hcomm : Sized.sizeof T * t.storage = t.storage * Sized.sizeof T := Nat.mul_comm _ _
  have eb : Sized.sizeof T * t.storage % 2 ^ 64 = t.storage * Sized.sizeof T := by
    rw [hcomm]; exact Nat.mod_eq_of_lt (by omega)
  have en : operator_new a (t.storage * Sized.sizeof T) = some a := by
    unfold operator_new
    rw [if_pos ⟨ha, h2, hfit⟩]
  have er : raw_block T (t.storage * Sized.sizeof T) = List.replicate t.storage none := by
    unfold raw_block
    rw [Nat.mul_div_cancel _ hs]
  have e1 : ptr_add T a t.storage = a + t.storage * Sized.sizeof T := ptr_add_eq _ _ hfit
  have e2 : ptr_add T a t.front_storage = a + t.front_storage * Sized.sizeof T :=
    ptr_add_eq _ _ (by omega)
  have e3 : ptr_add T (a + t.front_storage * Sized.sizeof T) t.length
      = a + t.front_storage * Sized.sizeof T + t.length * Sized.sizeof T :=
    ptr_add_eq _ _ (by omega)
  obtain ⟨heap1, r1, r2, r3⟩ := relocate_spec (T := T) t.sbegin t.heap t.front_storage a
    t.front_storage t.length (fun i hi => ht.h_live i hi) (by omega) (by omega) (by omega)
    t.length 0 (List.replicate t.storage none) (by omega)
    (by rw [List.length_replicate]; omega)
  rw [← h5] at r1
  refine ⟨heap1, ?_, ?_, ?_⟩
  · unfold vector.copy
    simp only [eb, en, er, e1, e2, e3, r1]
  · rw [r2, List.length_replicate]
  · intro j
    rw [r3 j, List.getElem?_replicate]
    by_cases hj2 : t.front_storage ≤ j ∧ j < t.front_storage + t.length
    · have c : t.front_storage + 0 ≤ j ∧ j < t.front_storage + 0 + t.length := by omega
      have c2 : t.front_storage + (j - t.front_storage) = j := by omega
      simp only [hj2, c, c2, if_true, and_self]
    · have c : ¬ (t.front_storage + 0 ≤ j ∧ j < t.front_storage + 0 + t.length) := by omega
      simp only [hj2, c, if_false]

/-! ## C10: an assignment bumps both counters -/

theorem assign_self_times_spec (a : Nat) (k : Nat) :
    ∀ (v : vector T), v.reallocate_times < 2 ^ 64 → v.vector_version < 2 ^ 64 →
      assign_self_times a k v = Outcome.done
        { v with
          reallocate_times := (v.reallocate_times + k) % 2 ^ 64
          vector_version := (v.vector_version + k) % 2 ^ 64 } := by
  induction k with
  | zero =>
    intro v h1 h2
    rw [assign_self_times]
    simp only [Nat.add_zero, Nat.mod_eq_of_lt h1, Nat.mod_eq_of_lt h2]
  | succ k ih =>
    intro v h1 h2
    have e : vector.operator_assign a v none = Outcome.done
        { v with
          reallocate_times := (v.reallocate_times + 1) % 2 ^ 64
          vector_version := (v.vector_version + 1) % 2 ^ 64 } := rfl
    rw [assign_self_times, e]
    simp only
    rw [ih _ (Nat.mod_lt _ (by norm_num)) (Nat.mod_lt _ (by norm_num))]
    have e1 : ((v.reallocate_times + 1) % 2 ^ 64 + k) % 2 ^ 64
        = (v.reallocate_times + (k + 1)) % 2 ^ 64 := by omega
    have e2 : ((v.vector_version + 1) % 2 ^ 64 + k) % 2 ^ 64
        = (v.vector_version + (k + 1)) % 2 ^ 64 := by omega
    simp only [e1, e2]

/-- C10 as stated fails: `2 ^ 64 - 1` self-assignments take `sample_four` to
`sample_four_max`, whose `reallocate_times` is `2 ^ 64 - 1`; one more
self-assignment wraps it around to 0, which is not larger than before. -/
theorem C10_counterexample :
    assign_self_times 0 (2 ^ 64 - 1) sample_four = Outcome.done sample_four_max ∧
    vector.operator_assign 0 sample_four_max none = Outcome.done sample_four ∧
    sample_four_max.reallocate_times = 2 ^ 64 - 1 ∧
    sample_four.reallocate_times = 0 ∧
    ¬ (sample_four_max.reallocate_times < sample_four.reallocate_times) := by
  refine ⟨?_, by decide, by decide, by decide, by decide⟩
  rw [assign_self_times_spec 0 (2 ^ 64 - 1) sample_four (by decide) (by decide)]
  have e : ({ sample_four with
      reallocate_times := (sample_four.reallocate_times + (2 ^ 64 - 1)) % 2 ^ 64
      vector_version := (sample_four.vector_version + (2 ^ 64 - 1)) % 2 ^ 64 } : vector Int)
      = sample_four_max := by decide
  rw [e]

/-- C10, amended.  Take a vector `D` that satisfies the invariant and a cursor
that carries the two counters of `D`.  A copy assignment into `D`, from `D`
itself or from a source that satisfies the invariant and for whose copy the
allocator grants a block, and a move assignment into `D`, from `D` itself or
from any source, complete and leave `reallocate_times` incremented by one and
`vector_version` incremented by one (by two after a move assignment from
another vector), both modulo `2 ^ 64`; both differ from their values before,
and every checked access on the cursor throws `invalid_iterator` with level
MODERATE. -/
theorem C10_assignment_gives_moderate (a : Nat) (D : vector T) (src : Option (vector T))
    (c : iterator T) (acc : Access T) (hD : vector.Inv D)
    (hc1 : c.iterator_version = D.vector_version)
    (hc2 : c.record_reallocate_times = D.reallocate_times) :
    ((∀ t, src = some t → vector.Inv t ∧ 0 < a ∧ a + t.storage * Sized.sizeof T < 2 ^ 64) →
      ∃ D1, vector.operator_assign a D src = Outcome.done D1 ∧
        D1.reallocate_times = (D.reallocate_times + 1) % 2 ^ 64 ∧
        D1.vector_version = (D.vector_version + 1) % 2 ^ 64 ∧
        D1.reallocate_times ≠ D.reallocate_times ∧ D1.vector_version ≠ D.vector_version ∧
        acc.thrown D1 c = some (InvalidCursor SeverityLevel.MODERATE)) ∧
    (∃ D1 A1, vector.operator_assign_rv D src = Outcome.done (D1, A1) ∧
        D1.reallocate_times = (D.reallocate_times + 1) % 2 ^ 64 ∧
        D1.vector_version = (D.vector_version + (if src.isNone = true then 1 else 2)) % 2 ^ 64 ∧
        D1.reallocate_times ≠ D.reallocate_times ∧ D1.vector_version ≠ D.vector_version ∧
        acc.thrown D1 c = some (InvalidCursor SeverityLevel.MODERATE)) := by
  have hre := hD.h_realloc
  have hver := hD.h_version
  have fin : ∀ (D1 : vector T) (n : Nat), (n = 1 ∨ n = 2) →
      D1.reallocate_times = (D.reallocate_times + 1) % 2 ^ 64 →
      D1.vector_version = (D.vector_version + n) % 2 ^ 64 →
      D1.reallocate_times ≠ D.reallocate_times ∧ D1.vector_version ≠ D.vector_version ∧
      acc.thrown D1 c = some (InvalidCursor SeverityLevel.MODERATE) := by
    intro D1 n hn e1 e2
    have n1 : D1.reallocate_times ≠ D.reallocate_times := by rw [e1]; omega
    have n2 : D1.vector_version ≠ D.vector_version := by
      rw [e2]; rcases hn with hn | hn <;> rw [hn] <;> omega
    refine ⟨n1, n2, ?_⟩
    rw [Access.thrown_eq, check_moderate D1 c (by rw [hc1]; exact fun e => n2 e.symm)
      (by rw [hc2]; exact fun e => n1 e.symm)]
    rfl
  constructor
  · intro hsrc
    have e3 : ∃ D1, vector.operator_assign a D src = Outcome.done D1 ∧
        D1.reallocate_times = (D.reallocate_times + 1) % 2 ^ 64 ∧
        D1.vector_version = (D.vector_version + 1) % 2 ^ 64 := by
      cases src with
      | none => exact ⟨_, rfl, rfl, rfl⟩
      | some t =>
        obtain ⟨ht, ha, hfit⟩ := hsrc t rfl
        obtain ⟨heap1, e, _, _⟩ := ht.copy_done { D with heap := [] } a ha hfit
        unfold vector.operator_assign
        simp only [hD.destroy_some, e]
        exact ⟨_, rfl, rfl, rfl⟩
    obtain ⟨D1, e, r1, r2⟩ := e3
    exact ⟨D1, e, r1, r2, fin D1 1 (Or.inl rfl) r1 r2⟩
  · have e3 : ∃ D1 A1, vector.operator_assign_rv D src = Outcome.done (D1, A1) ∧
        D1.reallocate_times = (D.reallocate_times + 1) % 2 ^ 64 ∧
        D1.vector_version
          = (D.vector_version + (if src.isNone = true then 1 else 2)) % 2 ^ 64 := by
      cases src with
      | none => exact ⟨_, _, rfl, rfl, rfl⟩
      | some t =>
        have e2 : ((D.vector_version + 1) % 2 ^ 64 + 1) % 2 ^ 64
            = (D.vector_version + 2) % 2 ^ 64 := by omega
        unfold vector.operator_assign_rv
        simp only [hD.destroy_some]
        refine ⟨_, _, rfl, rfl, ?_⟩
        simp only [vector.move, e2]
        rfl
    obtain ⟨D1, A1, e, r1, r2⟩ := e3
    refine ⟨D1, A1, e, r1, r2, fin D1 (if src.isNone = true then 1 else 2) ?_ r1 r2⟩
    cases src with
    | none => exact Or.inl rfl
    | some t => exact Or.inr rfl

/-- C10 on `vector<int>`: `sample_four` is copy-assigned to `sample_empty` into a
block at address 8192; the cursor `begin()` of `sample_empty`, taken before,
throws MODERATE when dereferenced. -/
theorem C10_assignment_gives_moderate_witness :
    (vector.Inv sample_empty ∧
      sample_empty.begin_.iterator_version = sample_empty.vector_version ∧
      sample_empty.begin_.record_reallocate_times = sample_empty.reallocate_times ∧
      vector.Inv sample_four ∧ 0 < 8192 ∧
      8192 + sample_four.storage * Sized.sizeof Int < 2 ^ 64) ∧
    vector.operator_assign 8192 sample_empty (some sample_four)
      = Outcome.done copied_into_empty ∧
    vector.operator_assign_rv sample_empty (some sample_four)
      = Outcome.done (moved_into_empty, moved_from_four) ∧
    (Access.star : Access Int).thrown copied_into_empty sample_empty.begin_
      = some (InvalidCursor SeverityLevel.MODERATE) ∧
    (Access.star : Access Int).thrown moved_into_empty sample_empty.begin_
      = some (InvalidCursor SeverityLevel.MODERATE) := by
  have h := C10_assignment_gives_moderate 8192 sample_empty (some sample_four)
    sample_empty.begin_ Access.star sample_empty_inv (by decide) (by decide)
  obtain ⟨D1, e1, _, _, _, _, t1⟩ := h.1 (by
    intro t ht
    cases ht
    exact ⟨sample_four_inv, by decide, by decide⟩)
  obtain ⟨D2, A2, e2, _, _, _, _, t2⟩ := h.2
  have d1 : vector.operator_assign 8192 sample_empty (some sample_four)
      = Outcome.done copied_into_empty := by decide
  have d2 : vector.operator_assign_rv sample_empty (some sample_four)
      = Outcome.done (moved_into_empty, moved_from_four) := by decide
  rw [d1] at e1
  rw [d2] at e2
  cases e1
  cases e2
  exact ⟨⟨sample_empty_inv, by decide, by decide, sample_four_inv, by decide, by decide⟩,
    d1, d2, t1, t2⟩

/-! ## C16: the growth of `push_back` -/

/-- C16, as the code has it.  On a vector that satisfies the invariant (so its
capacity `C` is at least 1) with no spare slot at the back
(`front_storage + length == storage`), `push_back`, with the allocator granting
the new block, returns and leaves capacity `2 * C`, the same `front_storage`,
`length + 1` and `C - 1` spare slots at the back.  For an argument `x` that is
an object outside the vector, in either overload, the elements are the old ones
in their old order followed by `x`.  For `v.push_back(v[k])`, whose argument is
an element of the vector, `push_back(const T&)` moves the old elements to the
new block before it copies its argument (line 203; the copy before the loop,
line 197, is commented out), so the elements are the old ones followed by what
the move constructor has left of element `k`, not by element `k`. -/
theorem C16_push_back_growth_copies_argument_late (v : vector T) (a : Nat) (x : T)
    (hv : vector.Inv v)
    (hfull : v.front_storage + v.length = v.storage)
    (hnew : 0 < a ∧ v.storage * 2 * Sized.sizeof T ≤ PTRDIFF_MAX ∧
      a + v.storage * 2 * Sized.sizeof T < 2 ^ 64) :
    (∃ v1, vector.push_back a x v = Outcome.done v1 ∧
      v1.storage = 2 * v.storage ∧ v1.front_storage = v.front_storage ∧
      v1.length = v.length + 1 ∧ v1.size = v.size + 1 ∧
      v1.elements = v.elements ++ [some x] ∧ v1.back_spare = v.storage - 1) ∧
    (∃ v1, vector.push_back_rv a x v = Outcome.done v1 ∧
      v1.storage = 2 * v.storage ∧ v1.front_storage = v.front_storage ∧
      v1.length = v.length + 1 ∧ v1.size = v.size + 1 ∧
      v1.elements = v.elements ++ [some x] ∧ v1.back_spare = v.storage - 1) ∧
    (∀ k p, k < v.size → vector.operator_index v k = Except.ok p →
      ∃ v1 y, vector.push_back a (Ref.element p) v = Outcome.done v1 ∧
        v.at_index k = some y ∧
        v1.storage = 2 * v.storage ∧ v1.front_storage = v.front_storage ∧
        v1.length = v.length + 1 ∧ v1.size = v.size + 1 ∧
        v1.elements = v.elements ++ [some (Sized.moved y)] ∧
        v1.back_spare = v.storage - 1) := by
  have h : v.send = v.dend := hv.send_eq_dend_iff.mpr hfull
  have hcap := hv.h_cap
  refine ⟨?_, ?_, ?_⟩
  · obtain ⟨heap3, e, hlen, hpt⟩ := hv.push_back_grow h a x hnew.1 hnew.2.1 hnew.2.2
    obtain ⟨i1, i2⟩ := hv.push_back_grow_state h a x hnew.2.1 hnew.2.2 heap3 hlen hpt
    refine ⟨_, e, Nat.mul_comm _ _, rfl, rfl, ?_, ?_, ?_⟩
    · rw [i1.size_eq, hv.size_eq]
    · rw [i1.elements_eq_live, i2, hv.elements_eq_live]
    · simp only [vector.back_spare]
      omega
  · obtain ⟨heap3, e, hlen, hpt⟩ := hv.push_back_rv_grow h a x hnew.1 hnew.2.1 hnew.2.2
    obtain ⟨i1, i2⟩ := hv.push_back_grow_state h a x hnew.2.1 hnew.2.2 heap3 hlen hpt
    refine ⟨_, e, Nat.mul_comm _ _, rfl, rfl, ?_, ?_, ?_⟩
    · rw [i1.size_eq, hv.size_eq]
    · rw [i1.elements_eq_live, i2, hv.elements_eq_live]
    · simp only [vector.back_spare]
      omega
  · intro k p hk hp
    exact hv.push_back_alias_spec hfull a k p hnew hk hp

/-- C16 on the full `vector<std::string>` `sample_texts_full` of capacity 8,
which holds "a", ..., "h": `v.push_back(v[0])` into a new block at address 8192
appends the empty string, not "a". -/
theorem C16_push_back_growth_copies_argument_late_witness :
    (vector.Inv sample_texts_full ∧
      sample_texts_full.front_storage + sample_texts_full.length
        = sample_texts_full.storage ∧
      0 < 8192 ∧ sample_texts_full.storage * 2 * Sized.sizeof Text ≤ PTRDIFF_MAX ∧
      8192 + sample_texts_full.storage * 2 * Sized.sizeof Text < 2 ^ 64) ∧
    vector.operator_index sample_texts_full 0 = Except.ok 4096 ∧
    sample_texts_full.at_index 0 = some (Text.mk [97]) ∧
    vector.push_back 8192 (Ref.element 4096) sample_texts_full
      = Outcome.done sample_texts_nine ∧
    sample_texts_nine.storage = 2 * sample_texts_full.storage ∧
    sample_texts_nine.elements = sample_texts_full.elements ++ [some (Text.mk [])] ∧
    sample_texts_nine.elements ≠ sample_texts_full.elements ++ [some (Text.mk [97])] := by
  obtain ⟨v1, y, e1, hy, h1, _, _, _, he, _⟩ :=
    (C16_push_back_growth_copies_argument_late sample_texts_full 8192 (Text.mk [])
      (by decide) (by decide) ⟨by decide, by decide, by decide⟩).2.2 0 4096 (by decide) rfl
  have d2 : vector.push_back 8192 (Ref.element 4096) sample_texts_full
      = Outcome.done sample_texts_nine := by decide
  have d3 : sample_texts_full.at_index 0 = some (Text.mk [97]) := by decide
  rw [d2] at e1
  cases e1
  rw [d3] at hy
  cases hy
  exact ⟨⟨by decide, by decide, by decide, by decide, by decide⟩, rfl, d3, d2, h1, he,
    by decide⟩

/-! ## C17: the growth of `push_front` -/

/-- C17.  On a vector that satisfies the invariant (so its capacity `C` is at
least 1) with no spare slot at the front (`front_storage == 0`),
`push_front(x)`, in either overload and with the allocator granting the new
block, returns and leaves capacity `2 * C`, `front_storage == C - 1`,
`length + 1`, `x` followed by the old elements in their old order, and as many
spare slots at the back as before the call. -/
theorem C17_push_front_growth (v : vector T) (a : Nat) (x : T) (hv : vector.Inv v)
    (hfront : v.front_storage = 0)
    (hnew : 0 < a ∧ v.storage * 2 * Sized.sizeof T ≤ PTRDIFF_MAX ∧
      a + v.storage * 2 * Sized.sizeof T < 2 ^ 64) :
    (∃ v1, vector.push_front a x v = Outcome.done v1 ∧
      v1.storage = 2 * v.storage ∧ v1.front_storage = v.storage - 1 ∧
      v1.length = v.length + 1 ∧ v1.size = v.size + 1 ∧
      v1.elements = some x :: v.elements ∧ v1.back_spare = v.back_spare) ∧
    (∃ v1, vector.push_front_rv a x v = Outcome.done v1 ∧
      v1.storage = 2 * v.storage ∧ v1.front_storage = v.storage - 1 ∧
      v1.length = v.length + 1 ∧ v1.size = v.size + 1 ∧
      v1.elements = some x :: v.elements ∧ v1.back_spare = v.back_spare) := by
  have h : v.sbegin = v.dbegin := hv.sbegin_eq_dbegin_iff.mpr hfront
  have hcap := hv.h_cap
  have hle := hv.h_le
  obtain ⟨heap3, e, hlen, hpt⟩ := hv.push_front_grow h a x hnew.1 hnew.2.1 hnew.2.2
  obtain ⟨i1, i2⟩ := hv.push_front_grow_state a x hnew.2.1 hnew.2.2 heap3 hlen hpt
  have key : ∃ v1, vector.push_front a x v = Outcome.done v1 ∧
      v1.storage = 2 * v.storage ∧ v1.front_storage = v.storage - 1 ∧
      v1.length = v.length + 1 ∧ v1.size = v.size + 1 ∧
      v1.elements = some x :: v.elements ∧ v1.back_spare = v.back_spare := by
    refine ⟨_, e, Nat.mul_comm _ _, ?_, rfl, ?_, ?_, ?_⟩
    · simp only [hfront, Nat.zero_add]
    · rw [i1.size_eq, hv.size_eq]
    · rw [i1.elements_eq_live, i2, hv.elements_eq_live]
    · simp only [vector.back_spare]
      omega
  exact ⟨key, key⟩

/-- C17 on a `vector<int>` holding four elements at the front of its block of
capacity 8: `push_front(5)` into a new block at address 8192. -/
theorem C17_push_front_growth_witness :
    (vector.Inv sample_four ∧ sample_four.front_storage = 0 ∧
      0 < 8192 ∧ sample_four.storage * 2 * Sized.sizeof Int ≤ PTRDIFF_MAX ∧
      8192 + sample_four.storage * 2 * Sized.sizeof Int < 2 ^ 64) ∧
    ∃ v1, vector.push_front 8192 5 sample_four = Outcome.done v1 ∧
      v1.storage = 2 * sample_four.storage ∧ v1.front_storage = sample_four.storage - 1 ∧
      v1.length = sample_four.length + 1 ∧ v1.size = sample_four.size + 1 ∧
      v1.elements = some 5 :: sample_four.elements ∧
      v1.back_spare = sample_four.back_spare :=
  ⟨⟨by decide, by decide, by decide, by decide, by decide⟩,
    (C17_push_front_growth sample_four 8192 5 (by decide) (by decide)
      ⟨by decide, by decide, by decide⟩).1⟩

/-! ## What one call changes -/

/-- The effect of a `push_back(const T&)` that returns. -/
theorem push_back_effect (v v1 : vector T) (a : Nat) (x : T) (hv : vector.Inv v)
    (e : vector.push_back a x v = Outcome.done v1) :
    vector.Inv v1 ∧ v1.length = v.length + 1 ∧ v1.front_storage = v.front_storage ∧
    v1.live = v.live ++ [some x] ∧
    (v.front_storage + v.length = v.storage →
      v1.storage = 2 * v.storage ∧ v1.reallocate_times = (v.reallocate_times + 1) % 2 ^ 64) ∧
    (v.front_storage + v.length ≠ v.storage →
      v1.storage = v.storage ∧ v1.reallocate_times = v.reallocate_times) := by
  by_cases h : v.send = v.dend
  · have hfull := hv.send_eq_dend_iff.mp h
    by_cases hg : 0 < a ∧ v.storage * 2 * Sized.sizeof T ≤ PTRDIFF_MAX ∧
        a + v.storage * 2 * Sized.sizeof T < 2 ^ 64
    · obtain ⟨heap3, e2, hlen, hpt⟩ := hv.push_back_grow h a x hg.1 hg.2.1 hg.2.2
      obtain ⟨i1, i2⟩ := hv.push_back_grow_state h a x hg.2.1 hg.2.2 heap3 hlen hpt
      rw [e2] at e
      cases e
      exact ⟨i1, rfl, rfl, i2, fun _ => ⟨Nat.mul_comm _ _, rfl⟩, fun hne => absurd hfull hne⟩
    · rw [hv.push_back_bad_alloc h a x hg] at e
      cases e
  · have hne : v.front_storage + v.length ≠ v.storage :=
      fun hfull => h (hv.send_eq_dend_iff.mpr hfull)
    rw [hv.push_back_spare h a x] at e
    cases e
    exact ⟨hv.push_back_spare_inv h x, rfl, rfl, hv.push_back_spare_live h x,
      fun hfull => absurd hfull hne, fun _ => ⟨rfl, rfl⟩⟩

/-- The effect of a `push_back(T&&)` that returns. -/
theorem push_back_rv_effect (v v1 : vector T) (a : Nat) (x : T) (hv : vector.Inv v)
    (e : vector.push_back_rv a x v = Outcome.done v1) :
    vector.Inv v1 ∧ v1.length = v.length + 1 ∧ v1.front_storage = v.front_storage ∧
    v1.live = v.live ++ [some x] ∧
    (v.front_storage + v.length = v.storage →
      v1.storage = 2 * v.storage ∧ v1.reallocate_times = (v.reallocate_times + 1) % 2 ^ 64) ∧
    (v.front_storage + v.length ≠ v.storage →
      v1.storage = v.storage ∧ v1.reallocate_times = v.reallocate_times) := by
  by_cases h : v.send = v.dend
  · have hfull := hv.send_eq_dend_iff.mp h
    by_cases hg : 0 < a ∧ v.storage * 2 * Sized.sizeof T ≤ PTRDIFF_MAX ∧
        a + v.storage * 2 * Sized.sizeof T < 2 ^ 64
    · obtain ⟨heap3, e2, hlen, hpt⟩ := hv.push_back_rv_grow h a x hg.1 hg.2.1 hg.2.2
      obtain ⟨i1, i2⟩ := hv.push_back_grow_state h a x hg.2.1 hg.2.2 heap3 hlen hpt
      rw [e2] at e
      cases e
      exact ⟨i1, rfl, rfl, i2, fun _ => ⟨Nat.mul_comm _ _, rfl⟩, fun hne => absurd hfull hne⟩
    · rw [hv.push_back_rv_bad_alloc h a x hg] at e
      cases e
  · have hne : v.front_storage + v.length ≠ v.storage :=
      fun hfull => h (hv.send_eq_dend_iff.mpr hfull)
    rw [hv.push_back_rv_spare h a x] at e
    cases e
    exact ⟨hv.push_back_spare_inv h x, rfl, rfl, hv.push_back_spare_live h x,
      fun hfull => absurd hfull hne, fun _ => ⟨rfl, rfl⟩⟩

/-- The effect of a `push_front` that returns. -/
theorem push_front_effect (v v1 : vector T) (a : Nat) (x : T) (hv : vector.Inv v)
    (e : vector.push_front a x v = Outcome.done v1) :
    vector.Inv v1 ∧ v1.length = v.length + 1 ∧ v1.live = some x :: v.live ∧
    (v.front_storage = 0 →
      v1.storage = 2 * v.storage ∧ v1.reallocate_times = (v.reallocate_times + 1) % 2 ^ 64 ∧
      v1.front_storage = v.storage - 1) ∧
    (v.front_storage ≠ 0 →
      v1.storage = v.storage ∧ v1.reallocate_times = v.reallocate_times ∧
      v1.front_storage + 1 = v.front_storage) := by
  by_cases h : v.sbegin = v.dbegin
  · have hfront := hv.sbegin_eq_dbegin_iff.mp h
    by_cases hg : 0 < a ∧ v.storage * 2 * Sized.sizeof T ≤ PTRDIFF_MAX ∧
        a + v.storage * 2 * Sized.sizeof T < 2 ^ 64
    · obtain ⟨heap3, e2, hlen, hpt⟩ := hv.push_front_grow h a x hg.1 hg.2.1 hg.2.2
      obtain ⟨i1, i2⟩ := hv.push_front_grow_state a x hg.2.1 hg.2.2 heap3 hlen hpt
      rw [e2] at e
      cases e
      exact ⟨i1, rfl, i2,
        fun _ => ⟨Nat.mul_comm _ _, rfl, by simp only [hfront, Nat.zero_add]⟩,
        fun hne => absurd hfront hne⟩
    · rw [hv.push_front_bad_alloc h a x hg] at e
      cases e
  · have hne : v.front_storage ≠ 0 := fun h0 => h (hv.sbegin_eq_dbegin_iff.mpr h0)
    rw [hv.push_front_spare h a x] at e
    cases e
    exact ⟨hv.push_front_spare_inv h x, rfl, hv.push_front_spare_live h x,
      fun h0 => absurd h0 hne, fun _ => ⟨rfl, rfl, by simp only; omega⟩⟩

/-- The effect of a `pop_back` on a vector that is not empty. -/
theorem pop_back_effect (v : vector T) (hv : vector.Inv v) (hl : 1 ≤ v.length) :
    ∃ v1, vector.pop_back v = Outcome.done v1 ∧ vector.Inv v1 ∧
      v1.storage = v.storage ∧ v1.reallocate_times = v.reallocate_times ∧
      v1.length + 1 = v.length ∧ v1.vector_version = (v.vector_version + 1) % 2 ^ 64 ∧
      v1.front_storage = v.front_storage ∧ v1.live = v.live.dropLast := by
  have h : v.dbegin ≠ v.dend := fun e => by
    have := hv.dbegin_eq_dend_iff.mp e
    omega
  exact ⟨_, hv.pop_back_some h, hv.pop_back_inv h, rfl, rfl, by simp only; omega, rfl, rfl,
    hv.pop_back_live⟩

/-- The effect of a `pop_front` on a vector that is not empty. -/
theorem pop_front_effect (v : vector T) (hv : vector.Inv v) (hl : 1 ≤ v.length) :
    ∃ v1, vector.pop_front v = Outcome.done v1 ∧ vector.Inv v1 ∧
      v1.storage = v.storage ∧ v1.reallocate_times = v.reallocate_times ∧
      v1.length + 1 = v.length ∧ v1.vector_version = (v.vector_version + 1) % 2 ^ 64 ∧
      v1.front_storage = v.front_storage + 1 ∧ v1.live = v.live.tail := by
  have h : v.dbegin ≠ v.dend := fun e => by
    have := hv.dbegin_eq_dend_iff.mp e
    omega
  exact ⟨_, hv.pop_front_some h, hv.pop_front_inv h, rfl, rfl, by simp only; omega, rfl, rfl,
    hv.pop_front_live h⟩

/-! ## C19: what a pop changes -/

theorem run_of_run_ok (ops : List (Op T)) :
    ∀ (v v1 : vector T), run_ok ops v = some v1 → run ops v = Outcome.done v1 := by
  induction ops with
  | nil =>
    intro v v1 h
    rw [run_ok] at h
    cases h
    rfl
  | cons op ops ih =>
    intro v v1 h
    obtain ⟨v2, e, h2⟩ := run_ok_cons_some op ops v v1 h
    rw [run, e]
    exact ih v2 v1 h2

/-- The `2 ^ 64 - 1` calls of `wrap_then_push` take a default-constructed
`vector<int>` to `sample_one_max`. -/
theorem wrap_then_push_run :
    vector.vector_void Int 4096 = some sample_empty ∧
    wrap_then_push.length = 2 ^ 64 - 1 ∧
    run wrap_then_push sample_empty = Outcome.done sample_one_max := by
  obtain ⟨c1, _⟩ := cycle_many 0 (7 : Int) (2 ^ 63 - 1) sample_empty sample_empty_inv
    (by decide) (by decide)
  have e2 : run_ok [Op.push_back 0 7]
      ({ sample_empty with
        vector_version := (sample_empty.vector_version + 2 * (2 ^ 63 - 1)) % 2 ^ 64 }
        : vector Int) = some sample_one_max := by decide
  refine ⟨by decide, ?_, ?_⟩
  · unfold wrap_then_push
    rw [List.length_append, cycles_length]
    decide
  · apply run_of_run_ok
    unfold wrap_then_push
    rw [run_ok_append _ _ _ _ c1]
    exact e2

/-- C19 as stated fails: the `2 ^ 64 - 1` calls of `wrap_then_push` take a
default-constructed `vector<int>` to `sample_one_max`, of length 1, whose
`vector_version` is `2 ^ 64 - 1`; its `pop_back()` returns and leaves
`vector_version == 0`, which is not the old value plus one. -/
theorem C19_counterexample :
    run wrap_then_push sample_empty = Outcome.done sample_one_max ∧
    1 ≤ sample_one_max.length ∧
    vector.pop_back sample_one_max = Outcome.done sample_none_wrapped ∧
    sample_one_max.vector_version = 2 ^ 64 - 1 ∧
    sample_none_wrapped.vector_version = 0 ∧
    sample_none_wrapped.vector_version ≠ sample_one_max.vector_version + 1 :=
  ⟨wrap_then_push_run.2.2, by decide, by decide, by decide, by decide, by decide⟩

/-- C19, amended.  On a vector of length at least 1 that satisfies the
invariant, `pop_back()` and `pop_front()` return and leave `storage` and
`reallocate_times` unchanged, the length one less and `vector_version`
incremented by one modulo `2 ^ 64`; `pop_back()` leaves `front_storage`
unchanged and removes the last element, `pop_front()` adds one to
`front_storage` and removes the first element, and the other elements keep
their order. -/
theorem C19_pop_effects (v : vector T) (hv : vector.Inv v) (hl : 1 ≤ v.length) :
    (∃ v1, vector.pop_back v = Outcome.done v1 ∧
      v1.storage = v.storage ∧ v1.reallocate_times = v.reallocate_times ∧
      v1.length + 1 = v.length ∧ v1.size + 1 = v.size ∧
      v1.vector_version = (v.vector_version + 1) % 2 ^ 64 ∧
      v1.front_storage = v.front_storage ∧ v1.elements = v.elements.dropLast) ∧
    (∃ v1, vector.pop_front v = Outcome.done v1 ∧
      v1.storage = v.storage ∧ v1.reallocate_times = v.reallocate_times ∧
      v1.length + 1 = v.length ∧ v1.size + 1 = v.size ∧
      v1.vector_version = (v.vector_version + 1) % 2 ^ 64 ∧
      v1.front_storage = v.front_storage + 1 ∧ v1.elements = v.elements.tail) := by
  constructor
  · obtain ⟨v1, e, i, h1, h2, h3, h4, h5, h6⟩ := pop_back_effect v hv hl
    exact ⟨v1, e, h1, h2, h3, by rw [i.size_eq, hv.size_eq]; exact h3, h4, h5,
      by rw [i.elements_eq_live, hv.elements_eq_live, h6]⟩
  · obtain ⟨v1, e, i, h1, h2, h3, h4, h5, h6⟩ := pop_front_effect v hv hl
    exact ⟨v1, e, h1, h2, h3, by rw [i.size_eq, hv.size_eq]; exact h3, h4, h5,
      by rw [i.elements_eq_live, hv.elements_eq_live, h6]⟩

/-- C19 on a `vector<int>` holding 10, 20, 30, 40: `pop_back()`. -/
theorem C19_pop_effects_witness :
    (vector.Inv sample_four ∧ 1 ≤ sample_four.length) ∧
    ∃ v1, vector.pop_back sample_four = Outcome.done v1 ∧
      v1.storage = sample_four.storage ∧
      v1.reallocate_times = sample_four.reallocate_times ∧
      v1.length + 1 = sample_four.length ∧ v1.size + 1 = sample_four.size ∧
      v1.vector_version = (sample_four.vector_version + 1) % 2 ^ 64 ∧
      v1.front_storage = sample_four.front_storage ∧
      v1.elements = sample_four.elements.dropLast :=
  ⟨⟨by decide, by decide⟩, (C19_pop_effects sample_four (by decide) (by decide)).1⟩

/-! ## Reachable vectors -/

/-- A call that raises `std::out_of_range` leaves the vector as it was. -/
theorem apply_out_of_range (op : Op T) (v v1 : vector T) (s : String) (hv : vector.Inv v)
    (h : op.apply v = Outcome.raised (Exception.out_of_range s) v1) : v1 = v := by
  obtain ⟨xs, hx⟩ := hv.exists_holds
  cases op with
  | push_back a x =>
    rcases hx.push_back a x with ⟨s, e⟩ | ⟨v2, e, h2⟩
    · rw [Op.apply, e] at h; cases h
    · rw [Op.apply, e] at h; cases h
  | push_back_rv a x =>
    rcases hx.push_back_rv a x with ⟨s, e⟩ | ⟨v2, e, h2⟩
    · rw [Op.apply, e] at h; cases h
    · rw [Op.apply, e] at h; cases h
  | push_front a x =>
    rcases hx.push_front a x with ⟨s, e⟩ | ⟨v2, e, h2⟩
    · rw [Op.apply, e] at h; cases h
    · rw [Op.apply, e] at h; cases h
  | push_front_rv a x =>
    rcases hx.push_front a x with ⟨s, e⟩ | ⟨v2, e, h2⟩
    · rw [Op.apply, vector.push_front_rv, e] at h; cases h
    · rw [Op.apply, vector.push_front_rv, e] at h; cases h
  | pop_back =>
    rcases hx.pop_back with ⟨_, e⟩ | ⟨hne, v2, e, h2⟩
    · rw [Op.apply, e] at h; cases h; rfl
    · rw [Op.apply, e] at h; cases h
  | pop_front =>
    rcases hx.pop_front with ⟨_, e⟩ | ⟨hne, v2, e, h2⟩
    · rw [Op.apply, e] at h; cases h; rfl
    · rw [Op.apply, e] at h; cases h

/-- A property that every returning call preserves holds after a run. -/
theorem run_invariant (P : vector T → Prop)
    (hstep : ∀ (op : Op T) (v v1 : vector T), vector.Inv v → P v →
      op.apply v = Outcome.done v1 → P v1) (ops : List (Op T)) :
    ∀ (v w : vector T), vector.Inv v → P v → run ops v = Outcome.done w →
      vector.Inv w ∧ P w := by
  induction ops with
  | nil =>
    intro v w hv hp h
    rw [run] at h
    cases h
    exact ⟨hv, hp⟩
  | cons op ops ih =>
    intro v w hv hp h
    rw [run] at h
    cases e : op.apply v with
    | done v1 =>
      rw [e] at h
      exact ih v1 w (apply_inv op v v1 hv e).1 (hstep op v v1 hv hp e) h
    | raised ex s =>
      rw [e] at h
      cases ex with
      | out_of_range m =>
        have := apply_out_of_range op v s m hv e
        subst this
        exact ih s w hv hp h
      | invalid_iterator l => cases h
      | bad_alloc => cases h
    | undefined =>
      rw [e] at h
      cases h

/-- What one returning call does to the capacity, the growth counter and the
generation counter. -/
theorem apply_effect (op : Op T) (v v1 : vector T) (hv : vector.Inv v)
    (h : op.apply v = Outcome.done v1) :
    v1.vector_version = (v.vector_version + 1) % 2 ^ 64 ∧
    ((v1.storage = v.storage ∧ v1.reallocate_times = v.reallocate_times) ∨
     (v1.storage = 2 * v.storage ∧
      v1.reallocate_times = (v.reallocate_times + 1) % 2 ^ 64)) := by
  refine ⟨(apply_counters op v v1 h).1, ?_⟩
  cases op with
  | push_back a x =>
    obtain ⟨_, _, _, _, h5, h6⟩ := push_back_effect v v1 a x hv h
    by_cases c : v.front_storage + v.length = v.storage
    · exact Or.inr (h5 c)
    · exact Or.inl (h6 c)
  | push_back_rv a x =>
    obtain ⟨_, _, _, _, h5, h6⟩ := push_back_rv_effect v v1 a x hv h
    by_cases c : v.front_storage + v.length = v.storage
    · exact Or.inr (h5 c)
    · exact Or.inl (h6 c)
  | push_front a x =>
    obtain ⟨_, _, _, h5, h6⟩ := push_front_effect v v1 a x hv h
    by_cases c : v.front_storage = 0
    · exact Or.inr ⟨(h5 c).1, (h5 c).2.1⟩
    · exact Or.inl ⟨(h6 c).1, (h6 c).2.1⟩
  | push_front_rv a x =>
    obtain ⟨_, _, _, h5, h6⟩ := push_front_effect v v1 a x hv h
    by_cases c : v.front_storage = 0
    · exact Or.inr ⟨(h5 c).1, (h5 c).2.1⟩
    · exact Or.inl ⟨(h6 c).1, (h6 c).2.1⟩
  | pop_back =>
    have h0 := (apply_inv Op.pop_back v v1 hv h).2.2 rfl
    obtain ⟨v2, e, _, h3, h4, _⟩ := pop_back_effect v hv (by omega)
    rw [Op.apply, e] at h
    cases h
    exact Or.inl ⟨h3, h4⟩
  | pop_front =>
    have h0 := (apply_inv Op.pop_front v v1 hv h).2.2 rfl
    obtain ⟨v2, e, _, h3, h4, _⟩ := pop_front_effect v hv (by omega)
    rw [Op.apply, e] at h
    cases h
    exact Or.inl ⟨h3, h4⟩

/-- A capacity `min_capacity * 2 ^ r` that fits in `PTRDIFF_MAX` bytes has
`r < 60`. -/
theorem growth_count_small (r s : Nat) (hs : 0 < s)
    (h : min_capacity * 2 ^ r * s ≤ PTRDIFF_MAX) : r < 60 := by
  by_contra hc
  have h1 : 2 ^ 60 ≤ 2 ^ r := Nat.pow_le_pow_right (by norm_num) (by omega)
  have h2 : min_capacity * 2 ^ r * 1 ≤ min_capacity * 2 ^ r * s :=
    Nat.mul_le_mul_left _ hs
  have h3 : min_capacity = 8 := rfl
  have h4 : PTRDIFF_MAX = 2 ^ 63 - 1 := rfl
  rw [h3] at h h2
  rw [h4] at h
  omega

/-- The capacity of a vector reachable from default construction is
`min_capacity * 2 ^ reallocate_times`, and the vector satisfies the
invariant. -/
theorem Reachable.grown {v : vector T} (h : Reachable v) :
    vector.Inv v ∧ v.storage = min_capacity * 2 ^ v.reallocate_times := by
  obtain ⟨a, v0, ops, hT, h0, hrun⟩ := h
  have hv0 := (vector.vector_void_holds a v0 hT h0).1
  have hs0 : v0.storage = min_capacity * 2 ^ v0.reallocate_times := by
    unfold vector.vector_void at h0
    cases e : operator_new a (Sized.sizeof T * min_capacity % 2 ^ 64) with
    | none => rw [e] at h0; cases h0
    | some p =>
      rw [e] at h0
      cases h0
      rfl
  refine run_invariant (fun w => w.storage = min_capacity * 2 ^ w.reallocate_times) ?_ ops
    v0 v hv0 hs0 hrun
  intro op w w1 hw hp e
  rcases (apply_effect op w w1 hw e).2 with ⟨e1, e2⟩ | ⟨e1, e2⟩
  · rw [e1, e2]; exact hp
  · have i1 := (apply_inv op w w1 hw e).1
    have hb := hw.h_bytes
    rw [hp] at hb
    have hr := growth_count_small _ _ Sized.sizeof_pos hb
    rw [e1, e2, Nat.mod_eq_of_lt (by omega), hp, Nat.pow_succ]
    ring

/-! ## C18: what a push changes -/

/-- C18 as stated fails: the `2 ^ 64 - 1` calls of `wrap_then_push` take a
default-constructed `vector<int>` to `sample_one_max`, whose `vector_version`
is `2 ^ 64 - 1`; its `push_back(8)` returns and leaves `vector_version == 0`,
which is not the old value plus one. -/
theorem C18_counterexample :
    Reachable sample_one_max ∧
    vector.push_back 0 (8 : Int) sample_one_max = Outcome.done sample_two_wrapped ∧
    sample_two_wrapped.length = sample_one_max.length + 1 ∧
    sample_one_max.vector_version = 2 ^ 64 - 1 ∧
    sample_two_wrapped.vector_version = 0 ∧
    sample_two_wrapped.vector_version ≠ sample_one_max.vector_version + 1 :=
  ⟨⟨4096, sample_empty, wrap_then_push, by decide, wrap_then_push_run.1,
      wrap_then_push_run.2.2⟩,
    by decide, by decide, by decide, by decide, by decide⟩

/-- C18, amended.  On a vector reachable from default construction by
push/pop, a push whose allocation (if it needs one) is granted returns, with
the length one more and `vector_version` incremented by one modulo `2 ^ 64`.
`push_back` (either overload) leaves `front_storage` unchanged and increments
`reallocate_times` by one iff `front_storage + length == storage`;
`push_front` (either overload) increments `reallocate_times` by one iff
`front_storage == 0`; a push that does not reallocate leaves `storage` and
`reallocate_times` unchanged, and such a `push_front` decrements
`front_storage` by one. -/
theorem C18_push_effects (v : vector T) (a : Nat) (x : T) (hr : Reachable v)
    (hnew : (v.front_storage + v.length = v.storage ∨ v.front_storage = 0) →
      0 < a ∧ v.storage * 2 * Sized.sizeof T ≤ PTRDIFF_MAX ∧
      a + v.storage * 2 * Sized.sizeof T < 2 ^ 64) :
    (∀ push ∈ [vector.push_back a x, vector.push_back_rv a x],
      ∃ v1, push v = Outcome.done v1 ∧
        v1.length = v.length + 1 ∧
        v1.vector_version = (v.vector_version + 1) % 2 ^ 64 ∧
        v1.front_storage = v.front_storage ∧
        (v1.reallocate_times = v.reallocate_times + 1 ↔
          v.front_storage + v.length = v.storage) ∧
        (v.front_storage + v.length ≠ v.storage →
          v1.storage = v.storage ∧ v1.reallocate_times = v.reallocate_times)) ∧
    (∀ push ∈ [vector.push_front a x, vector.push_front_rv a x],
      ∃ v1, push v = Outcome.done v1 ∧
        v1.length = v.length + 1 ∧
        v1.vector_version = (v.vector_version + 1) % 2 ^ 64 ∧
        (v1.reallocate_times = v.reallocate_times + 1 ↔ v.front_storage = 0) ∧
        (v.front_storage ≠ 0 →
          v1.storage = v.storage ∧ v1.reallocate_times = v.reallocate_times ∧
          v1.front_storage + 1 = v.front_storage)) := by
  obtain ⟨hv, hp⟩ := hr.grown
  have hb := hv.h_bytes
  rw [hp] at hb
  have hsmall := growth_count_small _ _ Sized.sizeof_pos hb
  have hmod : (v.reallocate_times + 1) % 2 ^ 64 = v.reallocate_times + 1 :=
    Nat.mod_eq_of_lt (by omega)
  have back : ∀ v1, (vector.push_back a x v = Outcome.done v1 ∨
      vector.push_back_rv a x v = Outcome.done v1) →
      v1.length = v.length + 1 ∧
      v1.vector_version = (v.vector_version + 1) % 2 ^ 64 ∧
      v1.front_storage = v.front_storage ∧
      (v1.reallocate_times = v.reallocate_times + 1 ↔
        v.front_storage + v.length = v.storage) ∧
      (v.front_storage + v.length ≠ v.storage →
        v1.storage = v.storage ∧ v1.reallocate_times = v.reallocate_times) := by
    intro v1 e
    have c1 : v1.vector_version = (v.vector_version + 1) % 2 ^ 64 := by
      rcases e with e | e
      · exact (push_back_counters a x v v1 e).1
      · exact (push_back_rv_counters a x v v1 e).1
    obtain ⟨_, h2, h3, _, h5, h6⟩ := e.elim (push_back_effect v v1 a x hv)
      (push_back_rv_effect v v1 a x hv)
    refine ⟨h2, c1, h3, ⟨fun e1 => ?_, fun c => by rw [(h5 c).2, hmod]⟩, h6⟩
    by_contra c
    rw [(h6 c).2] at e1
    omega
  have front : ∀ v1, vector.push_front a x v = Outcome.done v1 →
      v1.length = v.length + 1 ∧
      v1.vector_version = (v.vector_version + 1) % 2 ^ 64 ∧
      (v1.reallocate_times = v.reallocate_times + 1 ↔ v.front_storage = 0) ∧
      (v.front_storage ≠ 0 →
        v1.storage = v.storage ∧ v1.reallocate_times = v.reallocate_times ∧
        v1.front_storage + 1 = v.front_storage) := by
    intro v1 e
    obtain ⟨_, h2, _, h5, h6⟩ := push_front_effect v v1 a x hv e
    refine ⟨h2, (push_front_counters a x v v1 e).1,
      ⟨fun e1 => ?_, fun c => by rw [(h5 c).2.1, hmod]⟩, h6⟩
    by_contra c
    rw [(h6 c).2.1] at e1
    omega
  have ret_back : ∃ v1, vector.push_back a x v = Outcome.done v1 := by
    by_cases h : v.send = v.dend
    · have g := hnew (Or.inl (hv.send_eq_dend_iff.mp h))
      obtain ⟨heap3, e2, _⟩ := hv.push_back_grow h a x g.1 g.2.1 g.2.2
      exact ⟨_, e2⟩
    · exact ⟨_, hv.push_back_spare h a x⟩
  have ret_back_rv : ∃ v1, vector.push_back_rv a x v = Outcome.done v1 := by
    by_cases h : v.send = v.dend
    · have g := hnew (Or.inl (hv.send_eq_dend_iff.mp h))
      obtain ⟨heap3, e2, _⟩ := hv.push_back_rv_grow h a x g.1 g.2.1 g.2.2
      exact ⟨_, e2⟩
    · exact ⟨_, hv.push_back_rv_spare h a x⟩
  have ret_front : ∃ v1, vector.push_front a x v = Outcome.done v1 := by
    by_cases h : v.sbegin = v.dbegin
    · have g := hnew (Or.inr (hv.sbegin_eq_dbegin_iff.mp h))
      obtain ⟨heap3, e2, _⟩ := hv.push_front_grow h a x g.1 g.2.1 g.2.2
      exact ⟨_, e2⟩
    · exact ⟨_, hv.push_front_spare h a x⟩
  constructor
  · intro push hmem
    simp only [List.mem_cons, List.mem_singleton, List.mem_nil_iff, or_false] at hmem
    rcases hmem with rfl | rfl
    · obtain ⟨v1, e⟩ := ret_back
      exact ⟨v1, e, back v1 (Or.inl e)⟩
    · obtain ⟨v1, e⟩ := ret_back_rv
      exact ⟨v1, e, back v1 (Or.inr e)⟩
  · intro push hmem
    simp only [List.mem_cons, List.mem_singleton, List.mem_nil_iff, or_false] at hmem
    rcases hmem with rfl | rfl
    · obtain ⟨v1, e⟩ := ret_front
      exact ⟨v1, e, front v1 e⟩
    · obtain ⟨v1, e⟩ := ret_front
      exact ⟨v1, e, front v1 e⟩

/-- The four calls that build `sample_four` from a default-constructed
`vector<int>`. -/
theorem sample_four_reachable : Reachable sample_four :=
  ⟨4096, sample_empty,
    [Op.push_back 0 10, Op.push_back 0 20, Op.push_back 0 30, Op.push_back 0 40],
    by decide, by decide, by decide⟩

/-- C18 on the `vector<int>` holding 10, 20, 30, 40 (`front_storage == 0`, four
spare slots at the back): `push_front(5)` reallocates. -/
theorem C18_push_effects_witness :
    (Reachable sample_four ∧
      ((sample_four.front_storage + sample_four.length = sample_four.storage ∨
          sample_four.front_storage = 0) →
        0 < 8192 ∧ sample_four.storage * 2 * Sized.sizeof Int ≤ PTRDIFF_MAX ∧
        8192 + sample_four.storage * 2 * Sized.sizeof Int < 2 ^ 64)) ∧
    ∃ v1, vector.push_front 8192 5 sample_four = Outcome.done v1 ∧
      v1.length = sample_four.length + 1 ∧
      v1.vector_version = (sample_four.vector_version + 1) % 2 ^ 64 ∧
      (v1.reallocate_times = sample_four.reallocate_times + 1 ↔
        sample_four.front_storage = 0) ∧
      (sample_four.front_storage ≠ 0 →
        v1.storage = sample_four.storage ∧
        v1.reallocate_times = sample_four.reallocate_times ∧
        v1.front_storage + 1 = sample_four.front_storage) :=
  ⟨⟨sample_four_reachable, fun _ => by decide⟩,
    (C18_push_effects sample_four 8192 5 sample_four_reachable (fun _ => by decide)).2
      (vector.push_front 8192 5) (List.mem_cons_self _ _)⟩

/-! ## Runs of pushes at one end -/

/-- A push on a vector that satisfies the invariant returns or raises
`std::bad_alloc`. -/
theorem apply_push_cases (op : Op T) (v : vector T) (hv : vector.Inv v)
    (hp : op.is_push = true) :
    (∃ s, op.apply v = Outcome.raised Exception.bad_alloc s) ∨
    (∃ v1, op.apply v = Outcome.done v1) := by
  obtain ⟨xs, hx⟩ := hv.exists_holds
  cases op with
  | push_back a x =>
    rcases hx.push_back a x with ⟨s, e⟩ | ⟨v2, e, h2⟩
    · exact Or.inl ⟨s, e⟩
    · exact Or.inr ⟨v2, e⟩
  | push_back_rv a x =>
    rcases hx.push_back_rv a x with ⟨s, e⟩ | ⟨v2, e, h2⟩
    · exact Or.inl ⟨s, e⟩
    · exact Or.inr ⟨v2, e⟩
  | push_front a x =>
    rcases hx.push_front a x with ⟨s, e⟩ | ⟨v2, e, h2⟩
    · exact Or.inl ⟨s, e⟩
    · exact Or.inr ⟨v2, e⟩
  | push_front_rv a x =>
    rcases hx.push_front a x with ⟨s, e⟩ | ⟨v2, e, h2⟩
    · exact Or.inl ⟨s, e⟩
    · exact Or.inr ⟨v2, e⟩
  | pop_back => cases hp
  | pop_front => cases hp

/-- A run of pushes of one kind `Q` in which no allocation fails returns, the
length has grown by the number of calls, and a property that every returning
push of that kind preserves holds at the end. -/
theorem run_pushes_invariant (P : vector T → Prop) (Q : Op T → Bool)
    (hQ : ∀ op, Q op = true → op.is_push = true)
    (hstep : ∀ (op : Op T) (v v1 : vector T), Q op = true → vector.Inv v → P v →
      op.apply v = Outcome.done v1 → P v1) (ops : List (Op T)) :
    ∀ (v : vector T), vector.Inv v → P v → (∀ op ∈ ops, Q op = true) →
      (run ops v).thrown ≠ some Exception.bad_alloc →
      ∃ w, run ops v = Outcome.done w ∧ vector.Inv w ∧ P w ∧
        w.length = v.length + ops.length := by
  induction ops with
  | nil =>
    intro v hv hp _ _
    exact ⟨v, rfl, hv, hp, rfl⟩
  | cons op ops ih =>
    intro v hv hp hall hmem
    have hq := hall op (List.mem_cons_self _ _)
    rcases apply_push_cases op v hv (hQ op hq) with ⟨s, e⟩ | ⟨v1, e⟩
    · rw [run, e] at hmem
      exact absurd rfl hmem
    · have i1 := apply_inv op v v1 hv e
      rw [run, e] at hmem
      obtain ⟨w, e2, hw, hpw, hl⟩ := ih v1 i1.1 (hstep op v v1 hq hv hp e)
        (fun o ho => hall o (List.mem_cons_of_mem _ ho)) hmem
      refine ⟨w, by rw [run, e]; exact e2, hw, hpw, ?_⟩
      rw [hl, i1.2.1 (hQ op hq), List.length_cons]
      omega

/-- The fields of a default-constructed vector. -/
theorem vector_void_fields (a : Nat) (v0 : vector T) (h0 : vector.vector_void T a = some v0) :
    v0.storage = min_capacity ∧ v0.length = 0 ∧ v0.front_storage = 0 ∧
    v0.reallocate_times = 0 ∧ v0.vector_version = 0 := by
  unfold vector.vector_void at h0
  cases e : operator_new a (Sized.sizeof T * min_capacity % 2 ^ 64) with
  | none => rw [e] at h0; cases h0
  | some p =>
    rw [e] at h0
    cases h0
    exact ⟨rfl, rfl, rfl, rfl, rfl⟩

/-- One returning `push_back` keeps the shape of a vector that only ever saw
`push_back`: nothing spare at the front, capacity `min_capacity * 2 ^ r` after
`r` reallocations, and more elements than the previous capacity. -/
theorem push_back_shape (op : Op T) (v v1 : vector T) (hq : op.is_push_back = true)
    (hv : vector.Inv v)
    (hp : v.front_storage = 0 ∧ v.storage = min_capacity * 2 ^ v.reallocate_times ∧
      (v.reallocate_times = 0 ∨ min_capacity * 2 ^ (v.reallocate_times - 1) < v.length))
    (e : op.apply v = Outcome.done v1) :
    v1.front_storage = 0 ∧ v1.storage = min_capacity * 2 ^ v1.reallocate_times ∧
      (v1.reallocate_times = 0 ∨ min_capacity * 2 ^ (v1.reallocate_times - 1) < v1.length) := by
  obtain ⟨p1, p2, p3⟩ := hp
  have hb := hv.h_bytes
  rw [p2] at hb
  have hsmall := growth_count_small _ _ Sized.sizeof_pos hb
  have eff : v1.length = v.length + 1 ∧ v1.front_storage = v.front_storage ∧
      (v.front_storage + v.length = v.storage →
        v1.storage = 2 * v.storage ∧
        v1.reallocate_times = (v.reallocate_times + 1) % 2 ^ 64) ∧
      (v.front_storage + v.length ≠ v.storage →
        v1.storage = v.storage ∧ v1.reallocate_times = v.reallocate_times) := by
    cases op with
    | push_back a x =>
      obtain ⟨_, h2, h3, _, h5, h6⟩ := push_back_effect v v1 a x hv e
      exact ⟨h2, h3, h5, h6⟩
    | push_back_rv a x =>
      obtain ⟨_, h2, h3, _, h5, h6⟩ := push_back_rv_effect v v1 a x hv e
      exact ⟨h2, h3, h5, h6⟩
    | push_front a x => cases hq
    | push_front_rv a x => cases hq
    | pop_back => cases hq
    | pop_front => cases hq
  obtain ⟨h2, h3, h5, h6⟩ := eff
  refine ⟨by rw [h3, p1], ?_⟩
  by_cases c : v.front_storage + v.length = v.storage
  · obtain ⟨s1, s2⟩ := h5 c
    rw [Nat.mod_eq_of_lt (by omega)] at s2
    rw [s1, s2, h2, Nat.add_sub_cancel, p2, Nat.pow_succ]
    refine ⟨by ring, Or.inr ?_⟩
    rw [p1, p2] at c
    omega
  · obtain ⟨s1, s2⟩ := h6 c
    rw [s1, s2, h2]
    refine ⟨p2, ?_⟩
    rcases p3 with p3 | p3
    · exact Or.inl p3
    · exact Or.inr (by omega)

/-- One returning `push_front` keeps the shape of a vector that only ever saw
`push_front`: capacity `min_capacity * 2 ^ r` after `r` reallocations, exactly
`min_capacity` slots behind the last element, and after a reallocation at most
half of the block spare at the front. -/
theorem push_front_shape (op : Op T) (v v1 : vector T) (hq : op.is_push_front = true)
    (hv : vector.Inv v)
    (hp : v.storage = min_capacity * 2 ^ v.reallocate_times ∧
      v.front_storage + v.length + min_capacity = v.storage ∧
      ((v.reallocate_times = 0 ∧ v.front_storage = 0) ∨
        (1 ≤ v.reallocate_times ∧ 2 * (v.front_storage + 1) ≤ v.storage)))
    (e : op.apply v = Outcome.done v1) :
    v1.storage = min_capacity * 2 ^ v1.reallocate_times ∧
      v1.front_storage + v1.length + min_capacity = v1.storage ∧
      ((v1.reallocate_times = 0 ∧ v1.front_storage = 0) ∨
        (1 ≤ v1.reallocate_times ∧ 2 * (v1.front_storage + 1) ≤ v1.storage)) := by
  obtain ⟨p1, p2, p3⟩ := hp
  have hb := hv.h_bytes
  rw [p1] at hb
  have hsmall := growth_count_small _ _ Sized.sizeof_pos hb
  have hcap := hv.h_cap
  have eff : v1.length = v.length + 1 ∧
      (v.front_storage = 0 →
        v1.storage = 2 * v.storage ∧
        v1.reallocate_times = (v.reallocate_times + 1) % 2 ^ 64 ∧
        v1.front_storage = v.storage - 1) ∧
      (v.front_storage ≠ 0 →
        v1.storage = v.storage ∧ v1.reallocate_times = v.reallocate_times ∧
        v1.front_storage + 1 = v.front_storage) := by
    cases op with
    | push_back a x => cases hq
    | push_back_rv a x => cases hq
    | push_front a x =>
      obtain ⟨_, h2, _, h5, h6⟩ := push_front_effect v v1 a x hv e
      exact ⟨h2, h5, h6⟩
    | push_front_rv a x =>
      obtain ⟨_, h2, _, h5, h6⟩ := push_front_effect v v1 a x hv e
      exact ⟨h2, h5, h6⟩
    | pop_back => cases hq
    | pop_front => cases hq
  obtain ⟨h2, h5, h6⟩ := eff
  by_cases c : v.front_storage = 0
  · obtain ⟨s1, s2, s3⟩ := h5 c
    rw [Nat.mod_eq_of_lt (by omega)] at s2
    refine ⟨by rw [s1, s2, p1, Nat.pow_succ]; ring, by omega, Or.inr ⟨by omega, by omega⟩⟩
  · obtain ⟨s1, s2, s3⟩ := h6 c
    refine ⟨by rw [s1, s2]; exact p1, by omega, ?_⟩
    rcases p3 with ⟨_, p3⟩ | ⟨p3, p4⟩
    · exact absurd p3 c
    · exact Or.inr ⟨by omega, by omega⟩

/-! ## C14, C15: the number of reallocations of a run of pushes -/

/-- C14.  After `n` consecutive `push_back` calls (either overload) on a
default-constructed vector, none of which ran out of memory, the run has
returned, `reallocate_times` is the least `r` with `min_capacity * 2 ^ r >= n`
(`min_capacity` is 8), `storage` is `min_capacity * 2 ^ r`, and `r <= log2 n`
when `n >= 1`. -/
theorem C14_push_back_reallocations (a : Nat) (v0 : vector T) (ops : List (Op T))
    (hT : Sized.sizeof T * min_capacity < 2 ^ 64)
    (h0 : vector.vector_void T a = some v0)
    (hops : ∀ op ∈ ops, op.is_push_back = true)
    (hmem : (run ops v0).thrown ≠ some Exception.bad_alloc) :
    ∃ v, run ops v0 = Outcome.done v ∧
      ops.length ≤ min_capacity * 2 ^ v.reallocate_times ∧
      (∀ r, ops.length ≤ min_capacity * 2 ^ r → v.reallocate_times ≤ r) ∧
      v.storage = min_capacity * 2 ^ v.reallocate_times ∧
      (1 ≤ ops.length → v.reallocate_times ≤ Nat.log 2 ops.length) := by
  have hv0 := (vector.vector_void_holds a v0 hT h0).1
  obtain ⟨f1, f2, f3, f4, _⟩ := vector_void_fields a v0 h0
  obtain ⟨v, e, hv, ⟨p1, p2, p3⟩, hl⟩ := run_pushes_invariant
    (fun w => w.front_storage = 0 ∧ w.storage = min_capacity * 2 ^ w.reallocate_times ∧
      (w.reallocate_times = 0 ∨ min_capacity * 2 ^ (w.reallocate_times - 1) < w.length))
    Op.is_push_back
    (fun op h => by cases op <;> first | rfl | cases h)
    (fun op w w1 hq hw hp e => push_back_shape op w w1 hq hw hp e)
    ops v0 hv0 ⟨f3, by rw [f1, f4, pow_zero, Nat.mul_one], Or.inl f4⟩ hops hmem
  rw [f2, Nat.zero_add] at hl
  have hle := hv.h_le
  have hc : min_capacity = 8 := rfl
  rw [hc] at p2 p3 ⊢
  refine ⟨v, e, by omega, ?_, p2, ?_⟩
  · intro r hr
    rcases p3 with p3 | p3
    · omega
    · have h1 : 2 ^ (v.reallocate_times - 1) < 2 ^ r := by omega
      have h2 := (Nat.pow_lt_pow_iff_right (by norm_num)).mp h1
      omega
  · intro h1
    rcases p3 with p3 | p3
    · omega
    · by_cases hz : v.reallocate_times = 0
      · omega
      · apply Nat.le_log_of_pow_le (by norm_num)
        have h2 : 2 ^ v.reallocate_times = 2 * 2 ^ (v.reallocate_times - 1) := by
          have h3 : v.reallocate_times = (v.reallocate_times - 1) + 1 := by omega
          rw [h3, Nat.pow_succ, Nat.add_sub_cancel]
          ring
        omega

/-- C14 on a `vector<int>`: nine `push_back` calls, the ninth of which
reallocates. -/
theorem C14_push_back_reallocations_witness :
    (Sized.sizeof Int * min_capacity < 2 ^ 64 ∧
      vector.vector_void Int 4096 = some sample_empty ∧
      (∀ op ∈ [Op.push_back 0 10, Op.push_back 0 20, Op.push_back_rv 0 30, Op.push_back 0 40,
          Op.push_back 0 50, Op.push_back 0 60, Op.push_back 0 70, Op.push_back 0 80,
          Op.push_back 8192 (90 : Int)], op.is_push_back = true) ∧
      (run [Op.push_back 0 10, Op.push_back 0 20, Op.push_back_rv 0 30, Op.push_back 0 40,
          Op.push_back 0 50, Op.push_back 0 60, Op.push_back 0 70, Op.push_back 0 80,
          Op.push_back 8192 90] sample_empty).thrown ≠ some Exception.bad_alloc) ∧
    ∃ v, run [Op.push_back 0 10, Op.push_back 0 20, Op.push_back_rv 0 30, Op.push_back 0 40,
          Op.push_back 0 50, Op.push_back 0 60, Op.push_back 0 70, Op.push_back 0 80,
          Op.push_back 8192 90] sample_empty = Outcome.done v ∧
      9 ≤ min_capacity * 2 ^ v.reallocate_times ∧
      (∀ r, 9 ≤ min_capacity * 2 ^ r → v.reallocate_times ≤ r) ∧
      v.storage = min_capacity * 2 ^ v.reallocate_times ∧
      (1 ≤ 9 → v.reallocate_times ≤ Nat.log 2 9) :=
  ⟨⟨by decide, by decide, by decide, by decide⟩,
    C14_push_back_reallocations 4096 sample_empty _ (by decide) (by decide) (by decide)
      (by decide)⟩

/-- C15.  After `n` consecutive `push_front` calls (either overload) on a
default-constructed vector, none of which ran out of memory, the run has
returned, `reallocate_times` is the least `r` with
`min_capacity * (2 ^ r - 1) >= n` (`min_capacity` is 8), `storage` is
`min_capacity * 2 ^ r`, and `r <= log2 n + 1` when `n >= 1`. -/
theorem C15_push_front_reallocations (a : Nat) (v0 : vector T) (ops : List (Op T))
    (hT : Sized.sizeof T * min_capacity < 2 ^ 64)
    (h0 : vector.vector_void T a = some v0)
    (hops : ∀ op ∈ ops, op.is_push_front = true)
    (hmem : (run ops v0).thrown ≠ some Exception.bad_alloc) :
    ∃ v, run ops v0 = Outcome.done v ∧
      ops.length ≤ min_capacity * (2 ^ v.reallocate_times - 1) ∧
      (∀ r, ops.length ≤ min_capacity * (2 ^ r - 1) → v.reallocate_times ≤ r) ∧
      v.storage = min_capacity * 2 ^ v.reallocate_times ∧
      (1 ≤ ops.length → v.reallocate_times ≤ Nat.log 2 ops.length + 1) := by
  have hv0 := (vector.vector_void_holds a v0 hT h0).1
  obtain ⟨f1, f2, f3, f4, _⟩ := vector_void_fields a v0 h0
  obtain ⟨v, e, hv, ⟨p1, p2, p3⟩, hl⟩ := run_pushes_invariant
    (fun w => w.storage = min_capacity * 2 ^ w.reallocate_times ∧
      w.front_storage + w.length + min_capacity = w.storage ∧
      ((w.reallocate_times = 0 ∧ w.front_storage = 0) ∨
        (1 ≤ w.reallocate_times ∧ 2 * (w.front_storage + 1) ≤ w.storage)))
    Op.is_push_front
    (fun op h => by cases op <;> first | rfl | cases h)
    (fun op w w1 hq hw hp e => push_front_shape op w w1 hq hw hp e)
    ops v0 hv0
    ⟨by rw [f1, f4, pow_zero, Nat.mul_one], by simp only [f1, f2, f3, Nat.zero_add], Or.inl ⟨f4, f3⟩⟩ hops hmem
  rw [f2, Nat.zero_add] at hl
  have hc : min_capacity = 8 := rfl
  rw [hc] at p1 p2 ⊢
  have hpos : ∀ k : Nat, 1 ≤ 2 ^ k := fun k => Nat.one_le_two_pow
  have hr1 := hpos v.reallocate_times
  have hhalf : 1 ≤ v.reallocate_times →
      2 ^ v.reallocate_times = 2 * 2 ^ (v.reallocate_times - 1) := by
    intro h1
    have h3 : v.reallocate_times = (v.reallocate_times - 1) + 1 := by omega
    rw [h3, Nat.pow_succ, Nat.add_sub_cancel]
    ring
  refine ⟨v, e, by omega, ?_, p1, ?_⟩
  · intro r hr
    rcases p3 with ⟨p3, _⟩ | ⟨p3, p4⟩
    · omega
    · have h0 := hhalf p3
      have h4 := hpos r
      have h1 : 2 ^ (v.reallocate_times - 1) < 2 ^ r := by omega
      have h2 := (Nat.pow_lt_pow_iff_right (by norm_num)).mp h1
      omega
  · intro h1
    rcases p3 with ⟨p3, _⟩ | ⟨p3, p4⟩
    · omega
    · have h0 := hhalf p3
      have h4 := hpos (v.reallocate_times - 1)
      have h5 : v.reallocate_times - 1 ≤ Nat.log 2 ops.length :=
        Nat.le_log_of_pow_le (by norm_num) (by omega)
      omega

/-- C15 on a `vector<int>`: nine `push_front` calls, the first and the ninth
of which reallocate. -/
theorem C15_push_front_reallocations_witness :
    (Sized.sizeof Int * min_capacity < 2 ^ 64 ∧
      vector.vector_void Int 4096 = some sample_empty ∧
      (∀ op ∈ [Op.push_front 8192 10, Op.push_front 0 20, Op.push_front_rv 0 30,
          Op.push_front 0 40, Op.push_front 0 50, Op.push_front 0 60, Op.push_front 0 70,
          Op.push_front 0 80, Op.push_front 16384 (90 : Int)], op.is_push_front = true) ∧
      (run [Op.push_front 8192 10, Op.push_front 0 20, Op.push_front_rv 0 30,
          Op.push_front 0 40, Op.push_front 0 50, Op.push_front 0 60, Op.push_front 0 70,
          Op.push_front 0 80, Op.push_front 16384 90] sample_empty).thrown
        ≠ some Exception.bad_alloc) ∧
    ∃ v, run [Op.push_front 8192 10, Op.push_front 0 20, Op.push_front_rv 0 30,
          Op.push_front 0 40, Op.push_front 0 50, Op.push_front 0 60, Op.push_front 0 70,
          Op.push_front 0 80, Op.push_front 16384 90] sample_empty = Outcome.done v ∧
      9 ≤ min_capacity * (2 ^ v.reallocate_times - 1) ∧
      (∀ r, 9 ≤ min_capacity * (2 ^ r - 1) → v.reallocate_times ≤ r) ∧
      v.storage = min_capacity * 2 ^ v.reallocate_times ∧
      (1 ≤ 9 → v.reallocate_times ≤ Nat.log 2 9 + 1) :=
  ⟨⟨by decide, by decide, by decide, by decide⟩,
    C15_push_front_reallocations 4096 sample_empty _ (by decide) (by decide) (by decide)
      (by decide)⟩

/-! ## C11: a copy agrees with its source -/

/-- The target of a `copy` from `t`: it satisfies the invariant and reads, at
every index below the length, the element that `t` reads there. -/
theorem copied_agrees (t : vector T) (ht : vector.Inv t) (a r ver : Nat)
    (heap1 : List (Option T)) (hfit : a + t.storage * Sized.sizeof T < 2 ^ 64)
    (hlen : heap1.length = t.storage)
    (hpt : ∀ j, heap1[j]? =
      if t.front_storage ≤ j ∧ j < t.front_storage + t.length then t.heap[j]?
      else if j < t.storage then some none else none)
    (hr : r < 2 ^ 64) (hver : ver < 2 ^ 64) (C : vector T)
    (hC : C =
      { dbegin := a + t.front_storage * Sized.sizeof T
        dend := a + t.front_storage * Sized.sizeof T + t.length * Sized.sizeof T
        sbegin := a
        send := a + t.storage * Sized.sizeof T
        length := t.length
        storage := t.storage
        front_storage := t.front_storage
        reallocate_times := r
        vector_version := ver
        heap := heap1 }) :
    vector.Inv C ∧ C.length = t.length ∧ C.storage = t.storage ∧
    C.front_storage = t.front_storage ∧ C.size = t.size ∧
    (∀ k, k < t.size → ∃ x, t.at_index k = some x ∧ C.at_index k = some x) ∧
    C.elements = t.elements := by
  have same : ∀ i, i < t.length →
      heap1.getD (t.front_storage + i) none = t.heap.getD (t.front_storage + i) none := by
    intro i hi
    rw [List.getD_eq_getElem?_getD, List.getD_eq_getElem?_getD, hpt,
      if_pos ⟨by omega, by omega⟩]
  have hC1 : vector.Inv C := by
    rw [hC]
    exact vector.Inv.of_block a t.storage t.front_storage t.length r ver heap1 ht.h_bytes hfit
      ht.h_le hlen ht.h_cap (fun i hi => by rw [same i hi]; exact ht.h_live i hi) hr hver
  have hl : C.length = t.length := by rw [hC]
  have hf : C.front_storage = t.front_storage := by rw [hC]
  have hh : C.heap = heap1 := by rw [hC]
  have hat : ∀ k, k < t.length → C.at_index k = t.at_index k := by
    intro k hk
    rw [hC1.at_index_lt k (by rw [hl]; exact hk), ht.at_index_lt k hk, hf, hh, same k hk]
  refine ⟨hC1, hl, by rw [hC], hf, by rw [hC1.size_eq, ht.size_eq, hl], ?_, ?_⟩
  · intro k hk
    rw [ht.size_eq] at hk
    have h1 := ht.h_live k hk
    rw [hat k hk, ht.at_index_lt k hk]
    cases e : t.heap.getD (t.front_storage + k) none with
    | none => rw [e] at h1; cases h1
    | some x => exact ⟨x, rfl, rfl⟩
  · unfold vector.elements
    rw [hC1.size_eq, ht.size_eq, hl]
    apply List.map_congr_left
    intro k hk
    exact hat k (List.mem_range.mp hk)

/-- C11.  Let `S` be reachable from default construction by push/pop and let
the allocator grant the block of the copy.  The copy constructor
`vector(const vector&)` from `S`, and the copy assignment `operator=(const
vector&)` from `S` into another vector `D`, return a vector `C` with the
length, `size()`, `storage` and `front_storage` of `S` whose `operator[]`
reads at every `k < size()` the element that `S` reads there.  (`S` is a
`const vector&` parameter: the calls have no access that writes it, and the
embedding returns the target only.) -/
theorem C11_copy_agrees_with_source (a : Nat) (raw D S : vector T) (hS : Reachable S)
    (hD : vector.Inv D) (ha : 0 < a) (hfit : a + S.storage * Sized.sizeof T < 2 ^ 64) :
    (∃ C, vector.copy_constructor a raw S = Outcome.done C ∧
      C.length = S.length ∧ C.storage = S.storage ∧ C.front_storage = S.front_storage ∧
      C.size = S.size ∧
      (∀ k, k < S.size → ∃ x, S.at_index k = some x ∧ C.at_index k = some x) ∧
      C.elements = S.elements) ∧
    (∃ C, vector.operator_assign a D (some S) = Outcome.done C ∧
      C.length = S.length ∧ C.storage = S.storage ∧ C.front_storage = S.front_storage ∧
      C.size = S.size ∧
      (∀ k, k < S.size → ∃ x, S.at_index k = some x ∧ C.at_index k = some x) ∧
      C.elements = S.elements) := by
  have ht := hS.grown.1
  constructor
  · obtain ⟨heap1, e, hlen, hpt⟩ := ht.copy_done raw a ha hfit
    refine ⟨_, by unfold vector.copy_constructor; rw [e],
      (copied_agrees S ht a 0 0 heap1 hfit hlen hpt (by norm_num) (by norm_num) _ rfl).2⟩
  · obtain ⟨heap1, e, hlen, hpt⟩ := ht.copy_done { D with heap := [] } a ha hfit
    refine ⟨_, by unfold vector.operator_assign; simp only [hD.destroy_some, e],
      (copied_agrees S ht a ((D.reallocate_times + 1) % 2 ^ 64)
        ((D.vector_version + 1) % 2 ^ 64) heap1 hfit hlen hpt
        (Nat.mod_lt _ (by norm_num)) (Nat.mod_lt _ (by norm_num)) _ rfl).2⟩

/-- C11 on `vector<int>`: the copy constructor from `sample_four` (10, 20, 30,
40) into a block at address 8192. -/
theorem C11_copy_agrees_with_source_witness :
    (Reachable sample_four ∧ vector.Inv sample_empty ∧ 0 < 8192 ∧
      8192 + sample_four.storage * Sized.sizeof Int < 2 ^ 64) ∧
    ∃ C, vector.copy_constructor 8192 sample_empty sample_four = Outcome.done C ∧
      C.length = sample_four.length ∧ C.storage = sample_four.storage ∧
      C.front_storage = sample_four.front_storage ∧ C.size = sample_four.size ∧
      (∀ k, k < sample_four.size →
        ∃ x, sample_four.at_index k = some x ∧ C.at_index k = some x) ∧
      C.elements = sample_four.elements :=
  ⟨⟨sample_four_reachable, sample_empty_inv, by decide, by decide⟩,
    (C11_copy_agrees_with_source 8192 sample_empty sample_empty sample_four
      sample_four_reachable sample_empty_inv (by decide) (by decide)).1⟩

/-! ## C12, C13: comparisons of cursors -/

/-- The check of a stale iterator throws `invalid_iterator`. -/
theorem check_stale (parent : vector T) (it : iterator T)
    (h : it.iterator_version ≠ parent.vector_version) :
    ∃ l, iterator.check_exception parent it = Except.error (InvalidCursor l) := by
  unfold iterator.check_exception InvalidCursor
  rw [if_pos h]
  split
  · exact ⟨_, rfl⟩
  · split
    · exact ⟨_, rfl⟩
    · exact ⟨_, rfl⟩

/-- C12, as the code has it.  `operator==` and `operator!=` run
`check_exception()` on the left cursor only: on a Fresh left cursor `a`,
`a == b` throws nothing and returns whether the two pointers are equal (and
`a != b` the negation) for every right cursor `b`, a stale one included; with
a stale left cursor the two comparisons throw `invalid_iterator`. -/
theorem C12_eq_checks_left_cursor_only (v : vector T) (a b : iterator T)
    (ha : a.iterator_version = v.vector_version) :
    (iterator.operator_eq v a b = Except.ok (decide (a.ptr = b.ptr)) ∧
      iterator.operator_ne v a b = Except.ok (!decide (a.ptr = b.ptr)) ∧
      (Access.eq b).thrown v a = none ∧ (Access.ne b).thrown v a = none) ∧
    (b.iterator_version ≠ v.vector_version →
      ∃ l, iterator.operator_eq v b a = Except.error (InvalidCursor l) ∧
        iterator.operator_ne v b a = Except.error (InvalidCursor l)) := by
  constructor
  · have e := check_fresh v a ha
    have e1 : iterator.operator_eq v a b = Except.ok (decide (a.ptr = b.ptr)) := by
      unfold iterator.operator_eq
      rw [e]
    have e2 : iterator.operator_ne v a b = Except.ok (!decide (a.ptr = b.ptr)) := by
      unfold iterator.operator_ne
      rw [e, e1]
    refine ⟨e1, e2, ?_, ?_⟩
    · rw [Access.thrown_eq, e]; rfl
    · rw [Access.thrown_eq, e]; rfl
  · intro hb
    obtain ⟨l, e⟩ := check_stale v b hb
    refine ⟨l, ?_, ?_⟩
    · unfold iterator.operator_eq
      rw [e]
    · unfold iterator.operator_ne
      rw [e]

/-- C12 on `vector<int>`: `b = v.begin()` is taken when `v` holds 10, 20, 30,
40; after `v.push_back(50)` the cursor `a = v.begin()` is Fresh, `b` is stale,
and `a == b` returns `true`. -/
theorem C12_eq_checks_left_cursor_only_witness :
    (vector.push_back 0 (50 : Int) sample_four = Outcome.done sample_five ∧
      sample_five.begin_.iterator_version = sample_five.vector_version ∧
      sample_four.begin_.iterator_version ≠ sample_five.vector_version) ∧
    iterator.operator_eq sample_five sample_five.begin_ sample_four.begin_ = Except.ok true ∧
    iterator.operator_ne sample_five sample_five.begin_ sample_four.begin_ = Except.ok false ∧
    (Access.eq sample_four.begin_).thrown sample_five sample_five.begin_ = none ∧
    (Access.ne sample_four.begin_).thrown sample_five sample_five.begin_ = none :=
  ⟨⟨by decide, by decide, by decide⟩,
    (C12_eq_checks_left_cursor_only sample_five sample_five.begin_ sample_four.begin_
      (by decide)).1⟩

/-- C13, as the code has it.  On a stale cursor `c` the checked accesses throw
`invalid_iterator` (here `*c` and `c == d`), but `operator<`, `operator<=`,
`operator>`, `operator>=` and `operator-(iterator&)` do not call
`check_exception()`: they return the comparison of the two `index` members,
respectively the distance of the two pointers. -/
theorem C13_ordering_is_unchecked (v : vector T) (c d : iterator T)
    (hc : c.iterator_version ≠ v.vector_version) :
    (∃ l, Access.star.thrown v c = some (InvalidCursor l) ∧
      (Access.eq d).thrown v c = some (InvalidCursor l)) ∧
    iterator.operator_lt c d = decide (c.index < d.index) ∧
    iterator.operator_le c d = decide (c.index ≤ d.index) ∧
    iterator.operator_gt c d = decide (d.index < c.index) ∧
    iterator.operator_ge c d = decide (d.index ≤ c.index) ∧
    iterator.operator_diff c d = ptr_diff T c.ptr d.ptr := by
  obtain ⟨l, e⟩ := check_stale v c hc
  refine ⟨⟨l, ?_, ?_⟩, rfl, ?_, rfl, ?_, rfl⟩
  · rw [Access.thrown_eq, e]; rfl
  · rw [Access.thrown_eq, e]; rfl
  · unfold iterator.operator_le
    by_cases h : c.index ≤ d.index
    · simp [h, Nat.not_lt.mpr h]
    · simp [h, Nat.lt_of_not_le h]
  · unfold iterator.operator_ge
    by_cases h : d.index ≤ c.index
    · simp [h, Nat.not_lt.mpr h]
    · simp [h, Nat.lt_of_not_le h]

/-- C13 on `vector<int>`: `c = v.begin()` is taken when `v` holds 10, 20, 30,
40; after `v.push_back(50)` it is stale and `*c` throws MILD, but with
`d = v.end()` the comparisons `c < d`, `c <= d` return `true`, `c > d`,
`c >= d` return `false` and `c - d` returns `-5`. -/
theorem C13_ordering_is_unchecked_witness :
    (vector.push_back 0 (50 : Int) sample_four = Outcome.done sample_five ∧
      sample_four.begin_.iterator_version ≠ sample_five.vector_version) ∧
    (Access.star : Access Int).thrown sample_five sample_four.begin_
      = some (InvalidCursor SeverityLevel.MILD) ∧
    iterator.operator_lt sample_four.begin_ sample_five.end_ = true ∧
    iterator.operator_le sample_four.begin_ sample_five.end_ = true ∧
    iterator.operator_gt sample_four.begin_ sample_five.end_ = false ∧
    iterator.operator_ge sample_four.begin_ sample_five.end_ = false ∧
    iterator.operator_diff sample_four.begin_ sample_five.end_ = -5 := by
  obtain ⟨_, h1, h2, h3, h4, h5⟩ := C13_ordering_is_unchecked sample_five sample_four.begin_
    sample_five.end_ (by decide)
  exact ⟨⟨by decide, by decide⟩, by decide, by rw [h1]; decide, by rw [h2]; decide,
    by rw [h3]; decide, by rw [h4]; decide, by rw [h5]; decide⟩

/-! ## C20: cursor arithmetic -/

/-- C20, as the code has it.  On a Fresh cursor `c`, `++c`, `--c`, `c += k`
and `c -= k` move `index` by the offset (as a `uint64_t`), set `inside` to 1
exactly when the new `index` is below `size()`, and leave `iterator_version`
and `record_reallocate_times` unchanged.  `c + k` and `c - k` return a copy
`tmp` with `index` moved by the offset and the two counters unchanged, but
`update_inside()` runs on `c`, not on `tmp`: the flag `inside` of the returned
cursor is the flag `c` had before the call, whatever the new position is. -/
theorem C20_sum_returns_old_flag (v : vector T) (c : iterator T) (k : Int)
    (hc : c.iterator_version = v.vector_version) :
    (∃ tmp c1, iterator.operator_plus v c k = Except.ok (tmp, c1) ∧
      tmp.index = to_u64 ((c.index : Int) + k) ∧ tmp.inside = c.inside ∧
      tmp.iterator_version = c.iterator_version ∧
      tmp.record_reallocate_times = c.record_reallocate_times) ∧
    (∃ tmp c1, iterator.operator_minus v c k = Except.ok (tmp, c1) ∧
      tmp.index = to_u64 ((c.index : Int) - k) ∧ tmp.inside = c.inside ∧
      tmp.iterator_version = c.iterator_version ∧
      tmp.record_reallocate_times = c.record_reallocate_times) ∧
    (∃ c1, iterator.operator_plus_assign v c k = Except.ok c1 ∧
      c1.index = to_u64 ((c.index : Int) + k) ∧
      c1.inside = (if c1.index < v.size then 1 else 0) ∧
      c1.iterator_version = c.iterator_version ∧
      c1.record_reallocate_times = c.record_reallocate_times) ∧
    (∃ c1, iterator.operator_minus_assign v c k = Except.ok c1 ∧
      c1.index = to_u64 ((c.index : Int) - k) ∧
      c1.inside = (if c1.index < v.size then 1 else 0) ∧
      c1.iterator_version = c.iterator_version ∧
      c1.record_reallocate_times = c.record_reallocate_times) ∧
    (∃ c1, iterator.operator_inc v c = Except.ok c1 ∧
      c1.index = (c.index + 1) % 2 ^ 64 ∧
      c1.inside = (if c1.index < v.size then 1 else 0) ∧
      c1.iterator_version = c.iterator_version ∧
      c1.record_reallocate_times = c.record_reallocate_times) ∧
    (∃ c1, iterator.operator_dec v c = Except.ok c1 ∧
      c1.index = (c.index + (2 ^ 64 - 1)) % 2 ^ 64 ∧
      c1.inside = (if c1.index < v.size then 1 else 0) ∧
      c1.iterator_version = c.iterator_version ∧
      c1.record_reallocate_times = c.record_reallocate_times) := by
  have e := check_fresh v c hc
  have flag : ∀ it : iterator T, (iterator.update_inside v it).inside
      = if (iterator.update_inside v it).index < v.size then 1 else 0 := by
    intro it
    simp only [iterator.update_inside, Nat.zero_le, true_and]
  have e1 : iterator.operator_plus v c k = Except.ok
      ({ c with ptr := ptr_add_int T c.ptr k, index := to_u64 ((c.index : Int) + k) },
        iterator.update_inside v c) := by
    unfold iterator.operator_plus
    rw [e]
  have e2 : iterator.operator_minus v c k = Except.ok
      ({ c with ptr := ptr_add_int T c.ptr (-k), index := to_u64 ((c.index : Int) - k) },
        iterator.update_inside v c) := by
    unfold iterator.operator_minus
    rw [e]
  have e3 : iterator.operator_plus_assign v c k = Except.ok (iterator.update_inside v
      { c with ptr := ptr_add_int T c.ptr k, index := to_u64 ((c.index : Int) + k) }) := by
    unfold iterator.operator_plus_assign
    rw [e]
  have e4 : iterator.operator_minus_assign v c k = Except.ok (iterator.update_inside v
      { c with ptr := ptr_add_int T c.ptr (-k), index := to_u64 ((c.index : Int) - k) }) := by
    unfold iterator.operator_minus_assign
    rw [e]
  have e5 : iterator.operator_inc v c = Except.ok (iterator.update_inside v
      { c with ptr := ptr_add T c.ptr 1, index := (c.index + 1) % 2 ^ 64 }) := by
    unfold iterator.operator_inc
    rw [e]
  have e6 : iterator.operator_dec v c = Except.ok (iterator.update_inside v
      { c with ptr := ptr_sub T c.ptr 1, index := (c.index + (2 ^ 64 - 1)) % 2 ^ 64 }) := by
    unfold iterator.operator_dec
    rw [e]
  exact ⟨⟨_, _, e1, rfl, rfl, rfl, rfl⟩, ⟨_, _, e2, rfl, rfl, rfl, rfl⟩,
    ⟨_, e3, rfl, flag _, rfl, rfl⟩, ⟨_, e4, rfl, flag _, rfl, rfl⟩,
    ⟨_, e5, rfl, flag _, rfl, rfl⟩, ⟨_, e6, rfl, flag _, rfl, rfl⟩⟩

/-- C20 on the `vector<int>` holding 10, 20, 30, 40: `end() - 1` returns a
cursor at position 3, which is below `size() == 4`, whose flag `inside` is 0,
the flag of `end()`; `end() -= 1` arrives at the same position with the flag
1. -/
theorem C20_sum_returns_old_flag_witness :
    sample_four.end_.iterator_version = sample_four.vector_version ∧
    sample_four.size = 4 ∧ sample_four.end_.index = 4 ∧ sample_four.end_.inside = 0 ∧
    (∃ c1, iterator.operator_minus sample_four sample_four.end_ 1
      = Except.ok (sample_four_end_minus_one, c1)) ∧
    sample_four_end_minus_one.index = 3 ∧ sample_four_end_minus_one.inside = 0 ∧
    (∃ tmp c1, iterator.operator_minus sample_four sample_four.end_ 1 = Except.ok (tmp, c1) ∧
      tmp.index = to_u64 ((sample_four.end_.index : Int) - 1) ∧
      tmp.inside = sample_four.end_.inside ∧
      tmp.iterator_version = sample_four.end_.iterator_version ∧
      tmp.record_reallocate_times = sample_four.end_.record_reallocate_times) ∧
    iterator.operator_minus_assign sample_four sample_four.end_ 1
      = Except.ok { sample_four_end_minus_one with inside := 1 } :=
  ⟨by decide, by decide, by decide, by decide, ⟨_, rfl⟩, rfl, rfl,
    (C20_sum_returns_old_flag sample_four sample_four.end_ 1 (by decide)).2.1, rfl⟩

/-! ## C21: the capacity-0 vector of an empty random-access range -/

/-- C21, as the code has it.  The random-access `build_vector` on an empty
range returns a vector of capacity 0 (`storage == 0`, `length == 0`,
`front_storage == 0`, an empty block), which satisfies
`front_storage + length <= storage`.  On it the growth path doubles 0 to 0 and
allocates a block of zero bytes, so both overloads of `push_back` construct
the new element at the end of a block without a slot, and both overloads of
`push_front` one element before its start: the calls run into undefined
behaviour and no state follows that satisfies the invariant.  `pop_back` and
`pop_front` throw and leave it unchanged.  On a vector of capacity at least 1
that satisfies the invariant, every push or pop that returns keeps it. -/
theorem C21_push_on_capacity_zero_undefined (a a1 : Nat) (raw : vector T) (x : T)
    (ha : 0 < a ∧ a < 2 ^ 64) (ha1 : 0 < a1 ∧ a1 < 2 ^ 64) :
    (∃ v0, vector.build_vector_random_access a raw ([] : List T) = Outcome.done v0 ∧
      v0.storage = 0 ∧ v0.length = 0 ∧ v0.front_storage = 0 ∧ v0.heap = [] ∧
      v0.front_storage + v0.length ≤ v0.storage ∧
      vector.push_back a1 x v0 = Outcome.undefined ∧
      vector.push_back_rv a1 x v0 = Outcome.undefined ∧
      vector.push_front a1 x v0 = Outcome.undefined ∧
      vector.push_front_rv a1 x v0 = Outcome.undefined ∧
      vector.pop_back v0 = Outcome.raised EmptyContainer v0 ∧
      vector.pop_front v0 = Outcome.raised EmptyContainer v0) ∧
    (∀ (op : Op T) (v v1 : vector T), vector.Inv v → op.apply v = Outcome.done v1 →
      vector.Inv v1 ∧ v1.front_storage + v1.length ≤ v1.storage ∧
      ∀ i, i < v1.length → (v1.heap.getD (v1.front_storage + i) none).isSome = true) := by
  have hs := Sized.sizeof_pos (T := T)
  have n0 : operator_new a 0 = some a := by
    unfold operator_new
    rw [if_pos ⟨ha.1, Nat.zero_le _, by omega⟩]
  have n1 : operator_new a1 0 = some a1 := by
    unfold operator_new
    rw [if_pos ⟨ha1.1, Nat.zero_le _, by omega⟩]
  have r0 : raw_block T 0 = [] := by
    unfold raw_block
    rw [Nat.zero_div]
    rfl
  have p0 : ∀ p, p < 2 ^ 64 → ptr_add T p 0 = p := by
    intro p hp
    unfold ptr_add
    rw [Nat.zero_mul, Nat.add_zero, Nat.mod_eq_of_lt hp]
  have c0 : ∀ (base p : Nat), construct T base ([] : List (Option T)) p x = none := by
    intro base p
    unfold construct slot
    rw [if_neg (by simp)]
  constructor
  · refine ⟨(vector.mk a a a a 0 0 0 0 0 []), ?_, rfl, rfl, rfl, rfl, Nat.le_refl _,
      ?_, ?_, ?_, ?_, ?_, ?_⟩
    · unfold vector.build_vector_random_access
      simp only [List.length_nil, Nat.zero_mod, Nat.mul_zero, n0, r0, construct_each,
        p0 a ha.2]
    · unfold vector.push_back
      simp only [if_true, Nat.zero_mul, Nat.mul_zero, Nat.zero_mod, n1, r0, relocate_move,
        Ref.read, c0]
    · unfold vector.push_back_rv
      simp only [if_true, Nat.zero_mul, Nat.mul_zero, Nat.zero_mod, n1, r0, c0]
    · unfold vector.push_front
      simp only [if_true, Nat.zero_mul, Nat.mul_zero, Nat.zero_mod, n1, r0, c0]
    · unfold vector.push_front_rv vector.push_front
      simp only [if_true, Nat.zero_mul, Nat.mul_zero, Nat.zero_mod, n1, r0, c0]
    · unfold vector.pop_back EmptyContainer
      rw [if_pos rfl]
    · unfold vector.pop_front EmptyContainer
      rw [if_pos rfl]
  · intro op v v1 hv e
    have i1 := (apply_inv op v v1 hv e).1
    exact ⟨i1, i1.h_le, i1.h_live⟩

/-- C21 on `vector<int>`: the vector built from an empty random-access range
in a zero-byte block at address 4096, and `push_back(1)` on it with the next
block offered at address 8192. -/
theorem C21_push_on_capacity_zero_undefined_witness :
    ((0 < 4096 ∧ 4096 < 2 ^ 64) ∧ (0 < 8192 ∧ 8192 < 2 ^ 64)) ∧
    vector.build_vector_random_access 4096 sample_empty ([] : List Int)
      = Outcome.done sample_empty_range ∧
    sample_empty_range.front_storage + sample_empty_range.length
      ≤ sample_empty_range.storage ∧
    vector.push_back 8192 (1 : Int) sample_empty_range = Outcome.undefined ∧
    vector.push_front 8192 1 sample_empty_range = Outcome.undefined := by
  obtain ⟨v0, e, _, _, _, _, h1, h2, _, h3, _⟩ :=
    (C21_push_on_capacity_zero_undefined 4096 8192 sample_empty (1 : Int)
      ⟨by decide, by decide⟩ ⟨by decide, by decide⟩).1
  have d : vector.build_vector_random_access 4096 sample_empty ([] : List Int)
      = Outcome.done sample_empty_range := by decide
  rw [d] at e
  cases e
  exact ⟨⟨⟨by decide, by decide⟩, ⟨by decide, by decide⟩⟩, d, h1, h2, h3⟩

/-! ## C23: the vector built from a single-pass range -/

/-- The branch of `push_back` that does not grow reads the pointers and the
block only: whatever the field `length` holds, the element goes to `dend` and
`length` is incremented. -/
theorem push_back_spare_any_length (v : vector T) (hv : vector.Inv v) (h : v.send ≠ v.dend)
    (a : Nat) (x : T) (L : Nat) :
    vector.push_back a x { v with length := L } = Outcome.done
      { v with
        heap := v.heap.set (v.front_storage + v.length) (some x)
        dend := v.dend + Sized.sizeof T
        length := (L + 1) % 2 ^ 64
        vector_version := (v.vector_version + 1) % 2 ^ 64 } := by
  have e := hv.push_back_spare h a x
  unfold vector.push_back at e ⊢
  simp only [if_neg h, Ref.read] at e ⊢
  cases hc : construct T v.sbegin v.heap v.dend x with
  | none =>
    rw [hc] at e
    cases e
  | some heap1 =>
    rw [hc] at e
    have e1 := Outcome.done.inj e
    simp only [vector.mk.injEq] at e1
    simp only [e1.2.1, e1.2.2.2.2.2.2.2.2.2]

/-- The loop of the generic `build_vector` while the block has room: every
round appends one element and adds two to the field `length`. -/
theorem push_each_spare (input : List (Nat × T)) :
    ∀ (v : vector T) (L : Nat), vector.Inv v → L < 2 ^ 64 →
      v.front_storage + v.length + input.length ≤ v.storage →
      ∃ w, push_each input { v with length := L }
          = Outcome.done { w with length := (L + 2 * input.length) % 2 ^ 64 } ∧
        vector.Inv w ∧ w.length = v.length + input.length ∧ w.storage = v.storage ∧
        w.front_storage = v.front_storage ∧
        w.live = v.live ++ input.map (fun p => some p.2) := by
  induction input with
  | nil =>
    intro v L hv hL _
    refine ⟨v, ?_, hv, rfl, rfl, rfl, by simp⟩
    simp only [List.length_nil, Nat.mul_zero, Nat.add_zero, Nat.mod_eq_of_lt hL]
    rfl
  | cons p rest ih =>
    intro v L hv hL hroom
    obtain ⟨a, x⟩ := p
    rw [List.length_cons] at hroom
    have h : v.send ≠ v.dend := fun e => by
      have := hv.send_eq_dend_iff.mp e
      omega
    have i1 := hv.push_back_spare_inv h x
    have l1 := hv.push_back_spare_live h x
    obtain ⟨w, e, hw, w1, w2, w3, w4⟩ := ih _ (((L + 1) % 2 ^ 64 + 1) % 2 ^ 64) i1
      (Nat.mod_lt _ (by norm_num)) (by simp only; omega)
    have hmod : (((L + 1) % 2 ^ 64 + 1) % 2 ^ 64 + 2 * rest.length) % 2 ^ 64
        = (L + 2 * (rest.length + 1)) % 2 ^ 64 := by omega
    refine ⟨w, ?_, hw, by rw [w1, List.length_cons]; simp only; omega, w2, w3, ?_⟩
    · rw [push_each, push_back_spare_any_length v hv h a x L, List.length_cons, ← hmod]
      exact e
    · rw [w4, l1, List.map_cons, List.append_assoc]
      rfl

/-- C23, as the code has it.  The generic `build_vector`, which the
constructor `vector(IT b, IT e)` runs on a single-pass input range, calls
`push_back(*b)`, which increments `length`, and then increments `length` once
more.  For a range of `n` elements, `1 <= n <= min_capacity`, the constructor
returns a vector whose `size()` (`dend - dbegin`) is `n` and whose `operator[]`
reads the `n` elements, but whose field `length` is `2 * n`: the field does
not agree with the pointer layout. -/
theorem C23_single_pass_range_counts_twice (a : Nat) (raw v0 : vector T)
    (input : List (Nat × T)) (hT : Sized.sizeof T * min_capacity < 2 ^ 64)
    (h0 : vector.vector_void T a = some v0)
    (hraw : raw.reallocate_times < 2 ^ 64 ∧ raw.vector_version < 2 ^ 64)
    (hn : 1 ≤ input.length) (h8 : input.length ≤ min_capacity) :
    ∃ v, vector.build_vector_generic a raw input = Outcome.done v ∧
      v.size = input.length ∧ v.length = 2 * input.length ∧ v.length ≠ v.size ∧
      v.front_storage = 0 ∧ v.storage = min_capacity ∧
      v.elements = input.map (fun p => some p.2) := by
  have hv0 := (vector.vector_void_holds a v0 hT h0).1
  obtain ⟨f1, f2, f3, _, _⟩ := vector_void_fields a v0 h0
  have hv1 : vector.Inv
      { v0 with reallocate_times := raw.reallocate_times, vector_version := raw.vector_version } :=
    { h_send := hv0.h_send
      h_top := hv0.h_top
      h_bytes := hv0.h_bytes
      h_dbegin := hv0.h_dbegin
      h_dend := hv0.h_dend
      h_le := hv0.h_le
      h_heap := hv0.h_heap
      h_cap := hv0.h_cap
      h_live := hv0.h_live
      h_realloc := hraw.1
      h_version := hraw.2 }
  have hc : min_capacity = 8 := rfl
  obtain ⟨w, e, hw, w1, w2, w3, w4⟩ := push_each_spare input _ 0 hv1 (by norm_num)
    (by simp only [f1, f2, f3]; omega)
  simp only [f2, Nat.zero_add] at w1
  have hlive0 : v0.live = [] := by
    have := hv0.live_length
    rw [f2] at this
    exact List.length_eq_zero.mp this
  have hlive : w.live = input.map (fun p => some p.2) := by
    rw [w4]
    show v0.live ++ _ = _
    rw [hlive0, List.nil_append]
  have hmod : (0 + 2 * input.length) % 2 ^ 64 = 2 * input.length := by
    rw [hc] at h8
    omega
  rw [hmod] at e
  have hbuild : vector.build_vector_generic a raw input = Outcome.done
      { w with
        length := 2 * input.length
        reallocate_times := 0
        vector_version := 0 } := by
    unfold vector.vector_void at h0
    unfold vector.build_vector_generic
    cases hn0 : operator_new a (Sized.sizeof T * min_capacity % 2 ^ 64) with
    | none => rw [hn0] at h0; cases h0
    | some sbegin =>
      rw [hn0] at h0
      cases h0
      have e2 : push_each input
          { raw with
            storage := min_capacity
            sbegin := sbegin
            send := ptr_add T sbegin min_capacity
            dbegin := sbegin
            dend := sbegin
            front_storage := 0
            length := 0
            heap := raw_block T (Sized.sizeof T * min_capacity % 2 ^ 64) }
          = Outcome.done { w with length := 2 * input.length } := e
      simp only [hn0, e2]
  have hsize : vector.size
      { w with
        length := 2 * input.length
        reallocate_times := 0
        vector_version := 0 } = w.size := rfl
  have helem : vector.elements
      { w with
        length := 2 * input.length
        reallocate_times := 0
        vector_version := 0 } = w.elements := rfl
  refine ⟨_, hbuild, by rw [hsize, hw.size_eq, w1], rfl, ?_, w3.trans f3, w2.trans f1,
    by rw [helem, hw.elements_eq_live, hlive]⟩
  rw [hsize, hw.size_eq, w1]
  show 2 * input.length ≠ input.length
  omega

/-- C23 on `vector<int>`: the single-pass range 10, 20, 30 gives a vector
with `size() == 3` and `length == 6`; with nine elements in the range, the
ninth `push_back` grows the block from `length`, reads past the old block, and
the construction runs into undefined behaviour. -/
theorem C23_single_pass_range_counts_twice_witness :
    (Sized.sizeof Int * min_capacity < 2 ^ 64 ∧
      vector.vector_void Int 4096 = some sample_empty ∧
      (sample_empty.reallocate_times < 2 ^ 64 ∧ sample_empty.vector_version < 2 ^ 64) ∧
      1 ≤ [((0 : Nat), (10 : Int)), (0, 20), (0, 30)].length ∧
      [((0 : Nat), (10 : Int)), (0, 20), (0, 30)].length ≤ min_capacity) ∧
    vector.build_vector_generic 4096 sample_empty [(0, 10), (0, 20), (0, 30)]
      = Outcome.done sample_built_three ∧
    sample_built_three.size = 3 ∧ sample_built_three.length = 6 ∧
    sample_built_three.elements = [some 10, some 20, some 30] ∧
    vector.build_vector_generic 4096 sample_empty
      [(0, 10), (0, 20), (0, 30), (0, 40), (0, 50), (0, 60), (0, 70), (0, 80), (8192, 90)]
      = Outcome.undefined := by
  obtain ⟨v, e, h1, h2, _, _, _, h3⟩ :=
    C23_single_pass_range_counts_twice 4096 sample_empty sample_empty
      [(0, (10 : Int)), (0, 20), (0, 30)] (by decide) (by decide) ⟨by decide, by decide⟩
      (by decide) (by decide)
  have d : vector.build_vector_generic 4096 sample_empty [(0, (10 : Int)), (0, 20), (0, 30)]
      = Outcome.done sample_built_three := by decide
  rw [d] at e
  cases e
  exact ⟨⟨by decide, by decide, ⟨by decide, by decide⟩, by decide, by decide⟩, d, h1, h2, h3,
    by decide⟩

/-! ## C22: queue-style use -/

end epl
